import Mathlib

/-!
# ai_push_message: profile merge, recommendation aggregation, search, scheduler

A shallow embedding of `services/profile_core_service.go` (`mergeProfiles`),
`utils/text_utils.go` (`DeduplicateSlice`) and `services/push_service.go`
(`aggregate`), then of `services/recommendation_service.go` and
`scheduler/scheduler.go`, followed by theorems about them.

Modelling conventions.

* A Go `map[string]T` is an association list `GoMap T` read with `GoMap.get?`
  (first binding wins) and written with `GoMap.set` (overwrite in place, else
  append).  Maps built from the empty map by `set` have pairwise distinct keys.
* The order in which Go ranges over a map is unspecified.  Wherever that order
  can be observed it is supplied by a `RangeOrder`, an arbitrary rearrangement
  of the entries.  `sort.Slice` is not stable, so after ranging and sorting any
  arrangement that is descending in the sort key can come out; the model sorts
  the ranged entries with a stable insertion sort, which produces exactly this
  set of outcomes as the `RangeOrder` varies.
* A finite `float64` is modelled by the rational number it denotes (JSON numbers
  never decode to NaN or an infinity).  Comparisons of finite floats agree with
  comparisons of these rationals.  The only floating-point arithmetic of the
  embedded code, the weight decay `0.9 - float64(i)*0.1`, is modelled with
  explicit round-to-nearest-even in `F64`.
* `json.Unmarshal` is not modelled as a text parser: `mergeProfiles` receives
  the four decoding results (`none` when decoding fails) and returns the merged
  profile as the Go map that is handed to `json.Marshal`.
* `time.Now().Format(time.RFC3339)` is the parameter `now`.
-/

namespace AiPush

/-! ## Go maps -/

/-- Association-list model of a Go `map[string]β`. -/
abbrev GoMap (β : Type) := List (String × β)

namespace GoMap

/-- Map read `v, ok := m[k]`. -/
def get? {β : Type} : GoMap β → String → Option β
  | [], _ => none
  | (k', v) :: rest, k => if k' = k then some v else get? rest k

/-- Map write `m[k] = v`. -/
def set {β : Type} : GoMap β → String → β → GoMap β
  | [], k, v => [(k, v)]
  | (k', v') :: rest, k, v => if k' = k then (k, v) :: rest else (k', v') :: set rest k v

/-- Keys of the map, in representation order. -/
def keys {β : Type} (m : GoMap β) : List String := m.map Prod.fst

end GoMap

/-- One possible iteration order of `for k, v := range m`: some rearrangement
of the entries of the map. -/
structure RangeOrder (β : Type) where
  run : GoMap β → GoMap β
  perm : ∀ m, (run m).Perm m

/-- The iteration order that visits entries in representation order. -/
def RangeOrder.inOrder (β : Type) : RangeOrder β := ⟨fun m => m, fun _ => List.Perm.refl _⟩

/-- The iteration order that visits entries in reverse representation order. -/
def RangeOrder.reversed (β : Type) : RangeOrder β := ⟨fun m => m.reverse, fun m => List.reverse_perm m⟩

/-! ## Decoded JSON values -/

/-- A value produced by `json.Unmarshal` into `interface{}`. -/
inductive JSON where
  | null
  | bool (b : Bool)
  | num (q : ℚ)
  | str (s : String)
  | arr (xs : List JSON)
  | obj (kvs : List (String × JSON))

/-- Type assertion `x.(string)` on a map read, with the zero value on failure. -/
def asString : Option JSON → String
  | some (JSON.str s) => s
  | _ => ""

/-- Type assertion `x.(float64)` on a map read, with the zero value on failure. -/
def asFloat : Option JSON → ℚ
  | some (JSON.num q) => q
  | _ => 0

/-! ## utils.DeduplicateSlice -/

/-- Go `unicode.IsSpace`. -/
def isSpace (c : Char) : Bool :=
  let n := c.toNat
  if n ≤ 0xFF then
    n = 0x09 || n = 0x0A || n = 0x0B || n = 0x0C || n = 0x0D || n = 0x20 || n = 0x85 || n = 0xA0
  else
    n = 0x1680 || (0x2000 ≤ n && n ≤ 0x200A) || n = 0x2028 || n = 0x2029 || n = 0x202F
      || n = 0x205F || n = 0x3000

/-- Go `strings.TrimSpace`: leading and trailing white space removed. -/
def TrimSpace (s : String) : String :=
  String.mk ((s.toList.dropWhile isSpace).rdropWhile isSpace)

/-- Loop of `DeduplicateSlice`: `seen` and `result` are the loop variables. -/
def DeduplicateSlice.loop : List String → GoMap Bool → List String → List String
  | [], _, result => result
  | val :: rest, seen, result =>
    let val := TrimSpace val
    if val ≠ "" ∧ ¬ ((seen.get? val).getD false = true) then
      DeduplicateSlice.loop rest (seen.set val true) (result ++ [val])
    else
      DeduplicateSlice.loop rest seen result

/-- Embedding of `utils.DeduplicateSlice`. -/
def DeduplicateSlice (input : List String) : List String :=
  DeduplicateSlice.loop input [] []

/-! ## The float64 arithmetic of the weight decay

`weight := 0.9 - float64(i)*0.1` is evaluated in binary64 with round to nearest,
ties to even.  Values are counted in units of `2^-56`: the literals `0.9` and
`0.1` and every product `float64(i)*0.1` with `i ≥ 1` are at least `2^-4`,
where neighbouring float64 values are at least `2^-56` apart, so each value that
occurs (and each exact difference of two of them) is a whole number of units.
Go permits an implementation to fuse `x*y` with the following subtraction into
one operation with a single rounding; `fused` selects that evaluation. -/

namespace F64

/-- How many low-order bits `n` has beyond 53 significant bits. -/
def excess : Nat → Nat → Nat
  | 0, _ => 0
  | fuel + 1, n => if n < 2 ^ 53 then 0 else excess fuel (n / 2) + 1

/-- Quotient `n / d` rounded to the nearest integer, ties to even. -/
def roundEvenDiv (n d : Nat) : Nat :=
  let q := n / d
  let r := n % d
  if 2 * r < d then q else if d < 2 * r then q + 1 else if q % 2 = 0 then q else q + 1

/-- The rational `n / d` (at least `2^52`, or a whole number) rounded to 53
significant bits, to nearest, ties to even. -/
def roundRat (n d : Nat) : Nat :=
  let s := excess (n / d) (n / d)
  roundEvenDiv n (d * 2 ^ s) * 2 ^ s

/-- A whole number rounded to 53 significant bits. -/
def round53 (n : Nat) : Nat := roundRat n 1

/-- Rounding of a signed whole number of units. -/
def roundInt (z : Int) : Int :=
  if z < 0 then -((round53 z.natAbs : Nat) : Int) else ((round53 z.natAbs : Nat) : Int)

/-- The float64 nearest to the decimal literal `n / d`, in units of `2^-56`. -/
def lit (n d : Nat) : Nat := roundRat (n * 2 ^ 56) d

/-- The rational denoted by a whole number of units. -/
def toRat (units : Int) : ℚ := (units : ℚ) / 2 ^ 56

end F64

/-- The body of the decay loop for index `i`, in units of `2^-56`:
`weight := 0.9 - float64(i)*0.1; if weight < 0.1 { weight = 0.1 }`. -/
def decayUnits (fused : Bool) (i : Nat) : Int :=
  let fi := F64.round53 i
  let weight : Int :=
    if fused then F64.roundInt ((F64.lit 9 10 : Int) - ((fi * F64.lit 1 10 : Nat) : Int))
    else F64.roundInt ((F64.lit 9 10 : Int) - ((F64.round53 (fi * F64.lit 1 10) : Nat) : Int))
  if weight < (F64.lit 1 10 : Int) then (F64.lit 1 10 : Int) else weight

/-- The weight the decay loop assigns to the interest at 0-based index `i`. -/
def decayWeight (fused : Bool) (i : Nat) : ℚ := F64.toRat (decayUnits fused i)

/-! ## services.mergeProfiles -/

/-- Go `models.WeightedKeyword`. -/
structure WeightedKeyword where
  Keyword : String
  Weight : ℚ
deriving DecidableEq

/-- A value stored in the `mergedProfile` map (`map[string]interface{}`). -/
inductive Value where
  | strings (xs : List String)
  | keywords (ws : List WeightedKeyword)
  | string (s : String)
  | json (j : JSON)

/-- The loop `for _, item := range ints { if interest, ok := item.(string); ok { append } }`. -/
def appendStrings (merged : List String) : List JSON → List String
  | [] => merged
  | JSON.str interest :: rest => appendStrings (merged ++ [interest]) rest
  | _ :: rest => appendStrings merged rest

/-- The block `if ints, ok := profile["interests"].([]interface{}); ok { ... }`. -/
def appendInterests (merged : List String) (profile : GoMap JSON) : List String :=
  match profile.get? "interests" with
  | some (JSON.arr ints) => appendStrings merged ints
  | _ => merged

/-- The loop over the old profile's weighted keywords: the weight is stored. -/
def oldKeywordLoop (allKeywords : GoMap ℚ) : List JSON → GoMap ℚ
  | [] => allKeywords
  | JSON.obj kwObj :: rest =>
    let keyword := asString (GoMap.get? kwObj "keyword")
    let weight := asFloat (GoMap.get? kwObj "weight")
    if keyword ≠ "" then oldKeywordLoop (allKeywords.set keyword weight) rest
    else oldKeywordLoop allKeywords rest
  | _ :: rest => oldKeywordLoop allKeywords rest

/-- The loop over the new profile's weighted keywords: an existing weight is
replaced only by a larger one. -/
def newKeywordLoop (allKeywords : GoMap ℚ) : List JSON → GoMap ℚ
  | [] => allKeywords
  | JSON.obj kwObj :: rest =>
    let keyword := asString (GoMap.get? kwObj "keyword")
    let weight := asFloat (GoMap.get? kwObj "weight")
    if keyword ≠ "" then
      match allKeywords.get? keyword with
      | some existingWeight =>
        if weight > existingWeight then newKeywordLoop (allKeywords.set keyword weight) rest
        else newKeywordLoop allKeywords rest
      | none => newKeywordLoop (allKeywords.set keyword weight) rest
    else newKeywordLoop allKeywords rest
  | _ :: rest => newKeywordLoop allKeywords rest

/-- The map `allKeywords` after both loops. -/
def collectKeywords (oldProfile newProfile : GoMap JSON) : GoMap ℚ :=
  let allKeywords : GoMap ℚ := []
  let allKeywords :=
    match oldProfile.get? "weighted_keywords" with
    | some (JSON.arr oldWk) => oldKeywordLoop allKeywords oldWk
    | _ => allKeywords
  match newProfile.get? "weighted_keywords" with
  | some (JSON.arr newWk) => newKeywordLoop allKeywords newWk
  | _ => allKeywords

/-- The comparison of `sort.Slice` in `mergeProfiles`, as "may stand before". -/
def weightGE (a b : WeightedKeyword) : Prop := b.Weight ≤ a.Weight

instance : DecidableRel weightGE := fun a b => inferInstanceAs (Decidable (b.Weight ≤ a.Weight))

/-- The slice `mergedWeightedKeywords` after ranging over the map and sorting. -/
def sortedKeywords (ro : RangeOrder ℚ) (allKeywords : GoMap ℚ) : List WeightedKeyword :=
  ((ro.run allKeywords).map fun kv => (⟨kv.1, kv.2⟩ : WeightedKeyword)).insertionSort weightGE

/-- The activity level chosen by `mergeProfiles`. -/
def mergeActivityLevel (oldProfile newProfile : GoMap JSON) : String :=
  let activityLevel := "low"
  let activityLevel :=
    match oldProfile.get? "activity_level" with
    | some (JSON.str oldLevel) => oldLevel
    | _ => activityLevel
  match newProfile.get? "activity_level" with
  | some (JSON.str newLevel) =>
    if newLevel = "high" ∨ (newLevel = "medium" ∧ activityLevel = "low") then newLevel
    else activityLevel
  | _ => activityLevel

/-- The user type chosen by `mergeProfiles`. -/
def mergeUserType (oldProfile newProfile : GoMap JSON) : String :=
  let userType := ""
  let userType :=
    match oldProfile.get? "user_type" with
    | some (JSON.str oldType) => oldType
    | _ => userType
  match newProfile.get? "user_type" with
  | some (JSON.str newType) => if newType ≠ "" then newType else userType
  | _ => userType

/-- The keywords synthesised from the interests, starting at index `i`. -/
def decayKeywords (fused : Bool) : Nat → List String → List WeightedKeyword
  | _, [] => []
  | i, interest :: rest => ⟨interest, decayWeight fused i⟩ :: decayKeywords fused (i + 1) rest

/-- The loop `for key, value := range profile { if !exists { merged[key] = value } }`. -/
def copyMissing (mergedProfile : GoMap Value) : GoMap JSON → GoMap Value
  | [] => mergedProfile
  | (key, value) :: rest =>
    match mergedProfile.get? key with
    | none => copyMissing (mergedProfile.set key (Value.json value)) rest
    | some _ => copyMissing mergedProfile rest

/-- The part of `mergeProfiles` after the four inputs have been decoded. -/
def mergeDecoded (fused : Bool) (ro : RangeOrder ℚ) (now : String)
    (oldProfile newProfile : GoMap JSON) (oldKeywords newKeywords : List String) :
    GoMap Value × List String :=
  let mergedInterests : List String := []
  let mergedInterests := appendInterests mergedInterests oldProfile
  let mergedInterests := appendInterests mergedInterests newProfile
  let mergedInterests := DeduplicateSlice mergedInterests
  let allKeywords := collectKeywords oldProfile newProfile
  let mergedWeightedKeywords := sortedKeywords ro allKeywords
  let mergedKeywords := DeduplicateSlice (oldKeywords ++ newKeywords)
  let activityLevel := mergeActivityLevel oldProfile newProfile
  let userType := mergeUserType oldProfile newProfile
  let mergedProfile : GoMap Value :=
    [("interests", Value.strings mergedInterests),
     ("weighted_keywords", Value.keywords mergedWeightedKeywords),
     ("activity_level", Value.string activityLevel),
     ("user_type", Value.string userType),
     ("updated_at", Value.string now)]
  let backfill : List WeightedKeyword × List String × GoMap Value :=
    if mergedInterests.length > 0 ∧ mergedWeightedKeywords.length = 0 then
      let synthesised := mergedWeightedKeywords ++ decayKeywords fused 0 mergedInterests
      (synthesised, mergedKeywords ++ mergedInterests,
        mergedProfile.set "weighted_keywords" (Value.keywords synthesised))
    else (mergedWeightedKeywords, mergedKeywords, mergedProfile)
  let mergedWeightedKeywords := backfill.1
  let mergedKeywords := backfill.2.1
  let mergedProfile := backfill.2.2
  let mergedProfile :=
    if mergedInterests.length = 0 ∧ mergedWeightedKeywords.length > 0 then
      mergedProfile.set "interests"
        (Value.strings (mergedInterests ++ mergedWeightedKeywords.map fun wk => wk.Keyword))
    else mergedProfile
  let mergedProfile := copyMissing mergedProfile oldProfile
  let mergedProfile := copyMissing mergedProfile newProfile
  (mergedProfile, mergedKeywords)

/-- Embedding of `mergeProfiles`.  Each of the four arguments is the result of
the corresponding `json.Unmarshal`, `none` when it returns an error. -/
def mergeProfiles (fused : Bool) (ro : RangeOrder ℚ) (now : String)
    (oldProfile newProfile : Option (GoMap JSON)) (oldKeywords newKeywords : Option (List String)) :
    Except String (GoMap Value × List String) :=
  match oldProfile with
  | none => Except.error "解析旧画像失败"
  | some oldProfile =>
    match newProfile with
    | none => Except.error "解析新画像失败"
    | some newProfile =>
      match oldKeywords with
      | none => Except.error "解析旧关键词失败"
      | some oldKeywords =>
        match newKeywords with
        | none => Except.error "解析新关键词失败"
        | some newKeywords =>
          Except.ok (mergeDecoded fused ro now oldProfile newProfile oldKeywords newKeywords)

/-- The `interests` entry of a merged profile. -/
def interestsOf (p : GoMap Value) : List String :=
  match p.get? "interests" with
  | some (Value.strings xs) => xs
  | _ => []

/-- The `weighted_keywords` entry of a merged profile. -/
def weightedKeywordsOf (p : GoMap Value) : List WeightedKeyword :=
  match p.get? "weighted_keywords" with
  | some (Value.keywords ws) => ws
  | _ => []

/-- The `activity_level` entry of a merged profile. -/
def activityLevelOf (p : GoMap Value) : Option String :=
  match p.get? "activity_level" with
  | some (Value.string s) => some s
  | _ => none

/-! ## services.aggregate -/

/-- Go `models.RecommendationItem`. -/
structure RecommendationItem where
  Source : String
  Title : String
  URL : String
  Score : ℚ
  RefID : String
  SearchKeyword : String
  Content : String
deriving DecidableEq

/-- The map key built by `aggregate`: `it.Source + "|" + it.RefID + "|" + it.Title`. -/
def itemKey (it : RecommendationItem) : String :=
  it.Source ++ "|" ++ it.RefID ++ "|" ++ it.Title

/-- The first loop of `aggregate`: on a repeated key the higher score is kept. -/
def aggregate.loop (m : GoMap RecommendationItem) : List RecommendationItem → GoMap RecommendationItem
  | [] => m
  | it :: rest =>
    let key := itemKey it
    match m.get? key with
    | some old =>
      if it.Score > old.Score then aggregate.loop (m.set key it) rest
      else aggregate.loop m rest
    | none => aggregate.loop (m.set key it) rest

/-- The comparison of `sort.Slice` in `aggregate`, as "may stand before". -/
def scoreGE (a b : RecommendationItem) : Prop := b.Score ≤ a.Score

instance : DecidableRel scoreGE := fun a b => inferInstanceAs (Decidable (b.Score ≤ a.Score))

/-- Embedding of `aggregate`. -/
def aggregate (ro : RangeOrder RecommendationItem) (itemsA itemsB : List RecommendationItem)
    (topN : Int) : List RecommendationItem :=
  let m := aggregate.loop [] (itemsA ++ itemsB)
  let arr := (ro.run m).map Prod.snd
  let arr := arr.insertionSort scoreGE
  if topN > 0 ∧ (arr.length : Int) > topN then arr.take topN.toNat else arr

/-! ## Vocabulary of the specification -/

/-- The string entries of a payload's `interests` array. -/
def interestStrings (profile : GoMap JSON) : List String :=
  match profile.get? "interests" with
  | some (JSON.arr ints) => ints.filterMap fun item =>
      match item with
      | JSON.str s => some s
      | _ => none
  | _ => []

/-- The (keyword, weight) pairs of the object entries of a `weighted_keywords`
array, read the way `mergeProfiles` reads them. -/
def keywordPairs (items : List JSON) : List (String × ℚ) :=
  items.filterMap fun item =>
    match item with
    | JSON.obj kwObj => some (asString (GoMap.get? kwObj "keyword"), asFloat (GoMap.get? kwObj "weight"))
    | _ => none

/-- The (keyword, weight) pairs of a payload's `weighted_keywords` array. -/
def weightedPairs (profile : GoMap JSON) : List (String × ℚ) :=
  match profile.get? "weighted_keywords" with
  | some (JSON.arr wk) => keywordPairs wk
  | _ => []

/-- A list with every later duplicate removed, duplicates being equal strings. -/
def removeLaterDuplicates : List String → List String
  | [] => []
  | x :: xs => x :: (removeLaterDuplicates xs).filter fun y => y ≠ x

/-- The ordinal levels of the specification, lowest first. -/
def activityLevels : List String := ["minimal", "low", "medium", "high"]

/-- Position of a level in `minimal < low < medium < high`. -/
def levelRank (level : String) : Nat :=
  if level = "high" then 3 else if level = "medium" then 2 else if level = "low" then 1 else 0

/-- The higher of two levels. -/
def higherLevel (a b : String) : String := if levelRank a < levelRank b then b else a

/-- The keys that `mergeProfiles` sets explicitly. -/
def explicitKeys : List String :=
  ["interests", "weighted_keywords", "activity_level", "user_type", "updated_at"]

/-- The (source, referenceId, title) triple of an item. -/
def itemTriple (it : RecommendationItem) : String × String × String :=
  (it.Source, it.RefID, it.Title)

/-- The interests of the two payloads before the backfill. -/
def baseInterests (oldProfile newProfile : GoMap JSON) : List String :=
  DeduplicateSlice (appendInterests (appendInterests [] oldProfile) newProfile)

/-! ## Auxiliary definitions used in the proofs -/

/-- The entries that survive `DeduplicateSlice` before duplicates are dropped:
trimmed, and not empty after trimming. -/
def trimmedNonEmpty (xs : List String) : List String :=
  (xs.map TrimSpace).filter fun v => v ≠ ""

/-- The weighted keywords of the result: the sorted merged keywords, or the
keywords synthesised from the interests when there are none. -/
def finalKeywords (fused : Bool) (base : List String) (sorted : List WeightedKeyword) :
    List WeightedKeyword :=
  if base ≠ [] ∧ sorted = [] then decayKeywords fused 0 base else sorted

/-- The interests of the result: the merged interests, or the keyword names
when there are none. -/
def finalInterests (base : List String) (sorted : List WeightedKeyword) : List String :=
  if base = [] ∧ sorted ≠ [] then sorted.map (fun wk => wk.Keyword) else base

/-- The five entries `mergeProfiles` sets explicitly, after the backfill. -/
def coreProfile (fused : Bool) (ro : RangeOrder ℚ) (now : String)
    (oldProfile newProfile : GoMap JSON) : GoMap Value :=
  [("interests", Value.strings
      (finalInterests (baseInterests oldProfile newProfile)
        (sortedKeywords ro (collectKeywords oldProfile newProfile)))),
   ("weighted_keywords", Value.keywords
      (finalKeywords fused (baseInterests oldProfile newProfile)
        (sortedKeywords ro (collectKeywords oldProfile newProfile)))),
   ("activity_level", Value.string (mergeActivityLevel oldProfile newProfile)),
   ("user_type", Value.string (mergeUserType oldProfile newProfile)),
   ("updated_at", Value.string now)]

/-- The effect of one object entry of the new profile's keywords on the map. -/
def newKeywordStep (m : GoMap ℚ) (p : String × ℚ) : GoMap ℚ :=
  if p.1 = "" then m
  else match m.get? p.1 with
    | some existingWeight => if p.2 > existingWeight then m.set p.1 p.2 else m
    | none => m.set p.1 p.2

/-! ## Example payloads -/

/-- A payload with one weighted keyword. -/
def keywordPayload (keyword : String) (weight : ℚ) : GoMap JSON :=
  [("weighted_keywords",
    JSON.arr [JSON.obj [("keyword", JSON.str keyword), ("weight", JSON.num weight)]])]

/-- A payload with the given interests and nothing else. -/
def interestPayload (interests : List String) : GoMap JSON :=
  [("interests", JSON.arr (interests.map JSON.str))]

/-- A payload with the given activity level and nothing else. -/
def levelPayload (level : String) : GoMap JSON :=
  [("activity_level", JSON.str level)]

/-- A payload with one extra attribute and nothing else. -/
def extraPayload (key value : String) : GoMap JSON :=
  [(key, JSON.str value)]

/-- The ten interests of the weight-decay example. -/
def tenInterests : List String := ["a", "b", "c", "d", "e", "f", "g", "h", "i", "k"]

/-- The decayed weights of indices 0 to 7 in units of `2^-56`, as float64
arithmetic yields them: 0.9, 0.8, 0.7, 0.6, 0.5, 0.4, then 0.29999999999999993 and
0.19999999999999996 (0.3 and 0.19999999999999998 with a fused multiply-subtract). -/
def decayTable (fused : Bool) : List Int :=
  [64851834634135144, 57646075230342352, 50440315826549552, 43234556422756760,
   36028797018963968, 28823037615171176,
   if fused then 21617278211378380 else 21617278211378376,
   if fused then 14411518807585586 else 14411518807585584]

/-- The weights 0.9, 0.8, ..., 0.2, 0.1, 0.1 of the weight-decay example, read as
the float64 values nearest to these decimals. -/
def claimedDecayWeights : List ℚ :=
  [F64.lit 9 10, F64.lit 8 10, F64.lit 7 10, F64.lit 6 10, F64.lit 5 10, F64.lit 4 10,
   F64.lit 3 10, F64.lit 2 10, F64.lit 1 10, F64.lit 1 10].map fun u => F64.toRat (u : Int)

/-- The weights 0.9, 0.8, ..., 0.2, 0.1, 0.1 of the weight-decay example, read as
exact decimals. -/
def claimedDecayWeightsExact : List ℚ :=
  [9 / 10, 8 / 10, 7 / 10, 6 / 10, 5 / 10, 4 / 10, 3 / 10, 2 / 10, 1 / 10, 1 / 10]

/-- The weights of the merged weighted keywords, in order. -/
def weightsOf (p : GoMap Value) : List ℚ := (weightedKeywordsOf p).map fun wk => wk.Weight

/-- A full payload: interests, one weighted keyword and an activity level. -/
def fullPayload (interests : List String) (keyword : String) (weight : ℚ) (level : String) :
    GoMap JSON :=
  [("interests", JSON.arr (interests.map JSON.str)),
   ("weighted_keywords",
    JSON.arr [JSON.obj [("keyword", JSON.str keyword), ("weight", JSON.num weight)]]),
   ("activity_level", JSON.str level)]

/-- The effect of one item on the map of `aggregate`. -/
def aggregate.step (m : GoMap RecommendationItem) (it : RecommendationItem) :
    GoMap RecommendationItem :=
  match m.get? (itemKey it) with
  | some old => if it.Score > old.Score then m.set (itemKey it) it else m
  | none => m.set (itemKey it) it

/-- The deduplicated items: the values of the map `m` that `aggregate` builds. -/
def dedupItems (itemsA itemsB : List RecommendationItem) : List RecommendationItem :=
  (aggregate.loop [] (itemsA ++ itemsB)).map Prod.snd

/-- An item of source `rag` with reference id `1` and title `T`. -/
def ragItem (score : ℚ) : RecommendationItem :=
  { Source := "rag", Title := "T", URL := "", Score := score, RefID := "1",
    SearchKeyword := "", Content := "" }

/-- The invariant of the map of `aggregate` after the items `seen`: keys are
distinct, every entry is a seen item stored under its own key, and every seen
item is dominated by the entry stored under its key. -/
structure AggInv (m : GoMap RecommendationItem) (seen : List RecommendationItem) : Prop where
  nodup : m.keys.Nodup
  entry : ∀ k v, m.get? k = some v → k = itemKey v ∧ v ∈ seen
  best : ∀ y ∈ seen, ∃ v, m.get? (itemKey y) = some v ∧ y.Score ≤ v.Score

instance : IsTotal WeightedKeyword weightGE := ⟨fun a b => le_total b.Weight a.Weight⟩

instance : IsTrans WeightedKeyword weightGE := ⟨fun _ _ _ hab hbc => le_trans hbc hab⟩

instance : IsTotal RecommendationItem scoreGE := ⟨fun a b => le_total b.Score a.Score⟩

instance : IsTrans RecommendationItem scoreGE := ⟨fun _ _ _ hab hbc => le_trans hbc hab⟩

end AiPush

/-! # Knowledge-base search and the scheduler

A shallow embedding of `services/recommendation_service.go`
(`extractKeywords`, `SearchKnowledgeBaseByProfile`,
`ForceGenerateRecommendationsForUserWithProfile`), `utils.FilterSpecialSymbols`
and `scheduler/scheduler.go`.

Further modelling conventions.

* The external search `CallRAG` is a parameter `search`, a function of the
  keyword.  One call of `SearchKnowledgeBaseByProfile` searches no keyword
  twice, so any behaviour of the external service during that call is such a
  function.
* `SearchKnowledgeBaseByProfile` always returns a nil error, so the embedding
  returns the item list only; `none` stands for the run-time panic of the slice
  expression `allRecommendations[:topK]` with a negative `topK`.
* The field `calls` of `SearchState` is an observer added to the loop: it
  records, for every invocation of `CallRAG`, the keyword and
  `len(allRecommendations)` at that moment.
* The recommendation table is a `GoMap` from user id to the saved snapshot; the
  outcome of the database statement is the parameter `saveErr`, and a failed
  statement leaves the table as it was.
* A `time.Time` is the integer number of nanoseconds since the zero time
  (`0` is the zero time, `IsZero`); a `time.Duration` is an integer number of
  nanoseconds.  Both are unbounded integers: instants and configured second
  counts are taken inside the range of Go's representations.  The scheduler's
  location is a zone with a fixed offset `zone` (nanoseconds east of UTC), so
  `time.Date(y, m, d, hour, minute, 0, 0, loc)` is the start of the local day
  plus `hour` hours and `minute` minutes.
* The mutex of the scheduler is not modelled: `checkTasks`, `initTasks` and the
  deferred block of `runTask` are atomic state transformers.
-/

namespace AiPush

/-! ## utils.FilterSpecialSymbols -/

/-- Code points of the map `commonPunctuation` in `FilterSpecialSymbols`: the
fullwidth and CJK marks first, then the ASCII marks, blank, newline, carriage
return and tab. -/
def commonPunctuation : List Nat :=
  [0xFF0C, 0x3002, 0xFF01, 0xFF1F, 0xFF1A, 0xFF1B, 0x3001, 0xFF08, 0xFF09,
   0x3010, 0x3011, 0x300A, 0x300B, 0x2014,
   0x2C, 0x2E, 0x21, 0x3F, 0x3A, 0x3B, 0x22, 0x27, 0x28, 0x29, 0x5B, 0x5D,
   0x7B, 0x7D, 0x3C, 0x3E, 0x2D, 0x5F, 0x2B, 0x3D, 0x2F, 0x5C, 0x7C, 0x20,
   0x0A, 0x0D, 0x09]

/-- The test of the loop in `FilterSpecialSymbols`: Chinese characters, ASCII
letters and digits, and the common punctuation are kept. -/
def keepRune (r : Char) : Bool :=
  let n := r.toNat
  (0x4E00 ≤ n && n ≤ 0x9FA5) || (0x41 ≤ n && n ≤ 0x5A) || (0x61 ≤ n && n ≤ 0x7A)
    || (0x30 ≤ n && n ≤ 0x39) || commonPunctuation.contains n

/-- Embedding of `utils.FilterSpecialSymbols`. -/
def FilterSpecialSymbols (text : String) : String :=
  String.mk (text.toList.filter keepRune)

/-! ## services.SearchKnowledgeBaseByProfile -/

/-- The external search capability `CallRAG(cfg, keyword)`. -/
abbrev Search := String → Except String (List RecommendationItem)

/-- The deduplication key of `SearchKnowledgeBaseByProfile`:
`item.RefID + "|" + item.Title`. -/
def kbKey (item : RecommendationItem) : String := item.RefID ++ "|" ++ item.Title

/-- The loop variables of `SearchKnowledgeBaseByProfile`, and the record `calls`
of the invocations of `CallRAG`. -/
structure SearchState where
  allRecommendations : List RecommendationItem
  seen : GoMap Bool
  processedKeywords : GoMap Bool
  calls : List (String × Nat)

/-- The inner loop `for _, item := range items`: an item with an unseen key is
tagged and appended. -/
def addItems (keyword : String) :
    List RecommendationItem → List RecommendationItem × GoMap Bool →
      List RecommendationItem × GoMap Bool
  | [], acc => acc
  | item :: rest, (allRecommendations, seen) =>
    let key := kbKey item
    if ¬ ((seen.get? key).getD false = true) then
      addItems keyword rest
        (allRecommendations ++
          [{ item with Source := "knowledge_base", SearchKeyword := keyword }],
          seen.set key true)
    else addItems keyword rest (allRecommendations, seen)

/-- The loop `for _, keyword := range keywords` of
`SearchKnowledgeBaseByProfile`; returning the state without recursing is the
`break`. -/
def SearchKnowledgeBaseByProfile.loop (search : Search) (topK : Int) :
    List String → SearchState → SearchState
  | [], st => st
  | keyword :: rest, st =>
    if keyword = "" ∨ (st.processedKeywords.get? keyword).getD false = true then
      SearchKnowledgeBaseByProfile.loop search topK rest st
    else
      let st : SearchState :=
        { st with
          processedKeywords := st.processedKeywords.set keyword true
          calls := st.calls ++ [(keyword, st.allRecommendations.length)] }
      match search keyword with
      | Except.error _ => SearchKnowledgeBaseByProfile.loop search topK rest st
      | Except.ok items =>
        if items.length = 0 then SearchKnowledgeBaseByProfile.loop search topK rest st
        else
          let added := addItems keyword items (st.allRecommendations, st.seen)
          let st : SearchState := { st with allRecommendations := added.1, seen := added.2 }
          if (st.allRecommendations.length : Int) ≥ topK then st
          else SearchKnowledgeBaseByProfile.loop search topK rest st

/-- The state in which the keyword loop of `SearchKnowledgeBaseByProfile` ends. -/
def searchRun (search : Search) (topK : Int) (keywords : List String) : SearchState :=
  SearchKnowledgeBaseByProfile.loop search topK keywords
    { allRecommendations := [], seen := [], processedKeywords := [], calls := [] }

/-- The final `if len(allRecommendations) > topK { allRecommendations = allRecommendations[:topK] }`;
the slice expression panics when `topK` is negative. -/
def truncateTopK (topK : Int) (allRecommendations : List RecommendationItem) :
    Option (List RecommendationItem) :=
  if (allRecommendations.length : Int) > topK then
    if topK < 0 then none else some (allRecommendations.take topK.toNat)
  else some allRecommendations

/-- Embedding of `SearchKnowledgeBaseByProfile`. -/
def SearchKnowledgeBaseByProfile (search : Search) (topK : Int) (keywords : List String) :
    Option (List RecommendationItem) :=
  truncateTopK topK (searchRun search topK keywords).allRecommendations

/-- The keywords for which `SearchKnowledgeBaseByProfile` invoked the search, in
the order of the invocations. -/
def searchedKeywords (search : Search) (topK : Int) (keywords : List String) : List String :=
  (searchRun search topK keywords).calls.map Prod.fst

/-! ## services.ForceGenerateRecommendationsForUserWithProfile -/

/-- Go `models.UserProfile`. -/
structure UserProfile where
  CID : String
  ProfileRaw : String
  Keywords : String
  UpdatedAt : Int

/-- The two uses of `json.Unmarshal` in `extractKeywords`: into a `[]string`
(the slice as decoding leaves it, and whether the error is nil) and into a
`map[string]interface{}` (`none` when the error is not nil). -/
structure Decoders where
  unmarshalStrings : String → List String × Bool
  unmarshalObject : String → Option (GoMap JSON)

/-- The loop over `weighted_keywords` in `extractKeywords`. -/
def appendKeywordNames (keywords : List String) : List JSON → List String
  | [] => keywords
  | JSON.obj kwObj :: rest =>
    match GoMap.get? kwObj "keyword" with
    | some (JSON.str kw) =>
      if kw ≠ "" then appendKeywordNames (keywords ++ [kw]) rest
      else appendKeywordNames keywords rest
    | _ => appendKeywordNames keywords rest
  | _ :: rest => appendKeywordNames keywords rest

/-- The loop over `interests` in `extractKeywords`. -/
def appendInterestNames (keywords : List String) : List JSON → List String
  | [] => keywords
  | JSON.str interestStr :: rest =>
    if interestStr ≠ "" then appendInterestNames (keywords ++ [interestStr]) rest
    else appendInterestNames keywords rest
  | _ :: rest => appendInterestNames keywords rest

/-- Embedding of `extractKeywords`. -/
def extractKeywords (dec : Decoders) (profile : Option UserProfile) : List String :=
  match profile with
  | none => []
  | some profile =>
    let decoded := if profile.Keywords ≠ "" then dec.unmarshalStrings profile.Keywords else ([], true)
    if profile.Keywords ≠ "" ∧ decoded.2 = true ∧ decoded.1.length > 0 then decoded.1
    else
      let keywords := decoded.1
      if profile.ProfileRaw ≠ "" then
        match dec.unmarshalObject profile.ProfileRaw with
        | some profileData =>
          let keywords :=
            match profileData.get? "weighted_keywords" with
            | some (JSON.arr wkRaw) => appendKeywordNames keywords wkRaw
            | _ => keywords
          if keywords.length = 0 then
            match profileData.get? "interests" with
            | some (JSON.arr interests) => appendInterestNames keywords interests
            | _ => keywords
          else keywords
        | none => keywords
      else keywords

/-- A saved snapshot: the recommendations and the profile that produced them. -/
structure Snapshot where
  items : List RecommendationItem
  profile : Option UserProfile

/-- What one call of `ForceGenerateRecommendationsForUserWithProfile` returns and
does: the two results, the calls of `repository.SaveRecommendations` it made
(user id and items), and the recommendation table afterwards. -/
structure ForceResult where
  items : List RecommendationItem
  err : Option String
  saveCalls : List (String × List RecommendationItem)
  store : GoMap Snapshot

/-- The loop that filters the special symbols out of titles and contents. -/
def filterItems (recommendations : List RecommendationItem) : List RecommendationItem :=
  recommendations.map fun r =>
    { r with Title := FilterSpecialSymbols r.Title, Content := FilterSpecialSymbols r.Content }

/-- The first block of `ForceGenerateRecommendationsForUserWithProfile`: the
profile-based search when the profile is present and has keywords, and the nil
slice otherwise; `none` when the search panics. -/
def searchByProfile (dec : Decoders) (search : Search) (topK : Int)
    (profile : Option UserProfile) : Option (List RecommendationItem) :=
  match profile with
  | some p =>
    if p.Keywords ≠ "" then
      let keywords := extractKeywords dec profile
      if keywords.length > 0 then SearchKnowledgeBaseByProfile search topK keywords
      else some []
    else some []
  | none => some []

/-- The rest of `ForceGenerateRecommendationsForUserWithProfile`: an empty list
is returned without a write; otherwise titles and contents are filtered and the
list is saved. -/
def saveFound (saveErr : Option String) (store : GoMap Snapshot) (cid : String)
    (profile : Option UserProfile) (recommendations : List RecommendationItem) : ForceResult :=
  if recommendations.length = 0 then
    { items := [], err := none, saveCalls := [], store := store }
  else
    let recommendations := filterItems recommendations
    match saveErr with
    | some e =>
      { items := [], err := some e, saveCalls := [(cid, recommendations)], store := store }
    | none =>
      { items := recommendations, err := none, saveCalls := [(cid, recommendations)],
        store := store.set cid { items := recommendations, profile := profile } }

/-- Embedding of `ForceGenerateRecommendationsForUserWithProfile`; `none` when
the search panics. -/
def ForceGenerateRecommendationsForUserWithProfile (dec : Decoders) (search : Search)
    (topK : Int) (saveErr : Option String) (store : GoMap Snapshot) (cid : String)
    (profile : Option UserProfile) : Option ForceResult :=
  (searchByProfile dec search topK profile).map (saveFound saveErr store cid profile)

/-! ## scheduler -/

/-- Go `time.Time`: the instant in nanoseconds since the zero time, and the
fixed offset of its location in nanoseconds east of UTC. -/
structure Time where
  nanos : Int
  zone : Int
deriving DecidableEq

/-- Go `time.Second` in nanoseconds. -/
def second : Int := 1000000000

/-- Go `time.Hour` in nanoseconds. -/
def hour : Int := 3600 * second

/-- Go `t.Add(d)`. -/
def Time.Add (t : Time) (d : Int) : Time := { t with nanos := t.nanos + d }

/-- Go `t.Before(u)`. -/
def Time.Before (t u : Time) : Prop := t.nanos < u.nanos

/-- Go `t.After(u)`. -/
def Time.After (t u : Time) : Prop := u.nanos < t.nanos

/-- Go `t.Equal(u)`. -/
def Time.Equal (t u : Time) : Prop := t.nanos = u.nanos

/-- Go `t.IsZero()`. -/
def Time.IsZero (t : Time) : Prop := t.nanos = 0

instance (t u : Time) : Decidable (t.Before u) := inferInstanceAs (Decidable (t.nanos < u.nanos))

instance (t u : Time) : Decidable (t.After u) := inferInstanceAs (Decidable (u.nanos < t.nanos))

instance (t u : Time) : Decidable (t.Equal u) := inferInstanceAs (Decidable (t.nanos = u.nanos))

instance (t : Time) : Decidable t.IsZero := inferInstanceAs (Decidable (t.nanos = 0))

/-- The number of the local day of an instant. -/
def Time.localDay (t : Time) : Int := (t.nanos + t.zone) / (24 * hour)

/-- Go `time.Date(now.Year(), now.Month(), now.Day(), hour, minute, 0, 0, now.Location())`:
the start of the local day of `now`, plus the hours and minutes. -/
def dateToday (now : Time) (hr minute : Int) : Time :=
  { nanos := now.localDay * (24 * hour) - now.zone + hr * hour + minute * (60 * second)
    zone := now.zone }

/-- The fields of `config.Config` that the scheduler reads. -/
structure Config where
  DebugEnabled : Bool
  RecommendationFreq : Int
  ProfileHour : Int
  ProfileMin : Int
  LookbackDays : Int
  Concurrency : Int
  CheckIntervalSec : Int
  DefaultHour : Int
  DefaultMinute : Int

/-- Embedding of `secondsToDuration`. -/
def secondsToDuration (seconds : Int) : Int := seconds * second

/-- Embedding of `validateHourMinute`. -/
def validateHourMinute (cfg : Config) (hr minute : Int) : Int × Int :=
  let defaultHour := cfg.DefaultHour
  let defaultMinute := cfg.DefaultMinute
  let hr := if hr < 0 ∨ hr > 23 then defaultHour else hr
  let minute := if minute < 0 ∨ minute > 59 then defaultMinute else minute
  (hr, minute)

/-- Embedding of `getNextTimePoint`. -/
def getNextTimePoint (now : Time) (hr minute : Int) : Time :=
  let next := dateToday now hr minute
  if next.Before now then next.Add (24 * hour) else next

/-- Go `TaskType`. -/
inductive TaskType where
  | TaskPush
  | TaskProfileGeneration
deriving DecidableEq

/-- Go `TaskStatus`. -/
structure TaskStatus where
  LastRun : Time
  NextRun : Time
  IsRunning : Bool
  Description : String
deriving DecidableEq

/-- Go `Scheduler`; the map `tasks` from the two task types to the task
descriptors is a function, `none` where the map has no entry. -/
structure Scheduler where
  cfg : Config
  concurrency : Int
  tasks : TaskType → Option TaskStatus

/-- Map write `s.tasks[taskType] = status`. -/
def Scheduler.setTask (s : Scheduler) (taskType : TaskType) (status : TaskStatus) : Scheduler :=
  { s with tasks := fun t => if t = taskType then some status else s.tasks t }

/-- Embedding of `NewScheduler`. -/
def NewScheduler (cfg : Config) : Scheduler :=
  let concurrency := cfg.Concurrency
  let concurrency := if concurrency ≤ 0 then 10 else concurrency
  { cfg := cfg, concurrency := concurrency, tasks := fun _ => none }

/-- The body of the loop of `checkTasks` for one map entry: the descriptor
afterwards, and whether `go s.runTask(taskType, now)` was issued. -/
def checkTask (now : Time) (status : TaskStatus) : TaskStatus × Bool :=
  if status.IsRunning = true then (status, false)
  else if status.NextRun.IsZero then (status, false)
  else if now.After status.NextRun ∨ now.Equal status.NextRun then
    ({ status with IsRunning := true }, true)
  else (status, false)

/-- The task types, in the order in which the model visits the map `tasks`. -/
def taskTypes : List TaskType := [TaskType.TaskPush, TaskType.TaskProfileGeneration]

/-- Embedding of `checkTasks`: the scheduler afterwards and the executions
started, each `(taskType, now)` a call `go s.runTask(taskType, now)`. The
descriptors are independent of one another, so the order of the visit shows
only in the order of the started executions, which run concurrently. -/
def checkTasks (s : Scheduler) (now : Time) : Scheduler × List (TaskType × Time) :=
  ({ s with tasks := fun t => (s.tasks t).map fun status => (checkTask now status).1 },
    (taskTypes.filter fun t =>
      match s.tasks t with
      | some status => (checkTask now status).2
      | none => false).map fun t => (t, now))

/-- How the workflow dispatched by `runTask` ends. -/
inductive WorkflowOutcome where
  | listCandidatesFailed
  | pushFailed
  | succeeded

/-- The stages of the workflow. -/
inductive Stage where
  | profiles
  | recommendations
  | push
deriving DecidableEq

/-- The body of `runTask` after the first log line: the stages it runs. -/
def runWorkflow (taskType : TaskType) (outcome : WorkflowOutcome) : List Stage :=
  match taskType with
  | TaskType.TaskProfileGeneration =>
    match outcome with
    | WorkflowOutcome.listCandidatesFailed => []
    | WorkflowOutcome.pushFailed => [Stage.profiles, Stage.recommendations, Stage.push]
    | WorkflowOutcome.succeeded => [Stage.profiles, Stage.recommendations, Stage.push]
  | TaskType.TaskPush => []

/-- The deferred block of `runTask`; `none` when `s.tasks[taskType]` is nil and
the block panics. -/
def runTaskDeferred (s : Scheduler) (taskType : TaskType) (now : Time) : Option Scheduler :=
  match s.tasks taskType with
  | none => none
  | some status =>
    let status : TaskStatus := { status with IsRunning := false, LastRun := now }
    let status : TaskStatus :=
      match taskType with
      | TaskType.TaskProfileGeneration =>
        if s.cfg.DebugEnabled then
          let freqSeconds := s.cfg.RecommendationFreq
          let freqSeconds := if freqSeconds ≤ 0 then 1800 else freqSeconds
          let profileInterval := freqSeconds * second
          { status with NextRun := now.Add profileInterval }
        else
          let hm := validateHourMinute s.cfg s.cfg.ProfileHour s.cfg.ProfileMin
          { status with NextRun := getNextTimePoint now hm.1 hm.2 }
      | TaskType.TaskPush => status
    some (s.setTask taskType status)

/-- Embedding of `runTask`: the stages the workflow ran and the scheduler after
the deferred block, which runs however the body ends. -/
def runTask (s : Scheduler) (taskType : TaskType) (now : Time) (outcome : WorkflowOutcome) :
    Option (Scheduler × List Stage) :=
  let stages := runWorkflow taskType outcome
  (runTaskDeferred s taskType now).map fun s => (s, stages)

/-! ## Auxiliary definitions for the search proofs -/

/-- One iteration of the keyword loop: the state after it, and whether the loop
is left by `break`. -/
def searchStep (search : Search) (topK : Int) (keyword : String) (st : SearchState) :
    SearchState × Bool :=
  if keyword = "" ∨ (st.processedKeywords.get? keyword).getD false = true then (st, false)
  else
    let st : SearchState :=
      { st with
        processedKeywords := st.processedKeywords.set keyword true
        calls := st.calls ++ [(keyword, st.allRecommendations.length)] }
    match search keyword with
    | Except.error _ => (st, false)
    | Except.ok items =>
      if items.length = 0 then (st, false)
      else
        let added := addItems keyword items (st.allRecommendations, st.seen)
        let st : SearchState := { st with allRecommendations := added.1, seen := added.2 }
        (st, decide ((st.allRecommendations.length : Int) ≥ topK))

/-- The map `seen` holds exactly the keys of the accumulated items, and these
keys are pairwise distinct. -/
structure SeenInv (all : List RecommendationItem) (seen : GoMap Bool) : Prop where
  seen_iff : ∀ key, (seen.get? key).getD false = true ↔ key ∈ all.map kbKey
  nodup : (all.map kbKey).Nodup

/-- The invariant of the keyword loop with respect to the search function. -/
structure SearchInv (search : Search) (st : SearchState) : Prop where
  seenInv : SeenInv st.allRecommendations st.seen
  processed_iff : ∀ k, (st.processedKeywords.get? k).getD false = true ↔ k ∈ st.calls.map Prod.fst
  calls_nodup : (st.calls.map Prod.fst).Nodup
  calls_nonempty : "" ∉ st.calls.map Prod.fst
  covered : ∀ k ∈ st.calls.map Prod.fst, ∀ items, search k = Except.ok items →
    ∀ y ∈ items, kbKey y ∈ st.allRecommendations.map kbKey
  tagged : ∀ x ∈ st.allRecommendations, x.Source = "knowledge_base" ∧
    ∃ pre post items y, st.calls.map Prod.fst = pre ++ x.SearchKeyword :: post ∧
      search x.SearchKeyword = Except.ok items ∧ y ∈ items ∧
      y.RefID = x.RefID ∧ y.Title = x.Title ∧
      ∀ k ∈ pre, ∀ items₂, search k = Except.ok items₂ → ∀ z ∈ items₂, kbKey z ≠ kbKey x

/-- Two loop states that agree except for the bookkeeping of the keyword `k`. -/
structure AgreeExcept (k : String) (st st₂ : SearchState) : Prop where
  all_eq : st.allRecommendations = st₂.allRecommendations
  seen_eq : st.seen = st₂.seen
  processed_eq : ∀ k₂, k₂ ≠ k →
    (st.processedKeywords.get? k₂).getD false = (st₂.processedKeywords.get? k₂).getD false

/-- The state after `processedKeywords[keyword] = true`, with the invocation of
the search recorded. -/
def SearchState.mark (st : SearchState) (keyword : String) : SearchState :=
  { st with
    processedKeywords := st.processedKeywords.set keyword true
    calls := st.calls ++ [(keyword, st.allRecommendations.length)] }

/-- The state after the inner loop has run over the items of one search. -/
def SearchState.add (st : SearchState) (keyword : String) (items : List RecommendationItem) :
    SearchState :=
  { st with
    allRecommendations := (addItems keyword items (st.allRecommendations, st.seen)).1
    seen := (addItems keyword items (st.allRecommendations, st.seen)).2 }

/-! ## Example searches and profiles -/

/-- A knowledge-base item as `CallRAG` returns it. -/
def kbItem (refID title : String) : RecommendationItem :=
  { Source := "rag", Title := title, URL := "", Score := 0, RefID := refID,
    SearchKeyword := "", Content := title }

/-- A search that fails for every keyword. -/
def failingSearch : Search := fun _ => Except.error "RAG服务连接失败"

/-- A search that fails for the keyword `b`, finds documents 1 and 2 for `a` and
documents 2 and 3 for every other keyword. -/
def sampleSearch : Search := fun keyword =>
  if keyword = "b" then Except.error "RAG服务连接失败"
  else if keyword = "a" then Except.ok [kbItem "1" "T1", kbItem "2" "T2"]
  else Except.ok [kbItem "2" "T2", kbItem "3" "T3"]

/-! ## Example schedulers -/

/-- A configuration in daily mode with the run at 09:00. -/
def dailyConfig : Config :=
  { DebugEnabled := false, RecommendationFreq := 0, ProfileHour := 9, ProfileMin := 0,
    LookbackDays := 7, Concurrency := 10, CheckIntervalSec := 60,
    DefaultHour := 2, DefaultMinute := 0 }

/-- The instant `hr:minute:00.000000000` UTC of day `day`. -/
def utc (day hr minute : Int) : Time :=
  { nanos := day * (24 * hour) + hr * hour + minute * (60 * second), zone := 0 }

/-- A scheduler whose workflow task is in the given state. -/
def schedulerWith (cfg : Config) (status : TaskStatus) : Scheduler :=
  (NewScheduler cfg).setTask TaskType.TaskProfileGeneration status

end AiPush

/-! # Fan-out, scheduled run and profile inference

This part embeds the three fan-outs
(`services/profile_generation_service.go`, `services/recommendation_service.go`,
`services/push_service.go`), the profile inference of `services/llm_service.go`
with the fallback of `services/profile_core_service.go`, the repository
functions of `repository/profile_repo.go` that decide whether a profile is
regenerated, and `GetHotTopicsAsRecommendations`.

Modelling conventions, in addition to those above.

* Goroutines are actors that take one step at a time in an order given by a
  schedule, a list of actors; theorems quantify over all schedules. A send on
  the channel `semaphore` blocks while the channel is full, a receive blocks
  while it is empty, `wg.Wait()` blocks while the counter is not 0. The block
  guarded by the mutex is one step.
* The result of the per-item operation of a fan-out is attached to the item.
* Instants of the database are integers (seconds); `NOW()` is a parameter.
-/

namespace AiPush

/-! ## The persisted keyword list -/

/-- The text `json.Marshal` writes for a non-nil `[]string` whose elements need
no escaping. -/
def marshalStrings (xs : List String) : String :=
  "[" ++ ",".intercalate (xs.map fun s => "\x22" ++ s ++ "\x22") ++ "]"

/-- A decoder into `[]string` that decodes the text written for `xs` to `xs`
and fails on every other text. -/
def unmarshalStringsOf (xs : List String) (text : String) : List String × Bool :=
  if text = marshalStrings xs then (xs, true) else ([], false)

/-- The profile row `GenerateProfileForUser` upserts after a merge: `Keywords`
is the text of the merged keyword list; `profileRaw` is the text of the merged
payload. -/
def persistedProfile (cid profileRaw : String) (merged : GoMap Value × List String) :
    UserProfile :=
  { CID := cid, ProfileRaw := profileRaw, Keywords := marshalStrings merged.2, UpdatedAt := 0 }

/-- The names of the weighted keywords of a merged payload, in payload order. -/
def weightedKeywordNames (p : GoMap Value) : List String :=
  (weightedKeywordsOf p).map fun wk => wk.Keyword

/-! ## services.GetHotTopicsAsRecommendations -/

/-- Go `models.HotTopic`. -/
structure HotTopic where
  Title : String
  Content : String

/-- Embedding of `GetHotTopicsAsRecommendations`; `hotTopics` is the result of
`repository.GetHotTopicsFromGroupSummaries()`, `format` is
`formatter.FormatTitleAndContent`, and `none` is the run-time panic of the slice
expression `recommendations[:cfg.RAG.TopK]`. -/
def GetHotTopicsAsRecommendations (format : String → String → String × String) (topK : Int)
    (hotTopics : Except String (List HotTopic)) :
    Option (Except String (List RecommendationItem)) :=
  match hotTopics with
  | Except.error err => some (Except.error err)
  | Except.ok hotTopics =>
    let recommendations : List RecommendationItem := hotTopics.map fun topic =>
      let formatted := format topic.Title topic.Content
      { Source := "group_summary", Title := formatted.1, URL := "", Score := 1, RefID := "",
        SearchKeyword := "", Content := formatted.2 }
    (truncateTopK topK recommendations).map Except.ok

/-! ## Examples for the keys -/

/-- An item with the given source, reference id, title and score. -/
def keyedItem (source refID title : String) (score : ℚ) : RecommendationItem :=
  { Source := source, Title := title, URL := "", Score := score, RefID := refID,
    SearchKeyword := "", Content := "" }

/-- A search that returns, for every keyword, the documents `(a|b, c)` and
`(a, b|c)`, given as (reference id, title). -/
def collidingSearch : Search := fun _ =>
  Except.ok [kbItem "a|b" "c", kbItem "a" "b|c"]

/-! ## The bounded fan-out of the three stages

`GenerateProfilesWithConcurrency`, `GenerateRecommendationsWithConcurrency` and
`PushRecommendationsWithConcurrency` share one shape: a buffered channel used as
a semaphore, a `sync.WaitGroup`, and counters guarded by a mutex. The calling
goroutine and the spawned goroutines are modelled as actors that take one step
at a time, in an order chosen by a schedule; an actor whose next statement
blocks takes no step. Each item is paired with the result that its operation
returns in this run. The statements between `mu.Lock()` and `mu.Unlock()` form
one step. -/

/-- Where the calling goroutine stands. -/
inductive MainPC where
  /-- At the head of the `for` loop; at `wg.Wait()` once the list is exhausted. -/
  | loopHead
  /-- After `wg.Add(1)`, at `semaphore <- struct{}{}`. -/
  | acquire
  /-- After the send, at the `go` statement. -/
  | spawn
  /-- After `wg.Wait()`. -/
  | returned
deriving DecidableEq

/-- Where a spawned goroutine stands. -/
inductive WorkerPC where
  /-- Inside the per-item operation. -/
  | operating
  /-- The operation has returned; at `mu.Lock()`. -/
  | counting
  /-- The counters are updated and the mutex is unlocked; at the deferred
  `<-semaphore`. -/
  | releasing
  /-- At the deferred `wg.Done()`. -/
  | finishing
  /-- The goroutine has ended. -/
  | done
deriving DecidableEq

/-- A spawned goroutine: its item, the result of its operation, its position. -/
structure Worker (ρ : Type) where
  item : String
  result : ρ
  pc : WorkerPC

/-- The state of one fan-out call: the capacity of the channel `semaphore`, the
items not yet handed to a goroutine, the position of the calling goroutine,
`len(semaphore)`, the counter of `wg`, the goroutines in the order of their
creation, the counters, and the record `log` of the results counted so far, in
the order in which they were counted. -/
structure FanOut (ρ σ : Type) where
  cap : Nat
  pending : List (String × ρ)
  main : MainPC
  tokens : Nat
  wg : Nat
  workers : List (Worker ρ)
  counters : σ
  log : List (String × ρ)

/-- The actors of a fan-out: the calling goroutine and the spawned goroutines,
numbered from 0 in the order of their creation. -/
inductive Actor where
  | main
  | worker (i : Nat)
deriving DecidableEq

namespace FanOut

/-- The state after `make(chan struct{}, concurrency)` and the declarations of
the counters; `none` is the run-time panic of `make` with a negative size. -/
def start {ρ σ : Type} (concurrency : Int) (zero : σ) (items : List (String × ρ)) :
    Option (FanOut ρ σ) :=
  if concurrency < 0 then none
  else some
    { cap := concurrency.toNat, pending := items, main := MainPC.loopHead, tokens := 0, wg := 0,
      workers := [], counters := zero, log := [] }

/-- One step of the calling goroutine; `none` when it is blocked or has returned. -/
def stepMain {ρ σ : Type} (s : FanOut ρ σ) : Option (FanOut ρ σ) :=
  match s.main with
  | MainPC.loopHead =>
    match s.pending with
    | [] => if s.wg = 0 then some { s with main := MainPC.returned } else none
    | _ :: _ => some { s with wg := s.wg + 1, main := MainPC.acquire }
  | MainPC.acquire =>
    if s.tokens < s.cap then some { s with tokens := s.tokens + 1, main := MainPC.spawn }
    else none
  | MainPC.spawn =>
    match s.pending with
    | [] => none
    | item :: rest =>
      some { s with
        pending := rest
        workers := s.workers ++ [{ item := item.1, result := item.2, pc := WorkerPC.operating }]
        main := MainPC.loopHead }
  | MainPC.returned => none

/-- One step of the goroutine `w`, which is number `i`; `none` when it is blocked
or has ended. `count` is the block between `mu.Lock()` and `mu.Unlock()`. -/
def stepWorker {ρ σ : Type} (count : σ → ρ → σ) (s : FanOut ρ σ) (i : Nat) (w : Worker ρ) :
    Option (FanOut ρ σ) :=
  match w.pc with
  | WorkerPC.operating =>
    some { s with workers := s.workers.set i { w with pc := WorkerPC.counting } }
  | WorkerPC.counting =>
    some { s with
      counters := count s.counters w.result
      log := s.log ++ [(w.item, w.result)]
      workers := s.workers.set i { w with pc := WorkerPC.releasing } }
  | WorkerPC.releasing =>
    if 0 < s.tokens then
      some { s with
        tokens := s.tokens - 1
        workers := s.workers.set i { w with pc := WorkerPC.finishing } }
    else none
  | WorkerPC.finishing =>
    some { s with wg := s.wg - 1, workers := s.workers.set i { w with pc := WorkerPC.done } }
  | WorkerPC.done => none

/-- One step of an actor; `none` when the actor is blocked, has ended, or does
not exist. -/
def step {ρ σ : Type} (count : σ → ρ → σ) (a : Actor) (s : FanOut ρ σ) : Option (FanOut ρ σ) :=
  match a with
  | Actor.main => stepMain s
  | Actor.worker i =>
    match s.workers[i]? with
    | none => none
    | some w => stepWorker count s i w

/-- The state after the actors have been scheduled in the given order; an actor
that cannot move when it is scheduled leaves the state as it is. -/
def run {ρ σ : Type} (count : σ → ρ → σ) : List Actor → FanOut ρ σ → FanOut ρ σ
  | [], s => s
  | a :: rest, s => run count rest ((step count a s).getD s)

/-- The number of goroutines inside the per-item operation. -/
def executing {ρ σ : Type} (s : FanOut ρ σ) : Nat :=
  (s.workers.filter fun w => w.pc = WorkerPC.operating).length

/-- The call has returned. -/
def hasReturned {ρ σ : Type} (s : FanOut ρ σ) : Prop := s.main = MainPC.returned

instance {ρ σ : Type} (s : FanOut ρ σ) : Decidable s.hasReturned :=
  inferInstanceAs (Decidable (s.main = MainPC.returned))

/-- Every item has been handed to a goroutine and every goroutine has ended. -/
def allCompleted {ρ σ : Type} (items : List (String × ρ)) (s : FanOut ρ σ) : Prop :=
  s.workers.map (fun w => (w.item, w.result)) = items ∧ ∀ w ∈ s.workers, w.pc = WorkerPC.done

end FanOut

/-- What `GenerateProfileForUser` returned: the flag, and whether `err != nil`. -/
structure ProfileResult where
  profileRegenerated : Bool
  failed : Bool
deriving DecidableEq

/-- The counters of `GenerateProfilesWithConcurrency`. -/
structure ProfileCounters where
  processed : Nat
  failed : Nat
  regenerated : Nat
deriving DecidableEq

/-- The block guarded by the mutex in `GenerateProfilesWithConcurrency`. -/
def countProfile (c : ProfileCounters) (r : ProfileResult) : ProfileCounters :=
  let c := { c with processed := c.processed + 1 }
  if r.failed then { c with failed := c.failed + 1 }
  else if r.profileRegenerated then { c with regenerated := c.regenerated + 1 }
  else c

/-- The value logged as `skipped`: `processed-regenerated-failed`. -/
def ProfileCounters.skipped (c : ProfileCounters) : Int :=
  (c.processed : Int) - c.regenerated - c.failed

/-- Embedding of `GenerateProfilesWithConcurrency`: the state of the call under
the schedule `sched`. Each id is paired with the result of its
`GenerateProfileForUser`. -/
def GenerateProfilesWithConcurrency (cids : List (String × ProfileResult)) (concurrency : Int)
    (sched : List Actor) : Option (FanOut ProfileResult ProfileCounters) :=
  (FanOut.start concurrency ⟨0, 0, 0⟩ cids).map (FanOut.run countProfile sched)

/-- The counters of `GenerateRecommendationsWithConcurrency`. -/
structure RecommendationCounters where
  processed : Nat
  failed : Nat
  completed : Nat
deriving DecidableEq

/-- The block guarded by the mutex in `GenerateRecommendationsWithConcurrency`;
`failed` is `err != nil`. -/
def countRecommendation (c : RecommendationCounters) (failed : Bool) : RecommendationCounters :=
  let c := { c with processed := c.processed + 1 }
  if failed then { c with failed := c.failed + 1 }
  else { c with completed := c.completed + 1 }

/-- Embedding of `GenerateRecommendationsWithConcurrency`: the state of the call
under the schedule `sched`. Each id is paired with whether its
`GenerateRecommendationsForUser` returned an error. -/
def GenerateRecommendationsWithConcurrency (cids : List (String × Bool)) (concurrency : Int)
    (sched : List Actor) : Option (FanOut Bool RecommendationCounters) :=
  (FanOut.start concurrency ⟨0, 0, 0⟩ cids).map (FanOut.run countRecommendation sched)

/-- The counters of `PushRecommendationsWithConcurrency`. -/
structure PushCounters where
  successCount : Nat
  failCount : Nat
deriving DecidableEq

/-- The block guarded by the mutex in `PushRecommendationsWithConcurrency`. -/
def countPush (c : PushCounters) (pushOk : Bool) : PushCounters :=
  if pushOk then { c with successCount := c.successCount + 1 }
  else { c with failCount := c.failCount + 1 }

/-- The slice `pushList`: the users with a non-empty list, in the order in which
the map is ranged over, each paired with the result of its `pushViaHTTP`. -/
def pushList (ro : RangeOrder (List RecommendationItem))
    (pushViaHTTP : String → List RecommendationItem → Bool)
    (recommendations : GoMap (List RecommendationItem)) : List (String × Bool) :=
  ((ro.run recommendations).filter fun kv => kv.2.length > 0).map fun kv =>
    (kv.1, pushViaHTTP kv.1 kv.2)

/-- Embedding of `PushRecommendationsWithConcurrency`: the state of the call
under the schedule `sched`; `pushConcurrency` is `cfg.Cron.PushConcurrency`. The
call returns `(successCount, failCount)` once it has returned. -/
def PushRecommendationsWithConcurrency (pushConcurrency : Int)
    (ro : RangeOrder (List RecommendationItem))
    (pushViaHTTP : String → List RecommendationItem → Bool)
    (recommendations : GoMap (List RecommendationItem)) (sched : List Actor) :
    Option (FanOut Bool PushCounters) :=
  (FanOut.start pushConcurrency ⟨0, 0⟩ (pushList ro pushViaHTTP recommendations)).map
    (FanOut.run countPush sched)

/-! ## Auxiliary definitions for the fan-out proofs -/

/-- The goroutine holds a slot of the semaphore. -/
def WorkerPC.holdsToken : WorkerPC → Bool
  | WorkerPC.operating => true
  | WorkerPC.counting => true
  | WorkerPC.releasing => true
  | _ => false

/-- The goroutine has not yet called `wg.Done()`. -/
def WorkerPC.inGroup : WorkerPC → Bool
  | WorkerPC.done => false
  | _ => true

/-- The goroutine has updated the counters. -/
def WorkerPC.counted : WorkerPC → Bool
  | WorkerPC.operating => false
  | WorkerPC.counting => false
  | _ => true

/-- The number of steps the goroutine still takes. -/
def WorkerPC.remaining : WorkerPC → Nat
  | WorkerPC.operating => 4
  | WorkerPC.counting => 3
  | WorkerPC.releasing => 2
  | WorkerPC.finishing => 1
  | WorkerPC.done => 0

/-- The number of steps the fan-out still takes. -/
def FanOut.remaining {ρ σ : Type} (s : FanOut ρ σ) : Nat :=
  (match s.main with
    | MainPC.loopHead => 7 * s.pending.length + 1
    | MainPC.acquire => 7 * s.pending.length
    | MainPC.spawn => 7 * s.pending.length - 1
    | MainPC.returned => 0) +
  (s.workers.map fun w => w.pc.remaining).sum

/-- The invariant of a fan-out over `items`. -/
structure FanInv {ρ σ : Type} (count : σ → ρ → σ) (zero : σ) (items : List (String × ρ))
    (s : FanOut ρ σ) : Prop where
  tokens_eq : s.tokens = (s.workers.filter fun w => w.pc.holdsToken).length +
    (if s.main = MainPC.spawn then 1 else 0)
  tokens_le : s.tokens ≤ s.cap
  wg_eq : s.wg = (s.workers.filter fun w => w.pc.inGroup).length +
    (if s.main = MainPC.acquire ∨ s.main = MainPC.spawn then 1 else 0)
  items_eq : s.workers.map (fun w => (w.item, w.result)) ++ s.pending = items
  pending_ne : s.main = MainPC.acquire ∨ s.main = MainPC.spawn → s.pending ≠ []
  returned : s.main = MainPC.returned → s.pending = [] ∧ ∀ w ∈ s.workers, w.pc = WorkerPC.done
  log_perm : s.log.Perm
    ((s.workers.filter fun w => w.pc.counted).map fun w => (w.item, w.result))
  counters_eq : s.counters = (s.log.map Prod.snd).foldl count zero

/-! ## Example of a schedule -/

/-- A schedule for three items and cap 2: the caller hands out two items and is
blocked at the third send; goroutine 1 counts and releases its slot; the caller
hands out the third item; the goroutines finish; the caller returns. -/
def fanOutSchedule : List Actor :=
  List.replicate 8 Actor.main ++ List.replicate 3 (Actor.worker 1) ++
    List.replicate 2 Actor.main ++ List.replicate 4 (Actor.worker 0) ++
    List.replicate 4 (Actor.worker 2) ++ [Actor.worker 1, Actor.main]

/-! ## services.callLLMForUserProfile and services.fallbackProfileGeneration

The prompt texts are not modelled: `buildUserAnalysisPrompt` and `splitPrompt`
are parameters. The external call `callLLMDirectly` is the parameter `llm`, and
the `json.Unmarshal` of a segment result is the parameter `unmarshalObject`.
The goroutines of `processSegmentsInParallel` write to distinct elements of
`segmentResults`, so the slice after `wg.Wait()` does not depend on their
order. -/

/-- The external call `callLLMDirectly(cfg, prompt)`: the profile text, or an
error. -/
abbrev LLM := String → Except String String

/-- Go `repository.CombinedUserData`, without the fields that the embedded code
does not read. -/
structure CombinedUserData where
  CID : String
  CommunityPosts : List String
  GroupMessages : List String
  ActiveGroups : List String
  GroupInterests : List String
  HasCommunityData : Bool
  HasGroupData : Bool

/-- The prompt of one segment. -/
def partPrompt (segment : String) : String :=
  "请分析以下用户数据中的关键词和兴趣，以JSON格式返回:\n\n" ++ segment

/-- The slice `segmentResults` after `wg.Wait()`: the empty string where the
call failed. -/
def segmentResults (llm : LLM) (segments : List String) : List String :=
  segments.map fun segment =>
    match llm (partPrompt segment) with
    | Except.ok profileJSON => profileJSON
    | Except.error _ => ""

/-- The variables that the loop over the segment results updates. -/
structure SegmentAcc where
  allKeywords : GoMap ℚ
  interests : List String
  activityLevel : String
  userType : String

/-- The body of the loop `for i, result := range segmentResults`. The loop over
the weighted keywords of a segment is the loop of `mergeProfiles` over the new
weighted keywords, statement by statement. -/
def mergeSegment (unmarshalObject : String → Option (GoMap JSON)) (acc : SegmentAcc)
    (result : String) : SegmentAcc :=
  if result = "" then acc
  else
    match unmarshalObject result with
    | none => acc
    | some profileData =>
      let allKeywords :=
        match profileData.get? "weighted_keywords" with
        | some (JSON.arr wk) => newKeywordLoop acc.allKeywords wk
        | _ => acc.allKeywords
      let interests := appendInterests acc.interests profileData
      let al :=
        match profileData.get? "activity_level" with
        | some (JSON.str al) => al
        | _ => ""
      let activityLevel :=
        if al = "high" then "high"
        else if al = "medium" ∧ acc.activityLevel ≠ "high" then "medium"
        else acc.activityLevel
      let userType :=
        match profileData.get? "user_type" with
        | some (JSON.str ut) => if acc.userType = "" then ut else acc.userType
        | _ => acc.userType
      { allKeywords := allKeywords, interests := interests, activityLevel := activityLevel,
        userType := userType }

/-- The interests of the default profile. -/
def defaultInterests : List String := ["区块链", "数字货币", "无链生态"]

/-- The weighted keywords of the default profile, with the float64 values of the
literals 0.9, 0.85, 0.8, 0.75 and 0.7. -/
def defaultKeywords : List WeightedKeyword :=
  [⟨"区块链入门", F64.toRat (F64.lit 9 10)⟩, ⟨"数字货币基础", F64.toRat (F64.lit 17 20)⟩,
   ⟨"无链生态", F64.toRat (F64.lit 8 10)⟩, ⟨"DW20", F64.toRat (F64.lit 3 4)⟩,
   ⟨"钱包使用", F64.toRat (F64.lit 7 10)⟩]

/-- Embedding of `processSegmentsInParallel`: the profile handed to
`json.Marshal`, the keyword list, and the error, which is always nil. -/
def processSegmentsInParallel (fused : Bool) (ro : RangeOrder ℚ) (now : String) (llm : LLM)
    (unmarshalObject : String → Option (GoMap JSON)) (segments : List String) :
    Except String (GoMap Value × List String) :=
  let acc := (segmentResults llm segments).foldl (mergeSegment unmarshalObject)
    { allKeywords := [], interests := [], activityLevel := "low", userType := "" }
  let finalWeightedKeywords := sortedKeywords ro acc.allKeywords
  let interests := DeduplicateSlice acc.interests
  let keywords := finalWeightedKeywords.map fun wk => wk.Keyword
  let userType :=
    if acc.userType = "" ∨ acc.userType = "无法确定" ∨ acc.userType = "新手" then "新手"
    else acc.userType
  let interests :=
    if interests.length = 0 ∧ finalWeightedKeywords.length > 0 then
      interests ++ finalWeightedKeywords.map fun wk => wk.Keyword
    else interests
  let finalWeightedKeywords :=
    if interests.length > 0 ∧ finalWeightedKeywords.length = 0 then
      finalWeightedKeywords ++ decayKeywords fused 0 interests
    else finalWeightedKeywords
  let finalProfile : GoMap Value :=
    [("interests", Value.strings interests),
     ("weighted_keywords", Value.keywords finalWeightedKeywords),
     ("activity_level", Value.string acc.activityLevel),
     ("user_type", Value.string userType),
     ("updated_at", Value.string now)]
  if interests.length = 0 ∧ finalWeightedKeywords.length = 0 then
    let finalProfile := finalProfile.set "interests" (Value.strings defaultInterests)
    let finalProfile := finalProfile.set "weighted_keywords" (Value.keywords defaultKeywords)
    let finalProfile := finalProfile.set "user_type" (Value.string "新手")
    Except.ok (finalProfile, defaultKeywords.map fun wk => wk.Keyword)
  else Except.ok (finalProfile, keywords)

/-- Embedding of `callLLMForUserProfile`. -/
def callLLMForUserProfile (fused : Bool) (ro : RangeOrder ℚ) (now : String) (llm : LLM)
    (unmarshalObject : String → Option (GoMap JSON)) (splitPrompt : String → List String)
    (prompt : String) : Except String (GoMap Value × List String) :=
  let segments := splitPrompt prompt
  processSegmentsInParallel fused ro now llm unmarshalObject segments

/-- The keyword list of `extractKeywordsFromContent`. -/
def contentKeywords : List String :=
  ["区块链", "人工智能", "投资", "教育", "技术", "金融",
   "加密货币", "DW20", "无链", "数字货币", "创新",
   "比特币", "交易", "钱包", "质押", "挖矿", "去中心化",
   "智能合约", "NFT", "元宇宙", "Web3", "DAO"]

/-- Go `strings.ToLower` on the letters `A` to `Z`; the other characters are
kept. No other character is mapped to a letter that occurs in the lower-cased
`contentKeywords`. -/
def ToLower (s : String) : String := String.mk (s.data.map Char.toLower)

/-- Go `strings.Contains`, for valid UTF-8 strings. -/
def Contains (s substr : String) : Bool :=
  s.data.tails.any fun t => substr.data.isPrefixOf t

/-- Embedding of `extractKeywordsFromContent`. -/
def extractKeywordsFromContent (content : String) : List String :=
  let contentLower := ToLower content
  contentKeywords.filter fun kw => Contains contentLower (ToLower kw)

/-- The statement `keywordFrequency[kw]++`. -/
def increment (keywordFrequency : GoMap Nat) (kw : String) : GoMap Nat :=
  keywordFrequency.set kw ((keywordFrequency.get? kw).getD 0 + 1)

/-- The map `keywordFrequency` of `fallbackProfileGeneration` after its three
loops. -/
def keywordFrequencies (userData : CombinedUserData) : GoMap Nat :=
  let keywordFrequency : GoMap Nat := []
  let keywordFrequency := userData.CommunityPosts.foldl
    (fun m content => (extractKeywordsFromContent content).foldl increment m) keywordFrequency
  let keywordFrequency := userData.GroupMessages.foldl
    (fun m message => (extractKeywordsFromContent message).foldl increment m) keywordFrequency
  userData.GroupInterests.foldl increment keywordFrequency

/-- Embedding of `determineActivityLevel`. -/
def determineActivityLevel (data : CombinedUserData) : String :=
  let postCount := data.CommunityPosts.length
  let messageCount := data.GroupMessages.length
  let groupCount := data.ActiveGroups.length
  let totalActivity := postCount + messageCount + groupCount
  if totalActivity > 10 then "high"
  else if totalActivity > 3 then "medium"
  else if totalActivity > 0 then "low"
  else "minimal"

/-- Embedding of `fallbackProfileGeneration`. The weight `float64(freq) /
float64(maxFreq)` is modelled by the exact quotient. -/
def fallbackProfileGeneration (ro : RangeOrder Nat) (now : String) (cid : String)
    (userData : CombinedUserData) : Except String (GoMap Value × List String) :=
  let keywordFrequency := keywordFrequencies userData
  let maxFreq := (ro.run keywordFrequency).foldl
    (fun maxFreq kv => if kv.2 > maxFreq then kv.2 else maxFreq) 1
  let weightedKeywords : List WeightedKeyword := (ro.run keywordFrequency).map fun kv =>
    ⟨kv.1, (kv.2 : ℚ) / (maxFreq : ℚ)⟩
  let weightedKeywords := weightedKeywords.insertionSort weightGE
  let modelWeightedKeywords := weightedKeywords
  let orderedKeywords := weightedKeywords.map fun kw => kw.Keyword
  let enhancedProfile : GoMap Value :=
    [("user_id", Value.string cid),
     ("data_sources", Value.json (JSON.obj
        [("community_posts", JSON.bool userData.HasCommunityData),
         ("group_activity", JSON.bool userData.HasGroupData)])),
     ("content_sources", Value.json (JSON.obj
        [("community_posts_count", JSON.num userData.CommunityPosts.length),
         ("group_messages_count", JSON.num userData.GroupMessages.length),
         ("active_groups", JSON.arr (userData.ActiveGroups.map JSON.str))])),
     ("interests", Value.strings orderedKeywords),
     ("weighted_keywords", Value.keywords modelWeightedKeywords),
     ("activity_level", Value.string (determineActivityLevel userData)),
     ("updated_at", Value.string now)]
  let backfill : GoMap Value × List String :=
    if orderedKeywords.length = 0 ∧ modelWeightedKeywords.length > 0 then
      let interests := modelWeightedKeywords.map fun wk => wk.Keyword
      (enhancedProfile.set "interests" (Value.strings interests), interests)
    else (enhancedProfile, orderedKeywords)
  Except.ok backfill

/-- Embedding of `fetchUserProfileFromRAGWithData`. -/
def fetchUserProfileFromRAGWithData (fused : Bool) (ro : RangeOrder ℚ) (roFreq : RangeOrder Nat)
    (now : String) (llm : LLM) (unmarshalObject : String → Option (GoMap JSON))
    (buildUserAnalysisPrompt : String → CombinedUserData → String)
    (splitPrompt : String → List String) (cid : String) (userData : CombinedUserData) :
    Except String (GoMap Value × List String) :=
  let prompt := buildUserAnalysisPrompt cid userData
  match callLLMForUserProfile fused ro now llm unmarshalObject splitPrompt prompt with
  | Except.error _ => fallbackProfileGeneration roFreq now cid userData
  | Except.ok profile => Except.ok profile

/-! ## Examples for the profile inference -/

/-- An LLM whose every call fails. -/
def failingLLM : LLM := fun _ => Except.error "API请求失败"

/-- A user with one community post about bitcoin and nothing else. -/
def bitcoinUser : CombinedUserData :=
  { CID := "u1", CommunityPosts := ["比特币行情"], GroupMessages := [], ActiveGroups := [],
    GroupInterests := [], HasCommunityData := true, HasGroupData := false }

/-- The profile that `processSegmentsInParallel` returns when no segment yields
an interest or a keyword. -/
def defaultProfile (now : String) : GoMap Value :=
  [("interests", Value.strings defaultInterests),
   ("weighted_keywords", Value.keywords defaultKeywords),
   ("activity_level", Value.string "low"),
   ("user_type", Value.string "新手"),
   ("updated_at", Value.string now)]

/-! ## The scheduled run: repository, profile stage, recommendation stage

The tables are lists of rows and association lists; instants are seconds. The
database answers every query; `NOW()` is the parameter `now`. The calls
`fetchUserProfileFromRAGWithData` and `mergeProfiles`, which return texts here,
and `ExtractTopicsFromMessages` are parameters. -/

/-- A row of `simi_community_history` joined with
`user_community_posting_record`. -/
structure PostRow where
  cid : String
  createTime : Int
  articleText : String

/-- A row of `group_chat_messages`; `none` is NULL. -/
structure MessageRow where
  senderID : String
  messageTime : Int
  content : Option String
  title : Option String
  groupName : Option String

/-- The tables `user_profiles` and `recommendation_cache` (the latest row of
each user), and the rows of the source tables. -/
structure Database where
  posts : List PostRow
  messages : List MessageRow
  userProfiles : GoMap UserProfile
  recommendationCache : GoMap Snapshot

/-- What the stages call besides the database. -/
structure Env where
  lookbackDays : Int
  fetchUserProfileFromRAGWithData : String → CombinedUserData → Except String (String × String)
  mergeProfiles : String → String → String → String → Except String (String × String)
  ExtractTopicsFromMessages : List String → List String → List String
  dec : Decoders
  search : Search
  topK : Int
  saveErr : Option String

/-- The length of `INTERVAL 1 DAY` in seconds. -/
def daySeconds : Int := 86400

/-- The condition `t >= DATE_SUB(NOW(), INTERVAL ? DAY) AND t > ?` of the two
queries of `GetCombinedUserData`; `lastTime = none` is the zero `time.Time`. -/
def newerThan (now lookbackDays : Int) (lastTime : Option Int) (t : Int) : Bool :=
  decide (t ≥ now - lookbackDays * daySeconds) &&
    match lastTime with
    | some last => decide (t > last)
    | none => true

/-- Embedding of `repository.GetCombinedUserData`. -/
def GetCombinedUserData (extractTopics : List String → List String → List String)
    (db : Database) (now : Int) (cid : String) (lookbackDays : Int) (lastTime : Option Int) :
    Except String CombinedUserData :=
  if cid = "" then Except.error "invalid CID"
  else
    let postRows := db.posts.filter fun r =>
      r.cid = cid ∧ newerThan now lookbackDays lastTime r.createTime = true ∧ r.articleText ≠ ""
    let posts := postRows.map fun r => TrimSpace r.articleText
    let rows := db.messages.filter fun r =>
      r.senderID = cid ∧ newerThan now lookbackDays lastTime r.messageTime = true
    let messages := rows.filterMap fun r =>
      match r.content with
      | some content => if content ≠ "" then some (TrimSpace content) else none
      | none => none
    let titles := rows.filterMap fun r => r.title.map TrimSpace
    let groups := removeLaterDuplicates (rows.filterMap fun r =>
      match r.groupName with
      | some groupName => if groupName ≠ "" then some (TrimSpace groupName) else none
      | none => none)
    Except.ok
      { CID := cid
        CommunityPosts := posts
        GroupMessages := messages
        ActiveGroups := groups
        GroupInterests := if messages.length > 0 then extractTopics messages titles else []
        HasCommunityData := decide (posts.length > 0)
        HasGroupData := decide (messages.length > 0) || decide (groups.length > 0) }

/-- Embedding of `repository.UpsertProfile`: the row is written with
`updated_at = NOW()`. -/
def UpsertProfile (db : Database) (now : Int) (p : UserProfile) : Database :=
  { db with userProfiles := db.userProfiles.set p.CID { p with UpdatedAt := now } }

/-- Embedding of `repository.GetRecommendations`. -/
def GetRecommendations (db : Database) (cid : String) : Except String (List RecommendationItem) :=
  match db.recommendationCache.get? cid with
  | some snapshot => Except.ok snapshot.items
  | none => Except.error "sql: no rows in result set"

/-- The three results of `GenerateProfileForUser`, and the database afterwards. -/
structure ProfileOutcome where
  profile : Option UserProfile
  regenerated : Bool
  err : Option String
  db : Database

/-- Embedding of `GenerateProfileForUser`. The profile it returns after an upsert
carries the zero `UpdatedAt`, here 0. -/
def GenerateProfileForUser (env : Env) (now : Int) (db : Database) (cid : String) :
    ProfileOutcome :=
  if cid = "" then { profile := none, regenerated := false, err := some "invalid CID", db := db }
  else
    let existingProfile := db.userProfiles.get? cid
    let lastTime := existingProfile.map fun p => p.UpdatedAt
    match GetCombinedUserData env.ExtractTopicsFromMessages db now cid env.lookbackDays
        lastTime with
    | Except.error e =>
      { profile := none, regenerated := false, err := some ("failed to get user data: " ++ e),
        db := db }
    | Except.ok userData =>
      if ¬ (userData.HasCommunityData = true) ∧ ¬ (userData.HasGroupData = true) then
        { profile := existingProfile, regenerated := false, err := none, db := db }
      else
        match env.fetchUserProfileFromRAGWithData cid userData with
        | Except.error e =>
          { profile := none, regenerated := false,
            err := some ("failed to generate profile: " ++ e), db := db }
        | Except.ok fetched =>
          let merged : Except String (String × String) :=
            match existingProfile with
            | some existing =>
              env.mergeProfiles existing.ProfileRaw fetched.1 existing.Keywords fetched.2
            | none => Except.ok fetched
          match merged with
          | Except.error e => { profile := none, regenerated := false, err := some e, db := db }
          | Except.ok texts =>
            let profile : UserProfile :=
              { CID := cid, ProfileRaw := texts.1, Keywords := texts.2, UpdatedAt := 0 }
            { profile := some profile, regenerated := true, err := none,
              db := UpsertProfile db now profile }

/-- The results of `GenerateRecommendationsForUser`, whether it called
`ForceGenerateRecommendationsForUserWithProfile`, which keywords were searched,
and the database afterwards. -/
structure RecommendationOutcome where
  items : List RecommendationItem
  err : Option String
  generated : Bool
  searched : List String
  db : Database

/-- Embedding of `GenerateRecommendationsForUser`; `none` when the search panics. -/
def GenerateRecommendationsForUser (env : Env) (now : Int) (db : Database) (cid : String) :
    Option RecommendationOutcome :=
  let p := GenerateProfileForUser env now db cid
  match p.err with
  | some e => some { items := [], err := some e, generated := false, searched := [], db := p.db }
  | none =>
    let cached : Option (List RecommendationItem) :=
      if ¬ (p.regenerated = true) then
        match GetRecommendations p.db cid with
        | Except.error _ => none
        | Except.ok existing => if existing.length > 0 then some existing else none
      else none
    match cached with
    | some existing =>
      some { items := existing, err := none, generated := false, searched := [], db := p.db }
    | none =>
      (ForceGenerateRecommendationsForUserWithProfile env.dec env.search env.topK env.saveErr
        p.db.recommendationCache cid p.profile).map fun r =>
        { items := r.items, err := r.err, generated := true,
          searched :=
            match p.profile with
            | some profile =>
              if profile.Keywords ≠ "" ∧ (extractKeywords env.dec p.profile).length > 0 then
                searchedKeywords env.search env.topK (extractKeywords env.dec p.profile)
              else []
            | none => []
          db := { p.db with recommendationCache := r.store } }

/-- Stage 1 of the scheduled run: `GenerateProfileForUser` for every candidate,
with the flag it returned. The operation of a user reads and writes only the
rows of that user, so the operations are run one after the other. -/
def profileStage (env : Env) (now : Int) : List String → Database →
    Database × List (String × Bool)
  | [], db => (db, [])
  | cid :: rest, db =>
    let out := GenerateProfileForUser env now db cid
    let tail := profileStage env now rest out.db
    (tail.1, (cid, out.regenerated) :: tail.2)

/-- Stage 2 of the scheduled run: `GenerateRecommendationsForUser` for every
candidate, with its outcome; `none` when a search panics. -/
def recommendationStage (env : Env) (now : Int) : List String → Database →
    Option (Database × List (String × RecommendationOutcome))
  | [], db => some (db, [])
  | cid :: rest, db =>
    match GenerateRecommendationsForUser env now db cid with
    | none => none
    | some out =>
      (recommendationStage env now rest out.db).map fun tail => (tail.1, (cid, out) :: tail.2)

/-- The first two stages of the workflow of `runTask` over the candidates
`cids`: stage 1 at the instant `now`, stage 2 at the instant `later`. -/
def scheduledRun (env : Env) (now later : Int) (cids : List String) (db : Database) :
    Option (List (String × Bool) × List (String × RecommendationOutcome)) :=
  let stage1 := profileStage env now cids db
  (recommendationStage env later cids stage1.1).map fun stage2 => (stage1.2, stage2.2)

/-! ## Example of a scheduled run -/

/-- A database with one user `u1`: a profile updated at instant 100, a cached
snapshot with one item, and one group message sent at instant 150. -/
def cachedDatabase : Database :=
  { posts := []
    messages := [{ senderID := "u1", messageTime := 150, content := some "DW20", title := none,
                   groupName := none }]
    userProfiles := [("u1", { CID := "u1", ProfileRaw := "P0", Keywords := "K0", UpdatedAt := 100 })]
    recommendationCache := [("u1", { items := [kbItem "1" "T1"], profile := none })] }

/-- An environment whose profile inference and merge succeed, with the given
search capability and decoders. -/
def sampleEnv (dec : Decoders) (search : Search) (topK : Int) : Env :=
  { lookbackDays := 7
    fetchUserProfileFromRAGWithData := fun _ _ => Except.ok ("P1", "K1")
    mergeProfiles := fun _ _ _ _ => Except.ok ("P2", "K2")
    ExtractTopicsFromMessages := fun _ _ => []
    dec := dec, search := search, topK := topK, saveErr := none }

end AiPush

/-! # Theorems -/

namespace AiPush

/-! ## Go maps -/

theorem GoMap.get?_set_self {β : Type} (m : GoMap β) (k : String) (v : β) :
    (m.set k v).get? k = some v := by
  induction m with
  | nil => simp [GoMap.set, GoMap.get?]
  | cons kv rest ih =>
    obtain ⟨k', v'⟩ := kv
    by_cases h : k' = k
    · simp [GoMap.set, GoMap.get?, h]
    · simp [GoMap.set, GoMap.get?, h, ih]

theorem GoMap.get?_set_ne {β : Type} (m : GoMap β) (k k₂ : String) (v : β) (hne : k ≠ k₂) :
    (m.set k v).get? k₂ = m.get? k₂ := by
  induction m with
  | nil => simp [GoMap.set, GoMap.get?, hne]
  | cons kv rest ih =>
    obtain ⟨k', v'⟩ := kv
    by_cases h : k' = k
    · subst h
      simp [GoMap.set, GoMap.get?, hne]
    · by_cases h₂ : k' = k₂
      · subst h₂
        simp [GoMap.set, GoMap.get?, h]
      · simp [GoMap.set, GoMap.get?, h, h₂, ih]

theorem GoMap.get?_eq_none_iff {β : Type} (m : GoMap β) (k : String) :
    m.get? k = none ↔ k ∉ m.keys := by
  induction m with
  | nil => simp [GoMap.get?, GoMap.keys]
  | cons kv rest ih =>
    obtain ⟨k', v'⟩ := kv
    by_cases h : k' = k
    · simp [GoMap.get?, GoMap.keys, h]
    · have h' : ¬ k = k' := fun e => h e.symm
      simpa [GoMap.get?, GoMap.keys, h, h'] using ih

theorem GoMap.mem_of_get? {β : Type} (m : GoMap β) (k : String) (v : β)
    (h : m.get? k = some v) : (k, v) ∈ m := by
  induction m with
  | nil => simp [GoMap.get?] at h
  | cons kv rest ih =>
    obtain ⟨k', v'⟩ := kv
    by_cases hk : k' = k
    · simp [GoMap.get?, hk] at h
      simp [hk, h]
    · simp [GoMap.get?, hk] at h
      exact List.mem_cons_of_mem _ (ih h)

theorem GoMap.get?_of_mem {β : Type} (m : GoMap β) (k : String) (v : β)
    (hnd : m.keys.Nodup) (h : (k, v) ∈ m) : m.get? k = some v := by
  induction m with
  | nil => simp at h
  | cons kv rest ih =>
    obtain ⟨k', v'⟩ := kv
    simp only [GoMap.keys, List.map_cons, List.nodup_cons] at hnd
    rcases List.mem_cons.1 h with heq | hmem
    · cases heq
      simp [GoMap.get?]
    · have hk : k' ≠ k := by
        intro e
        subst e
        exact hnd.1 (List.mem_map_of_mem Prod.fst hmem)
      simp only [GoMap.get?, hk, if_false]
      exact ih hnd.2 hmem

theorem GoMap.keys_set {β : Type} (m : GoMap β) (k : String) (v : β) :
    (m.set k v).keys = if k ∈ m.keys then m.keys else m.keys ++ [k] := by
  induction m with
  | nil => simp [GoMap.set, GoMap.keys]
  | cons kv rest ih =>
    obtain ⟨k', v'⟩ := kv
    by_cases h : k' = k
    · subst h
      simp [GoMap.set, GoMap.keys]
    · have h' : ¬ k = k' := fun e => h e.symm
      have ih' := ih
      simp only [GoMap.keys] at ih'
      by_cases hm : k ∈ List.map Prod.fst rest
      · simp [GoMap.set, GoMap.keys, h, h', hm, ih']
      · simp [GoMap.set, GoMap.keys, h, h', hm, ih']

theorem GoMap.nodup_keys_set {β : Type} (m : GoMap β) (k : String) (v : β)
    (hnd : m.keys.Nodup) : (m.set k v).keys.Nodup := by
  rw [GoMap.keys_set]
  by_cases hm : k ∈ m.keys
  · simpa [hm] using hnd
  · simp only [hm, if_false]
    exact List.Nodup.append hnd (List.nodup_singleton k) (by simpa using hm)

theorem GoMap.mem_keys_set {β : Type} (m : GoMap β) (k k₂ : String) (v : β) :
    k₂ ∈ (m.set k v).keys ↔ k₂ = k ∨ k₂ ∈ m.keys := by
  rw [GoMap.keys_set]
  by_cases hm : k ∈ m.keys
  · simp only [hm, if_true]
    constructor
    · exact fun h => Or.inr h
    · rintro (rfl | h)
      · exact hm
      · exact h
  · simp only [hm, if_false, List.mem_append, List.mem_singleton]
    tauto


/-! ## DeduplicateSlice -/

theorem mem_removeLaterDuplicates (xs : List String) (x : String) :
    x ∈ removeLaterDuplicates xs ↔ x ∈ xs := by
  induction xs with
  | nil => simp [removeLaterDuplicates]
  | cons y ys ih =>
    by_cases h : x = y
    · simp [removeLaterDuplicates, h]
    · simp [removeLaterDuplicates, h, ih]

theorem nodup_removeLaterDuplicates (xs : List String) : (removeLaterDuplicates xs).Nodup := by
  induction xs with
  | nil => simp [removeLaterDuplicates]
  | cons y ys ih =>
    simp only [removeLaterDuplicates, List.nodup_cons]
    exact ⟨by simp, ih.filter _⟩

theorem removeLaterDuplicates_eq_nil (xs : List String) :
    removeLaterDuplicates xs = [] ↔ xs = [] := by
  cases xs <;> simp [removeLaterDuplicates]

theorem dedupLoop_eq (xs : List String) (seen : GoMap Bool) (result : List String)
    (hinv : ∀ v, (seen.get? v).getD false = true ↔ v ∈ result) :
    DeduplicateSlice.loop xs seen result =
      result ++ (removeLaterDuplicates (trimmedNonEmpty xs)).filter fun v => v ∉ result := by
  induction xs generalizing seen result with
  | nil => simp [DeduplicateSlice.loop, trimmedNonEmpty, removeLaterDuplicates]
  | cons x xs ih =>
    by_cases hv : TrimSpace x = ""
    · have : trimmedNonEmpty (x :: xs) = trimmedNonEmpty xs := by
        simp [trimmedNonEmpty, hv]
      rw [this]
      have step : DeduplicateSlice.loop (x :: xs) seen result =
          DeduplicateSlice.loop xs seen result := by
        simp [DeduplicateSlice.loop, hv]
      rw [step]
      exact ih seen result hinv
    · have hcons : trimmedNonEmpty (x :: xs) = TrimSpace x :: trimmedNonEmpty xs := by
        simp [trimmedNonEmpty, hv]
      rw [hcons]
      by_cases hs : TrimSpace x ∈ result
      · have hseen : (seen.get? (TrimSpace x)).getD false = true := (hinv _).2 hs
        have step : DeduplicateSlice.loop (x :: xs) seen result =
            DeduplicateSlice.loop xs seen result := by
          simp [DeduplicateSlice.loop, hseen]
        rw [step, ih seen result hinv]
        simp only [removeLaterDuplicates, List.filter_cons, hs, not_true_eq_false,
          decide_False, List.filter_filter]
        congr 1
        apply List.filter_congr
        intro y _
        by_cases hy : y ∈ result
        · simp [hy]
        · have : y ≠ TrimSpace x := fun e => hy (e ▸ hs)
          simp [hy, this]
      · have hseen : ¬ (seen.get? (TrimSpace x)).getD false = true := fun h => hs ((hinv _).1 h)
        have step : DeduplicateSlice.loop (x :: xs) seen result =
            DeduplicateSlice.loop xs (seen.set (TrimSpace x) true) (result ++ [TrimSpace x]) := by
          simp [DeduplicateSlice.loop, hv, hseen]
        rw [step, ih (seen.set (TrimSpace x) true) (result ++ [TrimSpace x])]
        · simp only [removeLaterDuplicates, List.filter_cons, hs, not_false_eq_true,
            decide_True, if_true, List.filter_filter, List.append_assoc, List.singleton_append]
          congr 2
          apply List.filter_congr
          intro y _
          by_cases hy : y = TrimSpace x
          · simp [hy]
          · simp [hy]
        · intro v
          by_cases hvx : TrimSpace x = v
          · subst hvx
            simp [GoMap.get?_set_self]
          · rw [GoMap.get?_set_ne _ _ _ _ hvx, hinv v]
            have : ¬ v = TrimSpace x := fun e => hvx e.symm
            simp [this]

/-- What `DeduplicateSlice` computes: entries are trimmed, empty ones dropped,
and of equal trimmed entries only the first is kept. -/
theorem DeduplicateSlice_eq (xs : List String) :
    DeduplicateSlice xs = removeLaterDuplicates (trimmedNonEmpty xs) := by
  unfold DeduplicateSlice
  rw [dedupLoop_eq xs [] [] (by simp [GoMap.get?])]
  simp


/-! ## The shape of a merged profile -/

theorem appendStrings_eq (merged : List String) (items : List JSON) :
    appendStrings merged items = merged ++ items.filterMap fun item =>
      match item with
      | JSON.str s => some s
      | _ => none := by
  induction items generalizing merged with
  | nil => simp [appendStrings]
  | cons item rest ih =>
    cases item <;> simp [appendStrings, ih]

theorem appendInterests_eq (merged : List String) (profile : GoMap JSON) :
    appendInterests merged profile = merged ++ interestStrings profile := by
  unfold appendInterests interestStrings
  cases h : profile.get? "interests" with
  | none => simp
  | some j => cases j <;> simp [appendStrings_eq]

/-- The interests before the backfill: both inputs, old first, trimmed, without
empty entries and without later duplicates. -/
theorem baseInterests_eq (oldProfile newProfile : GoMap JSON) :
    baseInterests oldProfile newProfile =
      removeLaterDuplicates (trimmedNonEmpty (interestStrings oldProfile ++ interestStrings newProfile)) := by
  unfold baseInterests
  rw [DeduplicateSlice_eq, appendInterests_eq, appendInterests_eq]
  simp

theorem copyMissing_get? (merged : GoMap Value) (profile : GoMap JSON) (k : String) :
    (copyMissing merged profile).get? k =
      match merged.get? k with
      | some v => some v
      | none => (profile.get? k).map Value.json := by
  induction profile generalizing merged with
  | nil =>
    simp only [copyMissing, GoMap.get?, Option.map_none']
    cases merged.get? k <;> rfl
  | cons kv rest ih =>
    obtain ⟨key, value⟩ := kv
    cases hkey : merged.get? key with
    | some v' =>
      simp only [copyMissing, hkey]
      rw [ih]
      cases hk : merged.get? k with
      | some v => rfl
      | none =>
        have hne : key ≠ k := by
          intro e
          rw [e, hk] at hkey
          cases hkey
        simp [GoMap.get?, hne]
    | none =>
      simp only [copyMissing, hkey]
      rw [ih]
      by_cases hne : key = k
      · subst hne
        simp [GoMap.get?_set_self, hkey, GoMap.get?]
      · rw [GoMap.get?_set_ne _ _ _ _ hne]
        simp [GoMap.get?, hne]

theorem decayKeywords_eq_nil (fused : Bool) (i : Nat) (xs : List String) :
    decayKeywords fused i xs = [] ↔ xs = [] := by
  cases xs <;> simp [decayKeywords]

theorem mergeDecoded_fst (fused : Bool) (ro : RangeOrder ℚ) (now : String)
    (oldProfile newProfile : GoMap JSON) (oldKeywords newKeywords : List String) :
    (mergeDecoded fused ro now oldProfile newProfile oldKeywords newKeywords).1 =
      copyMissing (copyMissing (coreProfile fused ro now oldProfile newProfile) oldProfile)
        newProfile := by
  have hb : DeduplicateSlice (appendInterests (appendInterests [] oldProfile) newProfile) =
      baseInterests oldProfile newProfile := rfl
  simp only [mergeDecoded, hb, coreProfile, finalInterests, finalKeywords]
  generalize baseInterests oldProfile newProfile = base
  generalize sortedKeywords ro (collectKeywords oldProfile newProfile) = sorted
  cases base with
  | nil =>
    cases sorted with
    | nil => simp
    | cons w ws => simp [GoMap.set]
  | cons b bs =>
    cases sorted with
    | nil => simp [GoMap.set, decayKeywords]
    | cons w ws => simp

theorem mergeProfiles_ok (fused : Bool) (ro : RangeOrder ℚ) (now : String)
    (oldProfile newProfile : GoMap JSON) (oldKeywords newKeywords : List String) :
    mergeProfiles fused ro now (some oldProfile) (some newProfile) (some oldKeywords)
        (some newKeywords) =
      Except.ok (mergeDecoded fused ro now oldProfile newProfile oldKeywords newKeywords) := rfl

theorem interestsOf_mergeDecoded (fused : Bool) (ro : RangeOrder ℚ) (now : String)
    (oldProfile newProfile : GoMap JSON) (oldKeywords newKeywords : List String) :
    interestsOf (mergeDecoded fused ro now oldProfile newProfile oldKeywords newKeywords).1 =
      finalInterests (baseInterests oldProfile newProfile)
        (sortedKeywords ro (collectKeywords oldProfile newProfile)) := by
  rw [mergeDecoded_fst]
  simp [interestsOf, copyMissing_get?, coreProfile, GoMap.get?]

theorem weightedKeywordsOf_mergeDecoded (fused : Bool) (ro : RangeOrder ℚ) (now : String)
    (oldProfile newProfile : GoMap JSON) (oldKeywords newKeywords : List String) :
    weightedKeywordsOf (mergeDecoded fused ro now oldProfile newProfile oldKeywords newKeywords).1 =
      finalKeywords fused (baseInterests oldProfile newProfile)
        (sortedKeywords ro (collectKeywords oldProfile newProfile)) := by
  rw [mergeDecoded_fst]
  simp [weightedKeywordsOf, copyMissing_get?, coreProfile, GoMap.get?]

theorem activityLevelOf_mergeDecoded (fused : Bool) (ro : RangeOrder ℚ) (now : String)
    (oldProfile newProfile : GoMap JSON) (oldKeywords newKeywords : List String) :
    activityLevelOf (mergeDecoded fused ro now oldProfile newProfile oldKeywords newKeywords).1 =
      some (mergeActivityLevel oldProfile newProfile) := by
  rw [mergeDecoded_fst]
  simp [activityLevelOf, copyMissing_get?, coreProfile, GoMap.get?]


/-! ## The keyword map built by `mergeProfiles` -/

theorem oldKeywordLoop_get?_other (m : GoMap ℚ) (items : List JSON) (k : String)
    (hk : k = "" ∨ k ∉ (keywordPairs items).map Prod.fst) :
    (oldKeywordLoop m items).get? k = m.get? k := by
  induction items generalizing m with
  | nil => simp [oldKeywordLoop]
  | cons item rest ih =>
    cases item with
    | obj kwObj =>
      have hrest : k = "" ∨ k ∉ (keywordPairs rest).map Prod.fst := by
        rcases hk with h | h
        · exact Or.inl h
        · right
          intro hm
          apply h
          simp only [keywordPairs, List.filterMap_cons, List.map_cons, List.mem_cons]
          exact Or.inr hm
      by_cases hkw : asString (GoMap.get? kwObj "keyword") = ""
      · simp only [oldKeywordLoop, hkw, ne_eq, not_true_eq_false, if_false]
        exact ih m hrest
      · simp only [oldKeywordLoop, ne_eq, hkw, not_false_eq_true, if_true]
        rw [ih _ hrest]
        apply GoMap.get?_set_ne
        intro e
        rcases hk with h | h
        · exact hkw (e.trans h)
        · apply h
          simp [keywordPairs, e]
    | null => simpa [oldKeywordLoop, keywordPairs] using ih m (by simpa [keywordPairs] using hk)
    | bool b => simpa [oldKeywordLoop, keywordPairs] using ih m (by simpa [keywordPairs] using hk)
    | num q => simpa [oldKeywordLoop, keywordPairs] using ih m (by simpa [keywordPairs] using hk)
    | str s => simpa [oldKeywordLoop, keywordPairs] using ih m (by simpa [keywordPairs] using hk)
    | arr xs => simpa [oldKeywordLoop, keywordPairs] using ih m (by simpa [keywordPairs] using hk)

theorem oldKeywordLoop_get?_mem (m : GoMap ℚ) (items : List JSON) (k : String) (w : ℚ)
    (hk : k ≠ "") (hmem : (k, w) ∈ keywordPairs items)
    (hnd : ((keywordPairs items).map Prod.fst).Nodup) :
    (oldKeywordLoop m items).get? k = some w := by
  induction items generalizing m with
  | nil => simp [keywordPairs] at hmem
  | cons item rest ih =>
    cases item with
    | obj kwObj =>
      simp only [keywordPairs, List.filterMap_cons, List.map_cons, List.nodup_cons,
        List.mem_cons] at hmem hnd
      rcases hmem with heq | hmem
      · cases heq
        simp only [oldKeywordLoop, ne_eq, hk, not_false_eq_true, if_true]
        rw [oldKeywordLoop_get?_other _ _ _ (Or.inr hnd.1), GoMap.get?_set_self]
      · have hne : asString (GoMap.get? kwObj "keyword") ≠ k := by
          intro e
          apply hnd.1
          rw [e]
          exact List.mem_map_of_mem Prod.fst hmem
        by_cases hkw : asString (GoMap.get? kwObj "keyword") = ""
        · simp only [oldKeywordLoop, hkw, ne_eq, not_true_eq_false, if_false]
          exact ih m hmem hnd.2
        · simp only [oldKeywordLoop, ne_eq, hkw, not_false_eq_true, if_true]
          exact ih _ hmem hnd.2
    | null => simpa [oldKeywordLoop] using ih m (by simpa [keywordPairs] using hmem) (by simpa [keywordPairs] using hnd)
    | bool b => simpa [oldKeywordLoop] using ih m (by simpa [keywordPairs] using hmem) (by simpa [keywordPairs] using hnd)
    | num q => simpa [oldKeywordLoop] using ih m (by simpa [keywordPairs] using hmem) (by simpa [keywordPairs] using hnd)
    | str s => simpa [oldKeywordLoop] using ih m (by simpa [keywordPairs] using hmem) (by simpa [keywordPairs] using hnd)
    | arr xs => simpa [oldKeywordLoop] using ih m (by simpa [keywordPairs] using hmem) (by simpa [keywordPairs] using hnd)

theorem oldKeywordLoop_nodup (m : GoMap ℚ) (items : List JSON) (hnd : m.keys.Nodup) :
    (oldKeywordLoop m items).keys.Nodup := by
  induction items generalizing m with
  | nil => simpa [oldKeywordLoop] using hnd
  | cons item rest ih =>
    cases item with
    | obj kwObj =>
      by_cases hkw : asString (GoMap.get? kwObj "keyword") = ""
      · simp only [oldKeywordLoop, hkw, ne_eq, not_true_eq_false, if_false]
        exact ih m hnd
      · simp only [oldKeywordLoop, ne_eq, hkw, not_false_eq_true, if_true]
        exact ih _ (GoMap.nodup_keys_set _ _ _ hnd)
    | null => simpa [oldKeywordLoop] using ih m hnd
    | bool b => simpa [oldKeywordLoop] using ih m hnd
    | num q => simpa [oldKeywordLoop] using ih m hnd
    | str s => simpa [oldKeywordLoop] using ih m hnd
    | arr xs => simpa [oldKeywordLoop] using ih m hnd

theorem newKeywordLoop_eq (m : GoMap ℚ) (items : List JSON) :
    newKeywordLoop m items = (keywordPairs items).foldl newKeywordStep m := by
  induction items generalizing m with
  | nil => simp [newKeywordLoop, keywordPairs]
  | cons item rest ih =>
    cases item with
    | obj kwObj =>
      have hpairs : keywordPairs (JSON.obj kwObj :: rest) =
          (asString (GoMap.get? kwObj "keyword"), asFloat (GoMap.get? kwObj "weight")) ::
            keywordPairs rest := by
        simp [keywordPairs]
      rw [hpairs, List.foldl_cons, ← ih]
      by_cases hkw : asString (GoMap.get? kwObj "keyword") = ""
      · simp [newKeywordLoop, newKeywordStep, hkw]
      · cases hg : m.get? (asString (GoMap.get? kwObj "keyword")) with
        | none => simp [newKeywordLoop, newKeywordStep, hkw, hg]
        | some w =>
          by_cases hw : asFloat (GoMap.get? kwObj "weight") > w
          · simp [newKeywordLoop, newKeywordStep, hkw, hg, hw]
          · simp [newKeywordLoop, newKeywordStep, hkw, hg, hw]
    | null => simpa [newKeywordLoop, keywordPairs] using ih m
    | bool b => simpa [newKeywordLoop, keywordPairs] using ih m
    | num q => simpa [newKeywordLoop, keywordPairs] using ih m
    | str s => simpa [newKeywordLoop, keywordPairs] using ih m
    | arr xs => simpa [newKeywordLoop, keywordPairs] using ih m

theorem newKeywordStep_get?_other (m : GoMap ℚ) (p : String × ℚ) (k : String) (hk : p.1 ≠ k) :
    (newKeywordStep m p).get? k = m.get? k := by
  unfold newKeywordStep
  by_cases hp : p.1 = ""
  · simp [hp]
  · cases hg : m.get? p.1 with
    | none => simp [hp, GoMap.get?_set_ne _ _ _ _ hk]
    | some w =>
      by_cases hw : p.2 > w
      · simp [hp, hw, GoMap.get?_set_ne _ _ _ _ hk]
      · simp [hp, hw]

theorem newKeywordStep_get?_self (m : GoMap ℚ) (p : String × ℚ) (hp : p.1 ≠ "") :
    (newKeywordStep m p).get? p.1 =
      some (match m.get? p.1 with
        | some existingWeight => max existingWeight p.2
        | none => p.2) := by
  unfold newKeywordStep
  cases hg : m.get? p.1 with
  | none => simp [hp, GoMap.get?_set_self]
  | some w =>
    by_cases hw : p.2 > w
    · simp [hp, hw, GoMap.get?_set_self, max_eq_right (le_of_lt hw)]
    · simp [hp, hw, hg, max_eq_left (not_lt.1 hw)]

theorem newKeywordStep_nodup (m : GoMap ℚ) (p : String × ℚ) (hnd : m.keys.Nodup) :
    (newKeywordStep m p).keys.Nodup := by
  unfold newKeywordStep
  by_cases hp : p.1 = ""
  · simpa [hp] using hnd
  · cases hg : m.get? p.1 with
    | none => simpa [hp] using GoMap.nodup_keys_set _ _ _ hnd
    | some w =>
      by_cases hw : p.2 > w
      · simpa [hp, hw] using GoMap.nodup_keys_set _ _ _ hnd
      · simpa [hp, hw] using hnd

theorem newKeywordFold_nodup (m : GoMap ℚ) (pairs : List (String × ℚ)) (hnd : m.keys.Nodup) :
    (pairs.foldl newKeywordStep m).keys.Nodup := by
  induction pairs generalizing m with
  | nil => simpa using hnd
  | cons p rest ih => exact ih _ (newKeywordStep_nodup m p hnd)

theorem newKeywordFold_get?_other (m : GoMap ℚ) (pairs : List (String × ℚ)) (k : String)
    (hk : k = "" ∨ k ∉ pairs.map Prod.fst) :
    (pairs.foldl newKeywordStep m).get? k = m.get? k := by
  induction pairs generalizing m with
  | nil => simp
  | cons p rest ih =>
    have hrest : k = "" ∨ k ∉ rest.map Prod.fst := by
      rcases hk with h | h
      · exact Or.inl h
      · exact Or.inr fun hm => h (by simp only [List.map_cons, List.mem_cons]; exact Or.inr hm)
    rw [List.foldl_cons, ih _ hrest]
    by_cases hp : p.1 = k
    · rcases hk with h | h
      · have : p.1 = "" := hp.trans h
        simp [newKeywordStep, this]
      · exact absurd (by simp [hp]) h
    · exact newKeywordStep_get?_other m p k hp

theorem newKeywordFold_get?_mem (m : GoMap ℚ) (pairs : List (String × ℚ)) (k : String) (w : ℚ)
    (hk : k ≠ "") (hmem : (k, w) ∈ pairs) (hnd : (pairs.map Prod.fst).Nodup) :
    (pairs.foldl newKeywordStep m).get? k =
      some (match m.get? k with
        | some existingWeight => max existingWeight w
        | none => w) := by
  induction pairs generalizing m with
  | nil => simp at hmem
  | cons p rest ih =>
    simp only [List.map_cons, List.nodup_cons] at hnd
    rw [List.foldl_cons]
    rcases List.mem_cons.1 hmem with heq | hmem
    · subst heq
      rw [newKeywordFold_get?_other _ _ _ (Or.inr hnd.1)]
      exact newKeywordStep_get?_self m (k, w) hk
    · have hne : p.1 ≠ k := by
        intro e
        apply hnd.1
        rw [e]
        exact List.mem_map_of_mem Prod.fst hmem
      rw [ih _ hmem hnd.2, newKeywordStep_get?_other m p k hne]

theorem collectKeywords_eq (oldProfile newProfile : GoMap JSON) :
    collectKeywords oldProfile newProfile =
      (weightedPairs newProfile).foldl newKeywordStep (collectKeywords oldProfile []) := by
  unfold collectKeywords weightedPairs
  cases hn : newProfile.get? "weighted_keywords" with
  | none => simp [GoMap.get?]
  | some jn => cases jn <;> simp [GoMap.get?, newKeywordLoop_eq]

theorem collectKeywords_old_nodup (oldProfile : GoMap JSON) :
    (collectKeywords oldProfile []).keys.Nodup := by
  have h0 : (GoMap.keys ([] : GoMap ℚ)).Nodup := by simp [GoMap.keys]
  unfold collectKeywords
  cases ho : oldProfile.get? "weighted_keywords" with
  | none => simpa [GoMap.get?] using h0
  | some jo =>
    cases jo with
    | arr oldWk => simpa [GoMap.get?] using oldKeywordLoop_nodup [] oldWk h0
    | null => simpa [GoMap.get?] using h0
    | bool b => simpa [GoMap.get?] using h0
    | num q => simpa [GoMap.get?] using h0
    | str s => simpa [GoMap.get?] using h0
    | obj kvs => simpa [GoMap.get?] using h0

theorem collectKeywords_nodup (oldProfile newProfile : GoMap JSON) :
    (collectKeywords oldProfile newProfile).keys.Nodup := by
  rw [collectKeywords_eq]
  exact newKeywordFold_nodup _ _ (collectKeywords_old_nodup oldProfile)

/-- The keyword map read at `k`: the old loop stores the last weight, here for
keywords that occur once; the new loop keeps the larger weight. -/
theorem collectKeywords_get?_both (oldProfile newProfile : GoMap JSON) (k : String) (w₁ w₂ : ℚ)
    (hk : k ≠ "") (hold : (k, w₁) ∈ weightedPairs oldProfile)
    (hnew : (k, w₂) ∈ weightedPairs newProfile)
    (hndOld : ((weightedPairs oldProfile).map Prod.fst).Nodup)
    (hndNew : ((weightedPairs newProfile).map Prod.fst).Nodup) :
    (collectKeywords oldProfile newProfile).get? k = some (max w₁ w₂) := by
  unfold weightedPairs at hold hnew hndOld hndNew
  unfold collectKeywords
  cases ho : oldProfile.get? "weighted_keywords" with
  | none => simp [ho] at hold
  | some jo =>
    cases jo with
    | arr oldWk =>
      cases hn : newProfile.get? "weighted_keywords" with
      | none => simp [hn] at hnew
      | some jn =>
        cases jn with
        | arr newWk =>
          simp only [ho, hn] at hold hnew hndOld hndNew ⊢
          rw [newKeywordLoop_eq, newKeywordFold_get?_mem _ _ k w₂ hk hnew hndNew,
            oldKeywordLoop_get?_mem _ _ k w₁ hk hold hndOld]
        | null => simp [hn] at hnew
        | bool b => simp [hn] at hnew
        | num q => simp [hn] at hnew
        | str s => simp [hn] at hnew
        | obj kvs => simp [hn] at hnew
    | null => simp [ho] at hold
    | bool b => simp [ho] at hold
    | num q => simp [ho] at hold
    | str s => simp [ho] at hold
    | obj kvs => simp [ho] at hold

theorem mem_sortedKeywords (ro : RangeOrder ℚ) (m : GoMap ℚ) (wk : WeightedKeyword) :
    wk ∈ sortedKeywords ro m ↔ (wk.Keyword, wk.Weight) ∈ m := by
  unfold sortedKeywords
  rw [(List.perm_insertionSort weightGE _).mem_iff, List.mem_map]
  constructor
  · rintro ⟨kv, hkv, rfl⟩
    exact ((ro.perm m).mem_iff).1 hkv
  · intro h
    exact ⟨(wk.Keyword, wk.Weight), ((ro.perm m).mem_iff).2 h, rfl⟩

theorem sortedKeywords_eq_nil (ro : RangeOrder ℚ) (m : GoMap ℚ) :
    sortedKeywords ro m = [] ↔ m = [] := by
  unfold sortedKeywords
  rw [← List.length_eq_zero, List.length_insertionSort, List.length_map,
    (ro.perm m).length_eq, List.length_eq_zero]

theorem sorted_sortedKeywords (ro : RangeOrder ℚ) (m : GoMap ℚ) :
    (sortedKeywords ro m).Sorted weightGE :=
  List.sorted_insertionSort weightGE _

/-- C1. Merge keeps the larger weight: when a non-empty keyword `k` has weight
`w₁` among the old payload's weighted keywords and `w₂` among the new payload's,
and no keyword is listed twice in either payload, `mergeProfiles` succeeds and
its `weighted_keywords` list `k` with weight `max w₁ w₂` and with no other weight. -/
theorem C1_merged_weight_is_max (fused : Bool) (ro : RangeOrder ℚ) (now : String)
    (oldProfile newProfile : GoMap JSON) (oldKeywords newKeywords : List String)
    (k : String) (w₁ w₂ : ℚ) (hk : k ≠ "")
    (hold : (k, w₁) ∈ weightedPairs oldProfile) (hnew : (k, w₂) ∈ weightedPairs newProfile)
    (hndOld : ((weightedPairs oldProfile).map Prod.fst).Nodup)
    (hndNew : ((weightedPairs newProfile).map Prod.fst).Nodup) :
    ∃ out, mergeProfiles fused ro now (some oldProfile) (some newProfile) (some oldKeywords)
        (some newKeywords) = Except.ok out ∧
      (⟨k, max w₁ w₂⟩ : WeightedKeyword) ∈ weightedKeywordsOf out.1 ∧
      ∀ w, (⟨k, w⟩ : WeightedKeyword) ∈ weightedKeywordsOf out.1 → w = max w₁ w₂ := by
  refine ⟨_, mergeProfiles_ok fused ro now oldProfile newProfile oldKeywords newKeywords, ?_⟩
  have hget := collectKeywords_get?_both oldProfile newProfile k w₁ w₂ hk hold hnew hndOld hndNew
  have hmem : (k, max w₁ w₂) ∈ collectKeywords oldProfile newProfile := GoMap.mem_of_get? _ _ _ hget
  have hne : sortedKeywords ro (collectKeywords oldProfile newProfile) ≠ [] := by
    rw [Ne, sortedKeywords_eq_nil]
    intro h
    rw [h] at hmem
    simp at hmem
  rw [weightedKeywordsOf_mergeDecoded]
  simp only [finalKeywords, hne, and_false, if_false]
  constructor
  · exact (mem_sortedKeywords ro _ _).2 hmem
  · intro w hw
    have h := GoMap.get?_of_mem _ _ _ (collectKeywords_nodup oldProfile newProfile)
      ((mem_sortedKeywords ro _ _).1 hw)
    simp only at h
    rw [hget] at h
    exact (Option.some.inj h).symm


/-- Witness of C1: keyword `go` with weight 1/2 in the old payload and 3/4 in the
new one. -/
theorem C1_merged_weight_is_max_witness :
    ∃ out, mergeProfiles false (RangeOrder.inOrder ℚ) "t" (some (keywordPayload "go" (1 / 2)))
        (some (keywordPayload "go" (3 / 4))) (some []) (some []) = Except.ok out ∧
      (⟨"go", max (1 / 2) (3 / 4)⟩ : WeightedKeyword) ∈ weightedKeywordsOf out.1 ∧
      ∀ w, (⟨"go", w⟩ : WeightedKeyword) ∈ weightedKeywordsOf out.1 → w = max (1 / 2) (3 / 4) :=
  C1_merged_weight_is_max false (RangeOrder.inOrder ℚ) "t" (keywordPayload "go" (1 / 2))
    (keywordPayload "go" (3 / 4)) [] [] "go" (1 / 2) (3 / 4) (by decide)
    (by simp [keywordPayload, weightedPairs, keywordPairs, GoMap.get?, asString, asFloat])
    (by simp [keywordPayload, weightedPairs, keywordPairs, GoMap.get?, asString, asFloat])
    (by simp [keywordPayload, weightedPairs, keywordPairs, GoMap.get?, asString, asFloat])
    (by simp [keywordPayload, weightedPairs, keywordPairs, GoMap.get?, asString, asFloat])

/-! ## C2: interests -/

/-- C2, as stated, fails: with old interests `[" a"]` and new interests `["a"]`
the strings differ character for character, so the claim predicts
`[" a", "a"]`, but the merged interests are `["a"]`. -/
theorem C2_counterexample :
    ∃ out, mergeProfiles false (RangeOrder.inOrder ℚ) "t" (some (interestPayload [" a"]))
        (some (interestPayload ["a"])) (some []) (some []) = Except.ok out ∧
      interestsOf out.1 = ["a"] ∧
      removeLaterDuplicates (interestStrings (interestPayload [" a"]) ++
        interestStrings (interestPayload ["a"])) = [" a", "a"] :=
  ⟨_, rfl, by decide, by decide⟩

/-- C2, amended. The interests of the result are `old.interests ++ new.interests`
with every entry trimmed of surrounding white space, entries that are empty
after trimming dropped, and every later duplicate (equal after trimming)
removed, first occurrences in their original order; only when that list is
empty while merged keywords exist, the interests are the merged keywords in
their sorted order. -/
theorem C2_interests_trimmed_union (fused : Bool) (ro : RangeOrder ℚ) (now : String)
    (oldProfile newProfile : GoMap JSON) (oldKeywords newKeywords : List String) :
    ∃ out, mergeProfiles fused ro now (some oldProfile) (some newProfile) (some oldKeywords)
        (some newKeywords) = Except.ok out ∧
      interestsOf out.1 =
        if trimmedNonEmpty (interestStrings oldProfile ++ interestStrings newProfile) = [] ∧
            collectKeywords oldProfile newProfile ≠ [] then
          (sortedKeywords ro (collectKeywords oldProfile newProfile)).map fun wk => wk.Keyword
        else
          removeLaterDuplicates
            (trimmedNonEmpty (interestStrings oldProfile ++ interestStrings newProfile)) := by
  refine ⟨_, mergeProfiles_ok fused ro now oldProfile newProfile oldKeywords newKeywords, ?_⟩
  rw [interestsOf_mergeDecoded, baseInterests_eq]
  simp only [finalInterests, removeLaterDuplicates_eq_nil, Ne, sortedKeywords_eq_nil]

/-! ## C3, C4: activity level -/

/-- C3, evaluated at the failing input: old level `minimal`, new level `medium`.
The higher of the two is `medium`; the merged profile keeps `minimal`. -/
theorem C3_minimal_not_upgraded :
    ∃ out, mergeProfiles false (RangeOrder.inOrder ℚ) "t" (some (levelPayload "minimal"))
        (some (levelPayload "medium")) (some []) (some []) = Except.ok out ∧
      activityLevelOf out.1 = some "minimal" ∧ higherLevel "minimal" "medium" = "medium" :=
  ⟨_, rfl, by decide, by decide⟩

/-- C4. A merge never downgrades: for old and new levels among minimal, low,
medium, high, the merged activity level is not lower than the old one. -/
theorem C4_never_downgrades (fused : Bool) (ro : RangeOrder ℚ) (now : String)
    (oldProfile newProfile : GoMap JSON) (oldKeywords newKeywords : List String)
    (oldLevel newLevel : String)
    (hold : oldProfile.get? "activity_level" = some (JSON.str oldLevel))
    (hnew : newProfile.get? "activity_level" = some (JSON.str newLevel))
    (hOldLevel : oldLevel ∈ activityLevels) (hNewLevel : newLevel ∈ activityLevels) :
    ∃ out level, mergeProfiles fused ro now (some oldProfile) (some newProfile)
        (some oldKeywords) (some newKeywords) = Except.ok out ∧
      activityLevelOf out.1 = some level ∧ level ∈ activityLevels ∧
      levelRank oldLevel ≤ levelRank level := by
  refine ⟨_, _, mergeProfiles_ok fused ro now oldProfile newProfile oldKeywords newKeywords,
    activityLevelOf_mergeDecoded fused ro now oldProfile newProfile oldKeywords newKeywords, ?_⟩
  simp only [mergeActivityLevel, hold, hnew]
  simp only [activityLevels, List.mem_cons, List.mem_singleton, List.not_mem_nil, or_false]
    at hOldLevel hNewLevel
  rcases hOldLevel with rfl | rfl | rfl | rfl <;> rcases hNewLevel with rfl | rfl | rfl | rfl <;>
    decide

/-- Witness of C4: old level `medium`, new level `low`. -/
theorem C4_never_downgrades_witness :
    ∃ out level, mergeProfiles false (RangeOrder.inOrder ℚ) "t" (some (levelPayload "medium"))
        (some (levelPayload "low")) (some []) (some []) = Except.ok out ∧
      activityLevelOf out.1 = some level ∧ level ∈ activityLevels ∧
      levelRank "medium" ≤ levelRank level :=
  C4_never_downgrades false (RangeOrder.inOrder ℚ) "t" (levelPayload "medium")
    (levelPayload "low") [] [] "medium" "low" rfl rfl (by decide) (by decide)

/-! ## C5: other attributes -/

/-- C5, as stated, fails: the attribute `nickname` has value `a` in the old
payload and `b` in the new one, and the result carries the old value `a`. -/
theorem C5_counterexample :
    ∃ out, mergeProfiles false (RangeOrder.inOrder ℚ) "t" (some (extraPayload "nickname" "a"))
        (some (extraPayload "nickname" "b")) (some []) (some []) = Except.ok out ∧
      out.1.get? "nickname" = some (Value.json (JSON.str "a")) ∧
      out.1.get? "nickname" ≠ some (Value.json (JSON.str "b")) := by
  refine ⟨_, rfl, ?_⟩
  have h : (mergeDecoded false (RangeOrder.inOrder ℚ) "t" (extraPayload "nickname" "a")
      (extraPayload "nickname" "b") [] []).1.get? "nickname" =
      some (Value.json (JSON.str "a")) := by
    rw [mergeDecoded_fst]
    simp [copyMissing_get?, coreProfile, GoMap.get?, extraPayload]
  rw [h]
  simp

/-- C5, amended. For every attribute key other than the five explicit ones, the
result carries the old payload's value when the old payload has the key (the
old value is kept on a key collision), and otherwise the new payload's value;
so a key present in only one input is copied through unchanged, and a key
present in neither is absent. -/
theorem C5_other_attributes_old_wins (fused : Bool) (ro : RangeOrder ℚ) (now : String)
    (oldProfile newProfile : GoMap JSON) (oldKeywords newKeywords : List String)
    (key : String) (hkey : key ∉ explicitKeys) :
    ∃ out, mergeProfiles fused ro now (some oldProfile) (some newProfile) (some oldKeywords)
        (some newKeywords) = Except.ok out ∧
      out.1.get? key =
        match oldProfile.get? key with
        | some v => some (Value.json v)
        | none => (newProfile.get? key).map Value.json := by
  refine ⟨_, mergeProfiles_ok fused ro now oldProfile newProfile oldKeywords newKeywords, ?_⟩
  simp only [explicitKeys, List.mem_cons, List.mem_singleton, List.not_mem_nil, or_false,
    not_or] at hkey
  obtain ⟨h1, h2, h3, h4, h5⟩ := hkey
  have hcore : (coreProfile fused ro now oldProfile newProfile).get? key = none := by
    simp [coreProfile, GoMap.get?, Ne.symm h1, Ne.symm h2, Ne.symm h3, Ne.symm h4, Ne.symm h5]
  rw [mergeDecoded_fst, copyMissing_get?, copyMissing_get?, hcore]
  cases oldProfile.get? key <;> simp

/-- Witness of C5: the key `nickname`, present in both payloads. -/
theorem C5_other_attributes_old_wins_witness :
    ∃ out, mergeProfiles false (RangeOrder.inOrder ℚ) "t" (some (extraPayload "nickname" "a"))
        (some (extraPayload "nickname" "b")) (some []) (some []) = Except.ok out ∧
      out.1.get? "nickname" =
        match (extraPayload "nickname" "a").get? "nickname" with
        | some v => some (Value.json v)
        | none => ((extraPayload "nickname" "b").get? "nickname").map Value.json :=
  C5_other_attributes_old_wins false (RangeOrder.inOrder ℚ) "t" (extraPayload "nickname" "a")
    (extraPayload "nickname" "b") [] [] "nickname" (by decide)


/-! ## The float64 model of the weight decay -/

theorem F64.excess_spec (fuel n : Nat) (h : n ≤ fuel) :
    n / 2 ^ F64.excess fuel n < 2 ^ 53 ∧
      (0 < F64.excess fuel n → 2 ^ 52 ≤ n / 2 ^ F64.excess fuel n) := by
  induction fuel generalizing n with
  | zero =>
    have : n = 0 := by omega
    subst this
    simp [F64.excess]
  | succ fuel ih =>
    by_cases hn : n < 2 ^ 53
    · simp only [F64.excess, if_pos hn, pow_zero, Nat.div_one]
      exact ⟨hn, fun h0 => absurd h0 (lt_irrefl 0)⟩
    · have hhalf : n / 2 ≤ fuel := by omega
      obtain ⟨h1, h2⟩ := ih (n / 2) hhalf
      have hdiv : n / 2 ^ (F64.excess fuel (n / 2) + 1) = n / 2 / 2 ^ F64.excess fuel (n / 2) := by
        rw [pow_succ, mul_comm, Nat.div_div_eq_div_mul]
      simp only [F64.excess, hn, if_false, hdiv]
      refine ⟨h1, fun _ => ?_⟩
      by_cases he : 0 < F64.excess fuel (n / 2)
      · exact h2 he
      · have he0 : F64.excess fuel (n / 2) = 0 := by omega
        rw [he0]
        simp only [pow_zero, Nat.div_one]
        omega

theorem F64.roundEvenDiv_ge (n d : Nat) : n / d ≤ F64.roundEvenDiv n d := by
  unfold F64.roundEvenDiv
  simp only
  split_ifs <;> omega

theorem F64.round53_of_lt (n : Nat) (h : n < 2 ^ 53) : F64.round53 n = n := by
  have he : F64.excess n n = 0 := by
    cases n with
    | zero => rfl
    | succ k => simp only [F64.excess, if_pos h]
  simp [F64.round53, F64.roundRat, he, F64.roundEvenDiv, Nat.mod_one]

/-- Rounding never falls below the value with its excess bits cleared. -/
theorem F64.round53_ge_floor (n : Nat) :
    n / 2 ^ F64.excess n n * 2 ^ F64.excess n n ≤ F64.round53 n := by
  unfold F64.round53 F64.roundRat
  simp only [Nat.div_one, one_mul]
  exact Nat.mul_le_mul_right _ (F64.roundEvenDiv_ge n _)

theorem F64.round53_ge_eight (n : Nat) (h : 8 ≤ n) : 8 ≤ F64.round53 n := by
  by_cases hn : n < 2 ^ 53
  · rw [F64.round53_of_lt n hn]
    exact h
  · have hs := F64.excess_spec n n le_rfl
    have hfl := F64.round53_ge_floor n
    by_cases he : 0 < F64.excess n n
    · have h52 := hs.2 he
      have hpow : 1 ≤ 2 ^ F64.excess n n := Nat.one_le_two_pow
      calc 8 ≤ 2 ^ 52 * 1 := by norm_num
        _ ≤ n / 2 ^ F64.excess n n * 2 ^ F64.excess n n := Nat.mul_le_mul h52 hpow
        _ ≤ F64.round53 n := hfl
    · have he0 : F64.excess n n = 0 := by omega
      rw [he0] at hs
      simp only [pow_zero, Nat.div_one] at hs
      exact absurd hs.1 hn

/-- Eight times the float64 `0.1`, in units: a float64 value itself, and rounding
a larger value never falls below it. -/
theorem F64.round53_ge_eight_tenths (n : Nat) (h : 57646075230342352 ≤ n) :
    57646075230342352 ≤ F64.round53 n := by
  have hs := F64.excess_spec n n le_rfl
  have hfl := F64.round53_ge_floor n
  rcases Nat.lt_or_ge (F64.excess n n) 3 with hlt | hge
  · exfalso
    have h1 := hs.1
    rw [Nat.div_lt_iff_lt_mul (by positivity)] at h1
    have hpow : 2 ^ F64.excess n n ≤ 2 ^ 2 := Nat.pow_le_pow_right (by norm_num) (by omega)
    have : n < 2 ^ 53 * 2 ^ 2 := lt_of_lt_of_le h1 (Nat.mul_le_mul_left _ hpow)
    norm_num at this
    omega
  · rcases Nat.eq_or_lt_of_le hge with heq | hgt
    · rw [← heq] at hfl
      norm_num at hfl
      omega
    · have h52 := hs.2 (by omega)
      have hpow : 2 ^ 4 ≤ 2 ^ F64.excess n n := Nat.pow_le_pow_right (by norm_num) (by omega)
      calc 57646075230342352 ≤ 2 ^ 52 * 2 ^ 4 := by norm_num
        _ ≤ n / 2 ^ F64.excess n n * 2 ^ F64.excess n n := Nat.mul_le_mul h52 hpow
        _ ≤ F64.round53 n := hfl

theorem F64.lit_nine_tenths : F64.lit 9 10 = 64851834634135144 := by decide

theorem F64.lit_one_tenth : F64.lit 1 10 = 7205759403792794 := by decide

theorem F64.roundInt_le (z : Int) (hz : z < 2 ^ 53) : F64.roundInt z ≤ max z 0 := by
  unfold F64.roundInt
  by_cases hneg : z < 0
  · simp only [hneg, if_true]
    have : (0 : Int) ≤ ((F64.round53 z.natAbs : Nat) : Int) := Int.ofNat_nonneg _
    have h0 : (0 : Int) ≤ max z 0 := le_max_right _ _
    omega
  · simp only [hneg, if_false]
    have hnat : z.natAbs < 2 ^ 53 := by omega
    rw [F64.round53_of_lt _ hnat]
    have : ((z.natAbs : Nat) : Int) = z := Int.natAbs_of_nonneg (by omega)
    rw [this]
    exact le_max_left _ _

theorem F64.clamp_of_le (z : Int) (hz : z ≤ 7205759403792792) :
    (if F64.roundInt z < ((7205759403792794 : Nat) : Int) then ((7205759403792794 : Nat) : Int)
      else F64.roundInt z) = 7205759403792794 := by
  have hle := F64.roundInt_le z (by omega)
  have hlt : F64.roundInt z < ((7205759403792794 : Nat) : Int) := by
    rcases le_total z 0 with h0 | h0
    · rw [max_eq_right h0] at hle
      omega
    · rw [max_eq_left h0] at hle
      omega
  rw [if_pos hlt]
  rfl

/-- From index 8 on the decayed weight is below `0.1` and is replaced by `0.1`. -/
theorem decayUnits_of_ge_eight (fused : Bool) (i : Nat) (h : 8 ≤ i) :
    decayUnits fused i = 7205759403792794 := by
  have hfi := F64.round53_ge_eight i h
  unfold decayUnits
  simp only [F64.lit_nine_tenths, F64.lit_one_tenth]
  have hprod : 57646075230342352 ≤ F64.round53 i * 7205759403792794 := by omega
  cases fused with
  | true =>
    simp only [if_true]
    apply F64.clamp_of_le
    omega
  | false =>
    simp only [Bool.false_eq_true, if_false]
    have hp := F64.round53_ge_eight_tenths _ hprod
    apply F64.clamp_of_le
    omega

theorem decayKeywords_map_keyword (fused : Bool) (i : Nat) (xs : List String) :
    (decayKeywords fused i xs).map (fun wk => wk.Keyword) = xs := by
  induction xs generalizing i with
  | nil => rfl
  | cons x rest ih => simp [decayKeywords, ih]

theorem decayKeywords_length (fused : Bool) (i : Nat) (xs : List String) :
    (decayKeywords fused i xs).length = xs.length := by
  induction xs generalizing i with
  | nil => rfl
  | cons x rest ih => simp [decayKeywords, ih]

theorem decayKeywords_get_weight (fused : Bool) (i : Nat) (xs : List String) (j : Nat)
    (h : j < (decayKeywords fused i xs).length) :
    ((decayKeywords fused i xs).get ⟨j, h⟩).Weight = decayWeight fused (i + j) := by
  induction xs generalizing i j with
  | nil => simp [decayKeywords] at h
  | cons x rest ih =>
    cases j with
    | zero => simp [decayKeywords]
    | succ j =>
      simp only [decayKeywords, List.get_cons_succ]
      rw [ih (i + 1) j]
      congr 1
      omega

/-- The decayed weights, index by index: the float64 nearest to `(9 - i)/10` up
to index 5, one or two float64 steps below `0.3` and `0.2` at indices 6 and 7
(exactly `0.3` at index 6 when multiply and subtract are fused), and the float64
`0.1` from index 8 on. -/
theorem decayWeight_values (fused : Bool) :
    (∀ i, i ≤ 5 → decayWeight fused i = F64.toRat (F64.lit (9 - i) 10)) ∧
    decayWeight false 6 = F64.toRat (F64.lit 3 10) - 1 / 2 ^ 54 ∧
    decayWeight true 6 = F64.toRat (F64.lit 3 10) ∧
    decayWeight false 7 = F64.toRat (F64.lit 2 10) - 1 / 2 ^ 54 ∧
    decayWeight true 7 = F64.toRat (F64.lit 2 10) - 1 / 2 ^ 55 ∧
    (∀ i, 8 ≤ i → decayWeight fused i = F64.toRat (F64.lit 1 10)) := by
  have l3 : F64.lit 3 10 = 21617278211378380 := by decide
  have l2 : F64.lit 2 10 = 14411518807585588 := by decide
  have u6f : decayUnits false 6 = 21617278211378376 := by decide
  have u6t : decayUnits true 6 = 21617278211378380 := by decide
  have u7f : decayUnits false 7 = 14411518807585584 := by decide
  have u7t : decayUnits true 7 = 14411518807585586 := by decide
  refine ⟨?_, ?_, ?_, ?_, ?_, ?_⟩
  · intro i hi
    have : decayUnits fused i = ((F64.lit (9 - i) 10 : Nat) : Int) := by
      interval_cases i <;> cases fused <;> decide
    rw [decayWeight, this]
  · rw [decayWeight, u6f, l3]
    norm_num [F64.toRat]
  · rw [decayWeight, u6t, l3]
    norm_num [F64.toRat]
  · rw [decayWeight, u7f, l2]
    norm_num [F64.toRat]
  · rw [decayWeight, u7t, l2]
    norm_num [F64.toRat]
  · intro i hi
    rw [decayWeight, decayUnits_of_ge_eight fused i hi, F64.lit_one_tenth]
    rfl

theorem decayUnits_table (fused : Bool) (i : Nat) (hi : i < 8) :
    decayUnits fused i = (decayTable fused).getD i 0 := by
  interval_cases i <;> cases fused <;> decide

/-- Every decayed weight is within `2^-53` of `max(0.1, 0.9 - 0.1*i)`. -/
theorem decayWeight_close (fused : Bool) (i : Nat) :
    |decayWeight fused i - max (1 / 10) (9 / 10 - (i : ℚ) / 10)| ≤ 1 / 2 ^ 53 := by
  by_cases hi : 8 ≤ i
  · rw [decayWeight, decayUnits_of_ge_eight fused i hi]
    have hmax : max (1 / 10 : ℚ) (9 / 10 - (i : ℚ) / 10) = 1 / 10 := by
      apply max_eq_left
      have : (8 : ℚ) ≤ i := by exact_mod_cast hi
      linarith
    rw [hmax, abs_le]
    constructor <;> norm_num [F64.toRat]
  · have hlt : i < 8 := by omega
    rw [decayWeight, decayUnits_table fused i hlt, abs_le]
    interval_cases i <;> cases fused <;> constructor <;> norm_num [F64.toRat, decayTable]

theorem decayKeywords_weights (fused : Bool) (i : Nat) (xs : List String) :
    (decayKeywords fused i xs).map (fun wk => wk.Weight) =
      (List.range' i xs.length).map fun j => F64.toRat (decayUnits fused j) := by
  induction xs generalizing i with
  | nil => rfl
  | cons x rest ih => simp [decayKeywords, ih, List.range'_succ, decayWeight]

theorem decayUnits_first_ten (fused : Bool) :
    (List.range' 0 10).map (decayUnits fused) =
      decayTable fused ++ [7205759403792794, 7205759403792794] := by
  cases fused <;> decide

theorem baseInterests_tenInterests :
    baseInterests (interestPayload tenInterests) [] = tenInterests := by decide

theorem weightsOf_tenInterests (fused : Bool) :
    weightsOf (mergeDecoded fused (RangeOrder.inOrder ℚ) "t" (interestPayload tenInterests) []
      [] []).1 =
      (decayTable fused ++ [7205759403792794, 7205759403792794]).map F64.toRat := by
  have hc : collectKeywords (interestPayload tenInterests) [] = [] := rfl
  have hs : sortedKeywords (RangeOrder.inOrder ℚ) ([] : GoMap ℚ) = [] := rfl
  have hne : tenInterests ≠ [] := by decide
  rw [weightsOf, weightedKeywordsOf_mergeDecoded, baseInterests_tenInterests, hc, hs]
  simp only [finalKeywords, hne, ne_eq, not_false_eq_true, and_self, if_true]
  rw [decayKeywords_weights, ← decayUnits_first_ten, List.map_map]
  rfl

/-- C6, as stated, fails: for the ten interests a, b, c, d, e, f, g, h, i, k and no
weighted keywords the synthesised weights are not 0.9, 0.8, ..., 0.2, 0.1, 0.1,
neither as the float64 values nearest to these decimals nor as exact decimals,
whether or not the multiplication is fused with the subtraction: the weight of
`h` (index 7) is 0.19999999999999996 (0.19999999999999998 when fused). -/
theorem C6_counterexample :
    (∃ out, mergeProfiles false (RangeOrder.inOrder ℚ) "t" (some (interestPayload tenInterests))
        (some []) (some []) (some []) = Except.ok out ∧
      weightsOf out.1 = (decayTable false ++ [7205759403792794, 7205759403792794]).map F64.toRat ∧
      weightsOf out.1 ≠ claimedDecayWeights ∧ weightsOf out.1 ≠ claimedDecayWeightsExact) ∧
    (∃ out, mergeProfiles true (RangeOrder.inOrder ℚ) "t" (some (interestPayload tenInterests))
        (some []) (some []) (some []) = Except.ok out ∧
      weightsOf out.1 = (decayTable true ++ [7205759403792794, 7205759403792794]).map F64.toRat ∧
      weightsOf out.1 ≠ claimedDecayWeights ∧ weightsOf out.1 ≠ claimedDecayWeightsExact) := by
  have l2 : F64.lit 2 10 = 14411518807585588 := by decide
  constructor
  · refine ⟨_, rfl, weightsOf_tenInterests false, ?_, ?_⟩
    · rw [weightsOf_tenInterests false]
      intro h
      have h7 := congrArg (fun l => l.getD 7 0) h
      simp [decayTable, claimedDecayWeights, l2, F64.toRat] at h7
      norm_num at h7
    · rw [weightsOf_tenInterests false]
      intro h
      have h7 := congrArg (fun l => l.getD 7 0) h
      simp [decayTable, claimedDecayWeightsExact, F64.toRat] at h7
      norm_num at h7
  · refine ⟨_, rfl, weightsOf_tenInterests true, ?_, ?_⟩
    · rw [weightsOf_tenInterests true]
      intro h
      have h7 := congrArg (fun l => l.getD 7 0) h
      simp [decayTable, claimedDecayWeights, l2, F64.toRat] at h7
      norm_num at h7
    · rw [weightsOf_tenInterests true]
      intro h
      have h7 := congrArg (fun l => l.getD 7 0) h
      simp [decayTable, claimedDecayWeightsExact, F64.toRat] at h7
      norm_num at h7

/-- C6, amended. When the merged interests are non-empty and neither input
contributes a weighted keyword, `mergeProfiles` synthesises exactly one weighted
keyword per merged interest, in interest order; the weight at 0-based position
`i` is the float64 result of `0.9 - float64(i)*0.1`, raised to the float64 `0.1`
when smaller. It lies within `2^-53` of `max(0.1, 0.9 - 0.1*i)`; it is the
float64 nearest to 0.9, 0.8, 0.7, 0.6, 0.5, 0.4 at positions 0 to 5, the float64
`0.1` from position 8 on, and at positions 6 and 7 it is 0.29999999999999993 and
0.19999999999999996 (0.3 and 0.19999999999999998 when the multiplication is
fused with the subtraction). -/
theorem C6_synthesised_weights (fused : Bool) (ro : RangeOrder ℚ) (now : String)
    (oldProfile newProfile : GoMap JSON) (oldKeywords newKeywords : List String)
    (hint : baseInterests oldProfile newProfile ≠ [])
    (hnone : collectKeywords oldProfile newProfile = []) :
    ∃ out, mergeProfiles fused ro now (some oldProfile) (some newProfile) (some oldKeywords)
        (some newKeywords) = Except.ok out ∧
      interestsOf out.1 = baseInterests oldProfile newProfile ∧
      (weightedKeywordsOf out.1).map (fun wk => wk.Keyword) = interestsOf out.1 ∧
      (∀ i (h : i < (weightedKeywordsOf out.1).length),
        ((weightedKeywordsOf out.1).get ⟨i, h⟩).Weight = decayWeight fused i ∧
        |decayWeight fused i - max (1 / 10) (9 / 10 - (i : ℚ) / 10)| ≤ 1 / 2 ^ 53) ∧
      (∀ i, i ≤ 5 → decayWeight fused i = F64.toRat (F64.lit (9 - i) 10)) ∧
      decayWeight false 6 = F64.toRat (F64.lit 3 10) - 1 / 2 ^ 54 ∧
      decayWeight true 6 = F64.toRat (F64.lit 3 10) ∧
      decayWeight false 7 = F64.toRat (F64.lit 2 10) - 1 / 2 ^ 54 ∧
      decayWeight true 7 = F64.toRat (F64.lit 2 10) - 1 / 2 ^ 55 ∧
      (∀ i, 8 ≤ i → decayWeight fused i = F64.toRat (F64.lit 1 10)) := by
  refine ⟨_, mergeProfiles_ok fused ro now oldProfile newProfile oldKeywords newKeywords, ?_⟩
  have hs : sortedKeywords ro (collectKeywords oldProfile newProfile) = [] :=
    (sortedKeywords_eq_nil ro _).2 hnone
  have hk : weightedKeywordsOf
      (mergeDecoded fused ro now oldProfile newProfile oldKeywords newKeywords).1 =
      decayKeywords fused 0 (baseInterests oldProfile newProfile) := by
    rw [weightedKeywordsOf_mergeDecoded, hs]
    simp [finalKeywords, hint]
  have hi : interestsOf
      (mergeDecoded fused ro now oldProfile newProfile oldKeywords newKeywords).1 =
      baseInterests oldProfile newProfile := by
    rw [interestsOf_mergeDecoded, hs]
    simp [finalInterests]
  refine ⟨hi, ?_, ?_, decayWeight_values fused⟩
  · rw [hk, hi, decayKeywords_map_keyword]
  · intro i h
    refine ⟨?_, decayWeight_close fused i⟩
    have hgen : ∀ (l : List WeightedKeyword),
        l = decayKeywords fused 0 (baseInterests oldProfile newProfile) →
        ∀ (hl : i < l.length), (l.get ⟨i, hl⟩).Weight = decayWeight fused i := by
      intro l e hl
      subst e
      rw [decayKeywords_get_weight, Nat.zero_add]
    exact hgen _ hk h

/-- Witness of C6: the ten interests a, b, c, d, e, f, g, h, i, k and no weighted
keyword in either payload. -/
theorem C6_synthesised_weights_witness :
    baseInterests (interestPayload tenInterests) [] ≠ [] ∧
    collectKeywords (interestPayload tenInterests) [] = [] ∧
    ∃ out, mergeProfiles false (RangeOrder.inOrder ℚ) "t" (some (interestPayload tenInterests))
        (some []) (some []) (some []) = Except.ok out ∧
      interestsOf out.1 = tenInterests ∧
      (weightedKeywordsOf out.1).map (fun wk => wk.Keyword) = tenInterests :=
  ⟨by decide, rfl,
    match C6_synthesised_weights false (RangeOrder.inOrder ℚ) "t" (interestPayload tenInterests)
      [] [] [] (by decide) rfl with
    | ⟨out, h1, h2, h3, _⟩ =>
      ⟨out, h1, h2.trans baseInterests_tenInterests,
        h3.trans (h2.trans baseInterests_tenInterests)⟩⟩


/-! ## C7: interests and weighted keywords are empty together -/

/-- C7. The merged profile has an empty interests list if and only if it has an
empty weighted-keywords list. When the merged interests are non-empty and the
merged keywords empty, the keywords are synthesised from the interests, one per
interest; when the merged interests are empty and the merged keywords are not,
the interests are the keywords in their sorted-by-weight order. -/
theorem C7_interests_empty_iff_keywords_empty (fused : Bool) (ro : RangeOrder ℚ) (now : String)
    (oldProfile newProfile : GoMap JSON) (oldKeywords newKeywords : List String) :
    ∃ out, mergeProfiles fused ro now (some oldProfile) (some newProfile) (some oldKeywords)
        (some newKeywords) = Except.ok out ∧
      (interestsOf out.1 = [] ↔ weightedKeywordsOf out.1 = []) ∧
      ((baseInterests oldProfile newProfile ≠ [] ∧
          sortedKeywords ro (collectKeywords oldProfile newProfile) = []) →
        interestsOf out.1 = baseInterests oldProfile newProfile ∧
        weightedKeywordsOf out.1 = decayKeywords fused 0 (baseInterests oldProfile newProfile) ∧
        (weightedKeywordsOf out.1).map (fun wk => wk.Keyword) = interestsOf out.1) ∧
      ((baseInterests oldProfile newProfile = [] ∧
          sortedKeywords ro (collectKeywords oldProfile newProfile) ≠ []) →
        weightedKeywordsOf out.1 = sortedKeywords ro (collectKeywords oldProfile newProfile) ∧
        (weightedKeywordsOf out.1).Sorted weightGE ∧
        interestsOf out.1 = (weightedKeywordsOf out.1).map fun wk => wk.Keyword) := by
  refine ⟨_, mergeProfiles_ok fused ro now oldProfile newProfile oldKeywords newKeywords, ?_⟩
  rw [interestsOf_mergeDecoded, weightedKeywordsOf_mergeDecoded]
  generalize baseInterests oldProfile newProfile = base
  have hsorted := sorted_sortedKeywords ro (collectKeywords oldProfile newProfile)
  generalize sortedKeywords ro (collectKeywords oldProfile newProfile) = sorted at hsorted
  refine ⟨?_, ?_, ?_⟩
  · cases base with
    | nil =>
      cases sorted with
      | nil => simp [finalInterests, finalKeywords]
      | cons w ws => simp [finalInterests, finalKeywords]
    | cons b bs =>
      cases sorted with
      | nil => simp [finalInterests, finalKeywords, decayKeywords]
      | cons w ws => simp [finalInterests, finalKeywords]
  · rintro ⟨hb, hs⟩
    subst hs
    simp [finalInterests, finalKeywords, hb, decayKeywords_map_keyword]
  · rintro ⟨hb, hs⟩
    subst hb
    have hk : finalKeywords fused [] sorted = sorted := by simp [finalKeywords]
    rw [hk]
    exact ⟨rfl, hsorted, by simp [finalInterests, hs]⟩


/-! ## C8: merging a payload with itself -/

theorem collectKeywords_old_get?_none (oldProfile : GoMap JSON) (k : String)
    (hk : k ∉ (weightedPairs oldProfile).map Prod.fst) :
    (collectKeywords oldProfile []).get? k = none := by
  unfold weightedPairs at hk
  unfold collectKeywords
  cases ho : oldProfile.get? "weighted_keywords" with
  | none => simp [GoMap.get?]
  | some jo =>
    cases jo with
    | arr oldWk =>
      simp only [ho] at hk
      simp only [GoMap.get?]
      rw [oldKeywordLoop_get?_other _ _ _ (Or.inr hk)]
      rfl
    | null => simp [GoMap.get?]
    | bool b => simp [GoMap.get?]
    | num q => simp [GoMap.get?]
    | str s => simp [GoMap.get?]
    | obj kvs => simp [GoMap.get?]

theorem collectKeywords_get?_none (oldProfile newProfile : GoMap JSON) (k : String)
    (hold : k ∉ (weightedPairs oldProfile).map Prod.fst)
    (hnew : k ∉ (weightedPairs newProfile).map Prod.fst) :
    (collectKeywords oldProfile newProfile).get? k = none := by
  rw [collectKeywords_eq, newKeywordFold_get?_other _ _ _ (Or.inr hnew)]
  exact collectKeywords_old_get?_none oldProfile k hold

/-- The keyword map of a payload merged with itself holds exactly the payload's
pairs, when its keywords are non-empty and pairwise distinct. -/
theorem mem_collectKeywords_self (profile : GoMap JSON) (k : String) (w : ℚ)
    (hne : ∀ p ∈ weightedPairs profile, p.1 ≠ "")
    (hnd : ((weightedPairs profile).map Prod.fst).Nodup) :
    (k, w) ∈ collectKeywords profile profile ↔ (k, w) ∈ weightedPairs profile := by
  constructor
  · intro hmem
    have hget := GoMap.get?_of_mem _ _ _ (collectKeywords_nodup profile profile) hmem
    by_cases hk : k ∈ (weightedPairs profile).map Prod.fst
    · obtain ⟨p, hp, hpk⟩ := List.mem_map.1 hk
      obtain ⟨k', w'⟩ := p
      simp only at hpk
      subst hpk
      have h := collectKeywords_get?_both profile profile k' w' w' (hne _ hp) hp hp hnd hnd
      rw [max_self, hget] at h
      cases h
      exact hp
    · rw [collectKeywords_get?_none profile profile k hk hk] at hget
      cases hget
  · intro hmem
    have h := collectKeywords_get?_both profile profile k w w (hne _ hmem) hmem hmem hnd hnd
    rw [max_self] at h
    exact GoMap.mem_of_get? _ _ _ h

theorem mem_trimmedNonEmpty (xs : List String) (s : String) :
    s ∈ trimmedNonEmpty xs ↔ (∃ x ∈ xs, TrimSpace x = s) ∧ s ≠ "" := by
  simp [trimmedNonEmpty]

theorem mem_baseInterests_self (profile : GoMap JSON) (s : String)
    (htrim : ∀ x ∈ interestStrings profile, TrimSpace x = x ∧ x ≠ "") :
    s ∈ baseInterests profile profile ↔ s ∈ interestStrings profile := by
  rw [baseInterests_eq, mem_removeLaterDuplicates, mem_trimmedNonEmpty]
  constructor
  · rintro ⟨⟨x, hx, rfl⟩, _⟩
    have hx' : x ∈ interestStrings profile := by
      rcases List.mem_append.1 hx with h | h <;> exact h
    rw [(htrim x hx').1]
    exact hx'
  · intro hs
    exact ⟨⟨s, List.mem_append_left _ hs, (htrim s hs).1⟩, (htrim s hs).2⟩

/-- C8, as stated, fails: the payload with interests `[" a"]`, keyword `a` of
weight 1/2 and level `low` is structurally valid, and merged with itself it
yields the interests `["a"]`, which do not contain the interest `" a"`. -/
theorem C8_counterexample :
    ∃ out, mergeProfiles false (RangeOrder.inOrder ℚ) "t"
        (some (fullPayload [" a"] "a" (1 / 2) "low")) (some (fullPayload [" a"] "a" (1 / 2) "low"))
        (some ["a"]) (some ["a"]) = Except.ok out ∧
      " a" ∈ interestStrings (fullPayload [" a"] "a" (1 / 2) "low") ∧
      " a" ∉ interestsOf out.1 := by
  refine ⟨_, rfl, by decide, ?_⟩
  have hb : baseInterests (fullPayload [" a"] "a" (1 / 2) "low")
      (fullPayload [" a"] "a" (1 / 2) "low") = ["a"] := by decide
  rw [interestsOf_mergeDecoded, hb]
  simp only [finalInterests, List.cons_ne_nil, false_and, if_false]
  decide

/-- C8, amended. For every payload `P` whose interests are already trimmed and
non-empty strings, whose weighted keywords are non-empty and pairwise distinct,
whose interests and weighted keywords are both empty or both non-empty, and
which has an activity level, `mergeProfiles(P, P)` yields a profile with the same
set of interests as `P`, the same set of (keyword, weight) pairs as `P`, and the
same activity level as `P`. -/
theorem C8_merge_with_itself (fused : Bool) (ro : RangeOrder ℚ) (now : String)
    (profile : GoMap JSON) (keywords : List String) (level : String)
    (htrim : ∀ x ∈ interestStrings profile, TrimSpace x = x ∧ x ≠ "")
    (hne : ∀ p ∈ weightedPairs profile, p.1 ≠ "")
    (hnd : ((weightedPairs profile).map Prod.fst).Nodup)
    (hboth : interestStrings profile = [] ↔ weightedPairs profile = [])
    (hlevel : profile.get? "activity_level" = some (JSON.str level)) :
    ∃ out, mergeProfiles fused ro now (some profile) (some profile) (some keywords)
        (some keywords) = Except.ok out ∧
      (∀ s, s ∈ interestsOf out.1 ↔ s ∈ interestStrings profile) ∧
      (∀ k w, (⟨k, w⟩ : WeightedKeyword) ∈ weightedKeywordsOf out.1 ↔
        (k, w) ∈ weightedPairs profile) ∧
      activityLevelOf out.1 = some level := by
  refine ⟨_, mergeProfiles_ok fused ro now profile profile keywords keywords, ?_⟩
  have hbase : baseInterests profile profile = [] ↔ interestStrings profile = [] := by
    constructor
    · intro h
      apply List.eq_nil_iff_forall_not_mem.2
      intro s hs
      have := (mem_baseInterests_self profile s htrim).2 hs
      rw [h] at this
      simp at this
    · intro h
      apply List.eq_nil_iff_forall_not_mem.2
      intro s hs
      have := (mem_baseInterests_self profile s htrim).1 hs
      rw [h] at this
      simp at this
  have hsorted : sortedKeywords ro (collectKeywords profile profile) = [] ↔
      weightedPairs profile = [] := by
    rw [sortedKeywords_eq_nil]
    constructor
    · intro h
      apply List.eq_nil_iff_forall_not_mem.2
      rintro ⟨k, w⟩ hp
      have := (mem_collectKeywords_self profile k w hne hnd).2 hp
      rw [h] at this
      simp at this
    · intro h
      apply List.eq_nil_iff_forall_not_mem.2
      rintro ⟨k, w⟩ hp
      have := (mem_collectKeywords_self profile k w hne hnd).1 hp
      rw [h] at this
      simp at this
  have hiff : baseInterests profile profile = [] ↔
      sortedKeywords ro (collectKeywords profile profile) = [] := by
    rw [hbase, hsorted]
    exact hboth
  refine ⟨?_, ?_, ?_⟩
  · intro s
    rw [interestsOf_mergeDecoded]
    have : finalInterests (baseInterests profile profile)
        (sortedKeywords ro (collectKeywords profile profile)) = baseInterests profile profile := by
      unfold finalInterests
      rw [if_neg]
      rintro ⟨h1, h2⟩
      exact h2 (hiff.1 h1)
    rw [this]
    exact mem_baseInterests_self profile s htrim
  · intro k w
    rw [weightedKeywordsOf_mergeDecoded]
    have : finalKeywords fused (baseInterests profile profile)
        (sortedKeywords ro (collectKeywords profile profile)) =
        sortedKeywords ro (collectKeywords profile profile) := by
      unfold finalKeywords
      rw [if_neg]
      rintro ⟨h1, h2⟩
      exact h1 (hiff.2 h2)
    rw [this, mem_sortedKeywords]
    exact mem_collectKeywords_self profile k w hne hnd
  · rw [activityLevelOf_mergeDecoded]
    simp only [mergeActivityLevel, hlevel]
    by_cases hh : level = "high"
    · simp [hh]
    · by_cases hm : level = "medium"
      · subst hm
        simp
      · simp [hh, hm]

/-- Witness of C8: the payload with interests `["go"]`, keyword `go` of weight
1/2 and level `minimal`. -/
theorem C8_merge_with_itself_witness :
    ∃ out, mergeProfiles false (RangeOrder.inOrder ℚ) "t"
        (some (fullPayload ["go"] "go" (1 / 2) "minimal"))
        (some (fullPayload ["go"] "go" (1 / 2) "minimal")) (some ["go"]) (some ["go"]) =
          Except.ok out ∧
      (∀ s, s ∈ interestsOf out.1 ↔ s ∈ interestStrings (fullPayload ["go"] "go" (1 / 2) "minimal")) ∧
      (∀ k w, (⟨k, w⟩ : WeightedKeyword) ∈ weightedKeywordsOf out.1 ↔
        (k, w) ∈ weightedPairs (fullPayload ["go"] "go" (1 / 2) "minimal")) ∧
      activityLevelOf out.1 = some "minimal" :=
  C8_merge_with_itself false (RangeOrder.inOrder ℚ) "t" (fullPayload ["go"] "go" (1 / 2) "minimal")
    ["go"] "minimal"
    (by
      have hI : interestStrings (fullPayload ["go"] "go" (1 / 2) "minimal") = ["go"] := rfl
      rw [hI]
      intro x hx
      rw [List.mem_singleton.1 hx]
      decide)
    (by simp [fullPayload, weightedPairs, keywordPairs, GoMap.get?, asString, asFloat])
    (by simp [fullPayload, weightedPairs, keywordPairs, GoMap.get?, asString, asFloat])
    (by
      have hI : interestStrings (fullPayload ["go"] "go" (1 / 2) "minimal") = ["go"] := rfl
      rw [hI]
      simp [fullPayload, weightedPairs, keywordPairs, GoMap.get?, asString, asFloat])
    rfl


/-! ## aggregate -/

theorem aggregateLoop_eq (m : GoMap RecommendationItem) (items : List RecommendationItem) :
    aggregate.loop m items = items.foldl aggregate.step m := by
  induction items generalizing m with
  | nil => rfl
  | cons it rest ih =>
    rw [List.foldl_cons, ← ih]
    cases hg : m.get? (itemKey it) with
    | none => simp [aggregate.loop, aggregate.step, hg]
    | some old =>
      by_cases hs : it.Score > old.Score
      · simp [aggregate.loop, aggregate.step, hg, hs]
      · simp [aggregate.loop, aggregate.step, hg, hs]

theorem AggInv.step {m : GoMap RecommendationItem} {seen : List RecommendationItem}
    (h : AggInv m seen) (it : RecommendationItem) : AggInv (aggregate.step m it) (seen ++ [it]) := by
  cases hg : m.get? (itemKey it) with
  | none =>
    have hstep : aggregate.step m it = m.set (itemKey it) it := by simp [aggregate.step, hg]
    rw [hstep]
    refine ⟨GoMap.nodup_keys_set _ _ _ h.nodup, ?_, ?_⟩
    · intro k v hkv
      by_cases hk : itemKey it = k
      · subst hk
        rw [GoMap.get?_set_self] at hkv
        cases hkv
        exact ⟨rfl, by simp⟩
      · rw [GoMap.get?_set_ne _ _ _ _ hk] at hkv
        exact ⟨(h.entry k v hkv).1, List.mem_append_left _ (h.entry k v hkv).2⟩
    · intro y hy
      by_cases hk : itemKey it = itemKey y
      · rw [← hk, GoMap.get?_set_self]
        rcases List.mem_append.1 hy with hy | hy
        · obtain ⟨v, hv, _⟩ := h.best y hy
          rw [← hk, hg] at hv
          cases hv
        · rw [List.mem_singleton.1 hy]
          exact ⟨it, rfl, le_rfl⟩
      · rw [GoMap.get?_set_ne _ _ _ _ hk]
        rcases List.mem_append.1 hy with hy | hy
        · exact h.best y hy
        · rw [List.mem_singleton.1 hy] at hk
          exact absurd rfl hk
  | some old =>
    by_cases hs : it.Score > old.Score
    · have hstep : aggregate.step m it = m.set (itemKey it) it := by
        simp [aggregate.step, hg, hs]
      rw [hstep]
      refine ⟨GoMap.nodup_keys_set _ _ _ h.nodup, ?_, ?_⟩
      · intro k v hkv
        by_cases hk : itemKey it = k
        · subst hk
          rw [GoMap.get?_set_self] at hkv
          cases hkv
          exact ⟨rfl, by simp⟩
        · rw [GoMap.get?_set_ne _ _ _ _ hk] at hkv
          exact ⟨(h.entry k v hkv).1, List.mem_append_left _ (h.entry k v hkv).2⟩
      · intro y hy
        by_cases hk : itemKey it = itemKey y
        · rw [← hk, GoMap.get?_set_self]
          rcases List.mem_append.1 hy with hy | hy
          · obtain ⟨v, hv, hle⟩ := h.best y hy
            rw [← hk, hg] at hv
            cases hv
            exact ⟨it, rfl, le_trans hle (le_of_lt hs)⟩
          · rw [List.mem_singleton.1 hy]
            exact ⟨it, rfl, le_rfl⟩
        · rw [GoMap.get?_set_ne _ _ _ _ hk]
          rcases List.mem_append.1 hy with hy | hy
          · exact h.best y hy
          · rw [List.mem_singleton.1 hy] at hk
            exact absurd rfl hk
    · have hstep : aggregate.step m it = m := by simp [aggregate.step, hg, hs]
      rw [hstep]
      refine ⟨h.nodup, ?_, ?_⟩
      · intro k v hkv
        exact ⟨(h.entry k v hkv).1, List.mem_append_left _ (h.entry k v hkv).2⟩
      · intro y hy
        rcases List.mem_append.1 hy with hy | hy
        · exact h.best y hy
        · rw [List.mem_singleton.1 hy]
          exact ⟨old, hg, not_lt.1 hs⟩

theorem AggInv.foldl {m : GoMap RecommendationItem} {seen : List RecommendationItem}
    (h : AggInv m seen) (items : List RecommendationItem) :
    AggInv (items.foldl aggregate.step m) (seen ++ items) := by
  induction items generalizing m seen with
  | nil => simpa using h
  | cons it rest ih =>
    have := ih (h.step it)
    simpa using this

theorem aggInv_loop (items : List RecommendationItem) :
    AggInv (aggregate.loop [] items) items := by
  have h0 : AggInv ([] : GoMap RecommendationItem) [] :=
    ⟨by simp [GoMap.keys], by simp [GoMap.get?], by simp⟩
  have := h0.foldl items
  rw [aggregateLoop_eq]
  simpa using this

/-- The slice `arr` of `aggregate` after sorting, before truncation. -/
theorem aggregate_eq (ro : RangeOrder RecommendationItem) (itemsA itemsB : List RecommendationItem)
    (topN : Int) :
    aggregate ro itemsA itemsB topN =
      if topN > 0 ∧ ((aggregate ro itemsA itemsB 0).length : Int) > topN then
        (aggregate ro itemsA itemsB 0).take topN.toNat
      else aggregate ro itemsA itemsB 0 := by
  simp [aggregate]

theorem aggregate_zero_perm (ro : RangeOrder RecommendationItem)
    (itemsA itemsB : List RecommendationItem) :
    (aggregate ro itemsA itemsB 0).Perm (dedupItems itemsA itemsB) := by
  have h : aggregate ro itemsA itemsB 0 =
      (((ro.run (aggregate.loop [] (itemsA ++ itemsB))).map Prod.snd).insertionSort scoreGE) := by
    simp [aggregate]
  rw [h]
  exact (List.perm_insertionSort scoreGE _).trans ((ro.perm _).map Prod.snd)

theorem aggregate_zero_sorted (ro : RangeOrder RecommendationItem)
    (itemsA itemsB : List RecommendationItem) :
    (aggregate ro itemsA itemsB 0).Sorted scoreGE := by
  have h : aggregate ro itemsA itemsB 0 =
      (((ro.run (aggregate.loop [] (itemsA ++ itemsB))).map Prod.snd).insertionSort scoreGE) := by
    simp [aggregate]
  rw [h]
  exact List.sorted_insertionSort scoreGE _

theorem aggregate_sublist (ro : RangeOrder RecommendationItem)
    (itemsA itemsB : List RecommendationItem) (topN : Int) :
    (aggregate ro itemsA itemsB topN).Sublist (aggregate ro itemsA itemsB 0) := by
  rw [aggregate_eq]
  split
  · exact List.take_sublist _ _
  · exact List.Sublist.refl _

theorem mem_dedupItems (itemsA itemsB : List RecommendationItem) (x : RecommendationItem) :
    x ∈ dedupItems itemsA itemsB ↔
      (aggregate.loop [] (itemsA ++ itemsB)).get? (itemKey x) = some x := by
  have inv := aggInv_loop (itemsA ++ itemsB)
  constructor
  · intro hx
    obtain ⟨⟨k, v⟩, hkv, rfl⟩ := List.mem_map.1 hx
    have hget := GoMap.get?_of_mem _ _ _ inv.nodup hkv
    rw [← (inv.entry k v hget).1]
    exact hget
  · intro hget
    exact List.mem_map.2 ⟨(itemKey x, x), GoMap.mem_of_get? _ _ _ hget, rfl⟩

theorem dedupItems_keys (itemsA itemsB : List RecommendationItem) :
    (dedupItems itemsA itemsB).map itemKey = (aggregate.loop [] (itemsA ++ itemsB)).keys := by
  have inv := aggInv_loop (itemsA ++ itemsB)
  unfold dedupItems GoMap.keys
  rw [List.map_map]
  apply List.map_congr_left
  rintro ⟨k, v⟩ hkv
  have hget := GoMap.get?_of_mem _ _ _ inv.nodup hkv
  exact ((inv.entry k v hget).1).symm

theorem dedupItems_nodup_keys (itemsA itemsB : List RecommendationItem) :
    ((dedupItems itemsA itemsB).map itemKey).Nodup := by
  rw [dedupItems_keys]
  exact (aggInv_loop (itemsA ++ itemsB)).nodup

theorem mem_dedupItems_keys (itemsA itemsB : List RecommendationItem) (k : String) :
    k ∈ (dedupItems itemsA itemsB).map itemKey ↔ k ∈ (itemsA ++ itemsB).map itemKey := by
  have inv := aggInv_loop (itemsA ++ itemsB)
  constructor
  · intro hk
    obtain ⟨x, hx, rfl⟩ := List.mem_map.1 hk
    have hget := (mem_dedupItems itemsA itemsB x).1 hx
    exact List.mem_map_of_mem itemKey (inv.entry _ _ hget).2
  · intro hk
    obtain ⟨y, hy, rfl⟩ := List.mem_map.1 hk
    obtain ⟨v, hv, _⟩ := inv.best y hy
    have hkey := (inv.entry _ _ hv).1
    rw [hkey]
    apply List.mem_map_of_mem itemKey
    rw [mem_dedupItems, ← hkey]
    exact hv

theorem dedupItems_length (itemsA itemsB : List RecommendationItem) :
    (dedupItems itemsA itemsB).length = ((itemsA ++ itemsB).map itemKey).dedup.length := by
  have hperm : ((dedupItems itemsA itemsB).map itemKey).Perm
      ((itemsA ++ itemsB).map itemKey).dedup := by
    apply (List.perm_ext_iff_of_nodup (dedupItems_nodup_keys itemsA itemsB)
      (List.nodup_dedup _)).2
    intro k
    rw [List.mem_dedup]
    exact mem_dedupItems_keys itemsA itemsB k
  rw [← hperm.length_eq, List.length_map]

theorem itemKey_eq_of_triple {x y : RecommendationItem} (h : itemTriple x = itemTriple y) :
    itemKey x = itemKey y := by
  simp only [itemTriple, Prod.mk.injEq] at h
  simp [itemKey, h.1, h.2.1, h.2.2]

/-- C9. `aggregate` returns at most one item per (source, referenceId, title)
triple; every returned item is an item of `A ++ B` and carries the highest score
among all items of `A ++ B` with its triple; two items with the same triple and
scores `lo < hi` aggregate to the single item with score `hi`, in particular
`aggregate([rag/1/T score 0.5], [rag/1/T score 0.9], 10)` is the single item
with score 0.9. -/
theorem C9_aggregate_dedup (ro : RangeOrder RecommendationItem)
    (itemsA itemsB : List RecommendationItem) (topN : Int) :
    ((aggregate ro itemsA itemsB topN).map itemTriple).Nodup ∧
    (∀ x ∈ aggregate ro itemsA itemsB topN, x ∈ itemsA ++ itemsB ∧
      ∀ y ∈ itemsA ++ itemsB, itemTriple y = itemTriple x → y.Score ≤ x.Score) ∧
    (∀ a b : RecommendationItem, itemTriple a = itemTriple b → a.Score < b.Score →
      aggregate ro [a] [b] 10 = [b]) ∧
    aggregate ro [ragItem (1 / 2)] [ragItem (9 / 10)] 10 = [ragItem (9 / 10)] := by
  have inv := aggInv_loop (itemsA ++ itemsB)
  have hsub := aggregate_sublist ro itemsA itemsB topN
  have hperm := aggregate_zero_perm ro itemsA itemsB
  have hpair : ∀ a b : RecommendationItem, itemTriple a = itemTriple b → a.Score < b.Score →
      aggregate ro [a] [b] 10 = [b] := by
    intro a b hab hlt
    have hkey : itemKey a = itemKey b := itemKey_eq_of_triple hab
    have hm : aggregate.loop [] [a, b] = [(itemKey b, b)] := by
      simp [aggregate.loop, GoMap.get?, GoMap.set, hkey, hlt]
    have hrun : ro.run [(itemKey b, b)] = [(itemKey b, b)] := List.perm_singleton.1 (ro.perm _)
    simp [aggregate, hm, hrun]
  refine ⟨?_, ?_, hpair, ?_⟩
  · have hkeys : ((aggregate ro itemsA itemsB topN).map itemKey).Nodup :=
      ((hperm.map itemKey).nodup_iff.2 (dedupItems_nodup_keys itemsA itemsB)).sublist
        (hsub.map itemKey)
    have hcomp : (aggregate ro itemsA itemsB topN).map itemKey =
        ((aggregate ro itemsA itemsB topN).map itemTriple).map
          (fun t => t.1 ++ "|" ++ t.2.1 ++ "|" ++ t.2.2) := by
      rw [List.map_map]
      rfl
    rw [hcomp] at hkeys
    exact List.Nodup.of_map _ hkeys
  · intro x hx
    have hxd : x ∈ dedupItems itemsA itemsB := hperm.mem_iff.1 (hsub.subset hx)
    have hget := (mem_dedupItems itemsA itemsB x).1 hxd
    refine ⟨(inv.entry _ _ hget).2, ?_⟩
    intro y hy hxy
    obtain ⟨v, hv, hle⟩ := inv.best y hy
    rw [itemKey_eq_of_triple hxy, hget] at hv
    cases hv
    exact hle
  · exact hpair _ _ rfl (by norm_num [ragItem])

/-- C10. `aggregate` is ordered by score, non-increasing; it returns only
deduplicated items; with `topN > 0` its length is the smaller of `topN` and the
number of distinct keys, and no omitted deduplicated item has a score greater
than a returned one; with `topN ≤ 0` every deduplicated item is returned.
Aggregating 15 items with distinct keys and `topN = 5` returns exactly 5 items,
none with a score below that of an omitted item. -/
theorem C10_aggregate_topN (ro : RangeOrder RecommendationItem)
    (itemsA itemsB : List RecommendationItem) (topN : Int) :
    (aggregate ro itemsA itemsB topN).Sorted scoreGE ∧
    (∀ x ∈ aggregate ro itemsA itemsB topN, x ∈ dedupItems itemsA itemsB) ∧
    (0 < topN → (aggregate ro itemsA itemsB topN).length =
      min topN.toNat ((itemsA ++ itemsB).map itemKey).dedup.length) ∧
    (0 < topN → ∀ x ∈ aggregate ro itemsA itemsB topN, ∀ y ∈ dedupItems itemsA itemsB,
      y ∉ aggregate ro itemsA itemsB topN → y.Score ≤ x.Score) ∧
    (topN ≤ 0 → (aggregate ro itemsA itemsB topN).Perm (dedupItems itemsA itemsB) ∧
      (aggregate ro itemsA itemsB topN).length = ((itemsA ++ itemsB).map itemKey).dedup.length) ∧
    ((itemsA ++ itemsB).length = 15 → ((itemsA ++ itemsB).map itemKey).Nodup →
      (aggregate ro itemsA itemsB 5).length = 5 ∧
      (∀ x ∈ aggregate ro itemsA itemsB 5, x ∈ itemsA ++ itemsB) ∧
      ∀ x ∈ aggregate ro itemsA itemsB 5, ∀ y ∈ itemsA ++ itemsB,
        y ∉ aggregate ro itemsA itemsB 5 → y.Score ≤ x.Score) := by
  have inv := aggInv_loop (itemsA ++ itemsB)
  have hperm := aggregate_zero_perm ro itemsA itemsB
  have hsorted := aggregate_zero_sorted ro itemsA itemsB
  have hlen0 : (aggregate ro itemsA itemsB 0).length =
      ((itemsA ++ itemsB).map itemKey).dedup.length := by
    rw [hperm.length_eq, dedupItems_length]
  have hmem : ∀ n : Int, ∀ x ∈ aggregate ro itemsA itemsB n, x ∈ dedupItems itemsA itemsB :=
    fun n x hx => hperm.mem_iff.1 ((aggregate_sublist ro itemsA itemsB n).subset hx)
  have hlen : ∀ n : Int, 0 < n → (aggregate ro itemsA itemsB n).length =
      min n.toNat ((itemsA ++ itemsB).map itemKey).dedup.length := by
    intro n hn
    rw [aggregate_eq, ← hlen0]
    by_cases hc : n > 0 ∧ ((aggregate ro itemsA itemsB 0).length : Int) > n
    · rw [if_pos hc, List.length_take]
    · rw [if_neg hc]
      have : (aggregate ro itemsA itemsB 0).length ≤ n.toNat := by omega
      exact (min_eq_right this).symm
  have hrest : ∀ n : Int, ∀ x ∈ aggregate ro itemsA itemsB n, ∀ y ∈ dedupItems itemsA itemsB,
      y ∉ aggregate ro itemsA itemsB n → y.Score ≤ x.Score := by
    intro n x hx y hy hny
    have hy0 : y ∈ aggregate ro itemsA itemsB 0 := hperm.mem_iff.2 hy
    rw [aggregate_eq] at hx hny
    by_cases hc : n > 0 ∧ ((aggregate ro itemsA itemsB 0).length : Int) > n
    · rw [if_pos hc] at hx hny
      have hsplit := List.take_append_drop n.toNat (aggregate ro itemsA itemsB 0)
      have hyd : y ∈ (aggregate ro itemsA itemsB 0).drop n.toNat := by
        rw [← hsplit] at hy0
        rcases List.mem_append.1 hy0 with h | h
        · exact absurd h hny
        · exact h
      have hpw : ((aggregate ro itemsA itemsB 0).take n.toNat ++
          (aggregate ro itemsA itemsB 0).drop n.toNat).Pairwise scoreGE := by
        rw [hsplit]
        exact hsorted
      exact (List.pairwise_append.1 hpw).2.2 x hx y hyd
    · rw [if_neg hc] at hny
      exact absurd hy0 hny
  refine ⟨?_, hmem topN, hlen topN, fun _ => hrest topN, ?_, ?_⟩
  · exact hsorted.sublist (aggregate_sublist ro itemsA itemsB topN)
  · intro hn
    have heq : aggregate ro itemsA itemsB topN = aggregate ro itemsA itemsB 0 := by
      rw [aggregate_eq, if_neg]
      intro hc
      omega
    rw [heq]
    exact ⟨hperm, hlen0⟩
  · intro h15 hnd
    have hall : ∀ y ∈ itemsA ++ itemsB, y ∈ dedupItems itemsA itemsB := by
      intro y hy
      obtain ⟨v, hv, _⟩ := inv.best y hy
      have hvkey := (inv.entry _ _ hv).1
      have hvy : v = y :=
        (List.inj_on_of_nodup_map hnd (inv.entry _ _ hv).2 hy hvkey.symm)
      rw [mem_dedupItems, ← hvy, ← hvkey]
      rw [hvy] at hv ⊢
      exact hv
    refine ⟨?_, ?_, ?_⟩
    · rw [hlen 5 (by norm_num), hnd.dedup, List.length_map, h15]
      rfl
    · intro x hx
      have hget := (mem_dedupItems itemsA itemsB x).1 (hmem 5 x hx)
      exact (inv.entry _ _ hget).2
    · intro x hx y hy hny
      exact hrest 5 x hx y (hall y hy) hny

end AiPush

namespace AiPush

/-! ## SearchKnowledgeBaseByProfile -/

theorem searchLoop_nil (search : Search) (topK : Int) (st : SearchState) :
    SearchKnowledgeBaseByProfile.loop search topK [] st = st := rfl

theorem searchLoop_cons (search : Search) (topK : Int) (keyword : String) (rest : List String)
    (st : SearchState) :
    SearchKnowledgeBaseByProfile.loop search topK (keyword :: rest) st =
      if (searchStep search topK keyword st).2 = true then (searchStep search topK keyword st).1
      else SearchKnowledgeBaseByProfile.loop search topK rest (searchStep search topK keyword st).1 := by
  by_cases hskip : keyword = "" ∨ (st.processedKeywords.get? keyword).getD false = true
  · simp [SearchKnowledgeBaseByProfile.loop, searchStep, hskip]
  · cases hs : search keyword with
    | error e => simp [SearchKnowledgeBaseByProfile.loop, searchStep, hskip, hs]
    | ok items =>
      by_cases hlen : items.length = 0
      · simp [SearchKnowledgeBaseByProfile.loop, searchStep, hskip, hs, hlen]
      · by_cases hb : ((addItems keyword items (st.allRecommendations, st.seen)).1.length : Int) ≥ topK
        · simp [SearchKnowledgeBaseByProfile.loop, searchStep, hskip, hs, hlen, hb]
        · simp [SearchKnowledgeBaseByProfile.loop, searchStep, hskip, hs, hlen, hb]

theorem kbKey_tag (item : RecommendationItem) (source keyword : String) :
    kbKey { item with Source := source, SearchKeyword := keyword } = kbKey item := rfl

/-- What the inner loop does to the accumulated items and to `seen`. -/
theorem addItems_spec (keyword : String) (items : List RecommendationItem)
    (all : List RecommendationItem) (seen : GoMap Bool) (h : SeenInv all seen) :
    SeenInv (addItems keyword items (all, seen)).1 (addItems keyword items (all, seen)).2 ∧
    (∃ added, (addItems keyword items (all, seen)).1 = all ++ added ∧
      ∀ x ∈ added, x.Source = "knowledge_base" ∧ x.SearchKeyword = keyword ∧
        kbKey x ∉ all.map kbKey ∧ ∃ y ∈ items, y.RefID = x.RefID ∧ y.Title = x.Title) ∧
    (∀ y ∈ items, kbKey y ∈ (addItems keyword items (all, seen)).1.map kbKey) := by
  induction items generalizing all seen with
  | nil =>
    refine ⟨h, ⟨[], by simp [addItems], by simp⟩, by simp⟩
  | cons item rest ih =>
    by_cases hseen : (seen.get? (kbKey item)).getD false = true
    · have hstep : addItems keyword (item :: rest) (all, seen) = addItems keyword rest (all, seen) := by
        simp [addItems, hseen]
      rw [hstep]
      obtain ⟨h1, ⟨added, h2, h3⟩, h4⟩ := ih all seen h
      refine ⟨h1, ⟨added, h2, ?_⟩, ?_⟩
      · intro x hx
        obtain ⟨a, b, c, y, hy, hy2⟩ := h3 x hx
        exact ⟨a, b, c, y, List.mem_cons_of_mem _ hy, hy2⟩
      · intro y hy
        rcases List.mem_cons.1 hy with rfl | hy
        · have hin := (h.seen_iff _).1 hseen
          rw [h2, List.map_append]
          exact List.mem_append_left _ hin
        · exact h4 y hy
    · have hstep : addItems keyword (item :: rest) (all, seen) =
          addItems keyword rest
            (all ++ [{ item with Source := "knowledge_base", SearchKeyword := keyword }],
              seen.set (kbKey item) true) := by
        simp [addItems, hseen]
      rw [hstep]
      have hnot : kbKey item ∉ all.map kbKey := fun hin => hseen ((h.seen_iff _).2 hin)
      have hinv : SeenInv
          (all ++ [{ item with Source := "knowledge_base", SearchKeyword := keyword }])
          (seen.set (kbKey item) true) := by
        constructor
        · intro key
          by_cases hk : kbKey item = key
          · subst hk
            simp [GoMap.get?_set_self, kbKey_tag]
          · rw [GoMap.get?_set_ne _ _ _ _ hk, h.seen_iff]
            have : ¬ key = kbKey item := fun e => hk e.symm
            simp [kbKey_tag, this]
        · rw [List.map_append]
          refine List.Nodup.append h.nodup (by simp) ?_
          simpa [kbKey_tag] using hnot
      obtain ⟨h1, ⟨added, h2, h3⟩, h4⟩ := ih _ _ hinv
      refine ⟨h1, ⟨{ item with Source := "knowledge_base", SearchKeyword := keyword } :: added,
        by rw [h2]; simp, ?_⟩, ?_⟩
      · intro x hx
        rcases List.mem_cons.1 hx with rfl | hx
        · exact ⟨rfl, rfl, hnot, item, by simp, rfl, rfl⟩
        · obtain ⟨a, b, c, y, hy, hy2⟩ := h3 x hx
          refine ⟨a, b, ?_, y, List.mem_cons_of_mem _ hy, hy2⟩
          intro hin
          apply c
          rw [List.map_append]
          exact List.mem_append_left _ hin
      · intro y hy
        rcases List.mem_cons.1 hy with rfl | hy
        · rw [h2]
          simp [kbKey_tag]
        · exact h4 y hy

theorem searchStep_skip (search : Search) (topK : Int) (k : String) (st : SearchState)
    (hskip : k = "" ∨ (st.processedKeywords.get? k).getD false = true) :
    searchStep search topK k st = (st, false) := by
  simp [searchStep, hskip]

theorem searchStep_error (search : Search) (topK : Int) (k : String) (st : SearchState)
    (hskip : ¬ (k = "" ∨ (st.processedKeywords.get? k).getD false = true)) (e : String)
    (hs : search k = Except.error e) :
    searchStep search topK k st = (st.mark k, false) := by
  simp [searchStep, hskip, hs, SearchState.mark]

theorem searchStep_empty (search : Search) (topK : Int) (k : String) (st : SearchState)
    (hskip : ¬ (k = "" ∨ (st.processedKeywords.get? k).getD false = true))
    (items : List RecommendationItem) (hs : search k = Except.ok items) (hlen : items.length = 0) :
    searchStep search topK k st = (st.mark k, false) := by
  simp [searchStep, hskip, hs, hlen, SearchState.mark]

theorem searchStep_items (search : Search) (topK : Int) (k : String) (st : SearchState)
    (hskip : ¬ (k = "" ∨ (st.processedKeywords.get? k).getD false = true))
    (items : List RecommendationItem) (hs : search k = Except.ok items) (hlen : items.length ≠ 0) :
    searchStep search topK k st =
      ((st.mark k).add k items,
        decide ((((st.mark k).add k items).allRecommendations.length : Int) ≥ topK)) := by
  simp [searchStep, hskip, hs, hlen, SearchState.mark, SearchState.add]

/-- The four ways in which one iteration of the keyword loop can go. -/
theorem searchStep_cases (search : Search) (topK : Int) (k : String) (st : SearchState) :
    (k = "" ∨ (st.processedKeywords.get? k).getD false = true) ∧
        searchStep search topK k st = (st, false) ∨
    ¬ (k = "" ∨ (st.processedKeywords.get? k).getD false = true) ∧
        (∀ items, search k = Except.ok items → items = []) ∧
        searchStep search topK k st = (st.mark k, false) ∨
    ¬ (k = "" ∨ (st.processedKeywords.get? k).getD false = true) ∧
        ∃ items, search k = Except.ok items ∧ items ≠ [] ∧
          searchStep search topK k st =
            ((st.mark k).add k items,
              decide ((((st.mark k).add k items).allRecommendations.length : Int) ≥ topK)) := by
  by_cases hskip : k = "" ∨ (st.processedKeywords.get? k).getD false = true
  · exact Or.inl ⟨hskip, searchStep_skip search topK k st hskip⟩
  · cases hs : search k with
    | error e =>
      exact Or.inr (Or.inl ⟨hskip, by simp, searchStep_error search topK k st hskip e hs⟩)
    | ok items =>
      by_cases hlen : items.length = 0
      · refine Or.inr (Or.inl ⟨hskip, ?_, searchStep_empty search topK k st hskip items hs hlen⟩)
        intro items₂ h
        cases h
        exact List.length_eq_zero.1 hlen
      · refine Or.inr (Or.inr ⟨hskip, items, rfl, ?_,
          searchStep_items search topK k st hskip items hs hlen⟩)
        intro h
        exact hlen (by rw [h]; rfl)

theorem SearchInv.mark_preserved {search : Search} {st : SearchState} (h : SearchInv search st)
    (k : String) (hskip : ¬ (k = "" ∨ (st.processedKeywords.get? k).getD false = true))
    (hcov : ∀ items, search k = Except.ok items →
      ∀ y ∈ items, kbKey y ∈ st.allRecommendations.map kbKey) :
    SearchInv search (st.mark k) := by
  have hk1 : k ≠ "" := fun e => hskip (Or.inl e)
  have hk2 : k ∉ st.calls.map Prod.fst := fun hin => hskip (Or.inr ((h.processed_iff k).2 hin))
  have hcalls : (st.mark k).calls.map Prod.fst = st.calls.map Prod.fst ++ [k] := by
    simp [SearchState.mark]
  constructor
  · exact h.seenInv
  · intro k₂
    rw [hcalls]
    by_cases hkk : k = k₂
    · subst hkk
      simp [SearchState.mark, GoMap.get?_set_self]
    · have : (st.mark k).processedKeywords.get? k₂ = st.processedKeywords.get? k₂ :=
        GoMap.get?_set_ne _ _ _ _ hkk
      rw [this, h.processed_iff]
      have hne : ¬ k₂ = k := fun e => hkk e.symm
      simp [hne]
  · rw [hcalls]
    exact List.Nodup.append h.calls_nodup (List.nodup_singleton k) (by simpa using hk2)
  · rw [hcalls]
    intro hin
    rcases List.mem_append.1 hin with hin | hin
    · exact h.calls_nonempty hin
    · exact hk1 (List.mem_singleton.1 hin).symm
  · intro k₂ hk₂ items hs y hy
    rw [hcalls] at hk₂
    rcases List.mem_append.1 hk₂ with hin | hin
    · exact h.covered k₂ hin items hs y hy
    · rw [List.mem_singleton.1 hin] at hs
      exact hcov items hs y hy
  · intro x hx
    obtain ⟨hsrc, pre, post, items, y, hc, hs, hy, h1, h2, h3⟩ := h.tagged x hx
    refine ⟨hsrc, pre, post ++ [k], items, y, ?_, hs, hy, h1, h2, h3⟩
    rw [hcalls, hc]
    simp

theorem SearchInv.add_preserved {search : Search} {st : SearchState} (h : SearchInv search st)
    (k : String) (hskip : ¬ (k = "" ∨ (st.processedKeywords.get? k).getD false = true))
    (items : List RecommendationItem) (hs : search k = Except.ok items) :
    SearchInv search ((st.mark k).add k items) := by
  have hk2 : k ∉ st.calls.map Prod.fst := fun hin => hskip (Or.inr ((h.processed_iff k).2 hin))
  have hcalls : (st.mark k).calls.map Prod.fst = st.calls.map Prod.fst ++ [k] := by
    simp [SearchState.mark]
  obtain ⟨a1, ⟨added, a2, a3⟩, a4⟩ :=
    addItems_spec k items st.allRecommendations st.seen h.seenInv
  have hall : ((st.mark k).add k items).allRecommendations = st.allRecommendations ++ added := a2
  constructor
  · exact a1
  · intro k₂
    show ((st.mark k).processedKeywords.get? k₂).getD false = true ↔
      k₂ ∈ (st.mark k).calls.map Prod.fst
    rw [hcalls]
    by_cases hkk : k = k₂
    · subst hkk
      simp [SearchState.mark, GoMap.get?_set_self]
    · have : (st.mark k).processedKeywords.get? k₂ = st.processedKeywords.get? k₂ :=
        GoMap.get?_set_ne _ _ _ _ hkk
      rw [this, h.processed_iff]
      have hne : ¬ k₂ = k := fun e => hkk e.symm
      simp [hne]
  · show ((st.mark k).calls.map Prod.fst).Nodup
    rw [hcalls]
    exact List.Nodup.append h.calls_nodup (List.nodup_singleton k) (by simpa using hk2)
  · show "" ∉ (st.mark k).calls.map Prod.fst
    rw [hcalls]
    intro hin
    rcases List.mem_append.1 hin with hin | hin
    · exact h.calls_nonempty hin
    · exact hskip (Or.inl (List.mem_singleton.1 hin).symm)
  · intro k₂ hk₂ items₂ hs₂ y hy
    have hk₂' : k₂ ∈ st.calls.map Prod.fst ++ [k] := by
      rw [← hcalls]
      exact hk₂
    rw [hall, List.map_append]
    rcases List.mem_append.1 hk₂' with hin | hin
    · exact List.mem_append_left _ (h.covered k₂ hin items₂ hs₂ y hy)
    · rw [List.mem_singleton.1 hin, hs] at hs₂
      cases hs₂
      have := a4 y hy
      rw [a2, List.map_append] at this
      exact this
  · intro x hx
    rw [hall] at hx
    show x.Source = "knowledge_base" ∧ ∃ pre post items₂ y,
      (st.mark k).calls.map Prod.fst = pre ++ x.SearchKeyword :: post ∧ _
    rw [hcalls]
    rcases List.mem_append.1 hx with hx | hx
    · obtain ⟨hsrc, pre, post, items₂, y, hc, hs₂, hy, h1, h2, h3⟩ := h.tagged x hx
      refine ⟨hsrc, pre, post ++ [k], items₂, y, ?_, hs₂, hy, h1, h2, h3⟩
      rw [hc]
      simp
    · obtain ⟨hsrc, hkw, hnew, y, hy, h1, h2⟩ := a3 x hx
      refine ⟨hsrc, st.calls.map Prod.fst, [], items, y, by rw [hkw], by rw [hkw]; exact hs,
        hy, h1, h2, ?_⟩
      intro k₂ hk₂ items₂ hs₂ z hz e
      exact hnew (e ▸ h.covered k₂ hk₂ items₂ hs₂ z hz)

theorem SearchInv.step_preserved {search : Search} {st : SearchState} (h : SearchInv search st)
    (topK : Int) (k : String) : SearchInv search (searchStep search topK k st).1 := by
  rcases searchStep_cases search topK k st with ⟨_, heq⟩ | ⟨hskip, hnone, heq⟩ |
    ⟨hskip, items, hs, _, heq⟩
  · rw [heq]
    exact h
  · rw [heq]
    apply h.mark_preserved k hskip
    intro items hs y hy
    rw [hnone items hs] at hy
    simp at hy
  · rw [heq]
    exact h.add_preserved k hskip items hs

theorem SearchInv.loop_preserved {search : Search} (topK : Int) (keywords : List String)
    {st : SearchState} (h : SearchInv search st) :
    SearchInv search (SearchKnowledgeBaseByProfile.loop search topK keywords st) := by
  induction keywords generalizing st with
  | nil => exact h
  | cons k rest ih =>
    rw [searchLoop_cons]
    split
    · exact h.step_preserved topK k
    · exact ih (h.step_preserved topK k)

theorem searchInv_init (search : Search) :
    SearchInv search { allRecommendations := [], seen := [], processedKeywords := [], calls := [] } :=
  ⟨⟨by simp [GoMap.get?], by simp⟩, by simp [GoMap.get?], by simp, by simp, by simp, by simp⟩

theorem searchInv_run (search : Search) (topK : Int) (keywords : List String) :
    SearchInv search (searchRun search topK keywords) :=
  SearchInv.loop_preserved topK keywords (searchInv_init search)

theorem searchStep_calls (search : Search) (topK : Int) (k : String) (st : SearchState) :
    ∃ l, (searchStep search topK k st).1.calls.map Prod.fst = st.calls.map Prod.fst ++ l ∧
      l.Sublist [k] := by
  rcases searchStep_cases search topK k st with ⟨_, heq⟩ | ⟨_, _, heq⟩ | ⟨_, items, _, _, heq⟩
  · exact ⟨[], by rw [heq]; simp, by simp⟩
  · exact ⟨[k], by rw [heq]; simp [SearchState.mark], List.Sublist.refl _⟩
  · exact ⟨[k], by rw [heq]; simp [SearchState.mark, SearchState.add], List.Sublist.refl _⟩

theorem searchLoop_calls (search : Search) (topK : Int) (keywords : List String)
    (st : SearchState) :
    ∃ l, (SearchKnowledgeBaseByProfile.loop search topK keywords st).calls.map Prod.fst =
        st.calls.map Prod.fst ++ l ∧ l.Sublist keywords := by
  induction keywords generalizing st with
  | nil => exact ⟨[], by simp [searchLoop_nil], List.Sublist.refl _⟩
  | cons k rest ih =>
    obtain ⟨l₁, h1, h2⟩ := searchStep_calls search topK k st
    rw [searchLoop_cons]
    split
    · refine ⟨l₁, h1, ?_⟩
      exact h2.trans (List.Sublist.cons₂ k (List.nil_sublist rest))
    · obtain ⟨l₂, h3, h4⟩ := ih (searchStep search topK k st).1
      refine ⟨l₁ ++ l₂, by rw [h3, h1, List.append_assoc], ?_⟩
      have := List.Sublist.append h2 h4
      simpa using this

theorem searchStep_count (search : Search) (topK : Int) (k : String) (st : SearchState)
    (hlen : (st.allRecommendations.length : Int) < topK)
    (hcalls : ∀ c ∈ st.calls, (c.2 : Int) < topK) :
    (∀ c ∈ (searchStep search topK k st).1.calls, (c.2 : Int) < topK) ∧
    ((searchStep search topK k st).2 = false →
      ((searchStep search topK k st).1.allRecommendations.length : Int) < topK) := by
  have hmark : ∀ c ∈ (st.mark k).calls, (c.2 : Int) < topK := by
    intro c hc
    simp only [SearchState.mark, List.mem_append, List.mem_singleton] at hc
    rcases hc with hc | hc
    · exact hcalls c hc
    · rw [hc]
      exact hlen
  rcases searchStep_cases search topK k st with ⟨_, heq⟩ | ⟨_, _, heq⟩ | ⟨_, items, _, _, heq⟩
  · rw [heq]
    exact ⟨hcalls, fun _ => hlen⟩
  · rw [heq]
    exact ⟨hmark, fun _ => hlen⟩
  · rw [heq]
    refine ⟨hmark, ?_⟩
    intro hb
    simp only [decide_eq_false_iff_not, not_le] at hb
    exact hb

theorem searchLoop_count (search : Search) (topK : Int) (keywords : List String)
    (st : SearchState) (hlen : (st.allRecommendations.length : Int) < topK)
    (hcalls : ∀ c ∈ st.calls, (c.2 : Int) < topK) :
    ∀ c ∈ (SearchKnowledgeBaseByProfile.loop search topK keywords st).calls, (c.2 : Int) < topK := by
  induction keywords generalizing st with
  | nil => exact hcalls
  | cons k rest ih =>
    obtain ⟨h1, h2⟩ := searchStep_count search topK k st hlen hcalls
    rw [searchLoop_cons]
    split
    · exact h1
    · rename_i hb
      exact ih _ (h2 (by simpa using hb)) h1

theorem truncateTopK_of_nonneg (topK : Int) (all : List RecommendationItem) (h : 0 ≤ topK) :
    ∃ result, truncateTopK topK all = some result ∧ (result.length : Int) ≤ topK ∧
      result.Sublist all := by
  unfold truncateTopK
  by_cases hgt : (all.length : Int) > topK
  · refine ⟨all.take topK.toNat, by simp [hgt, not_lt.2 h], ?_, List.take_sublist _ _⟩
    rw [List.length_take]
    omega
  · exact ⟨all, by simp [hgt], by omega, List.Sublist.refl _⟩

theorem truncateTopK_sublist (topK : Int) (all result : List RecommendationItem)
    (h : truncateTopK topK all = some result) : result.Sublist all := by
  unfold truncateTopK at h
  split at h
  · split at h
    · cases h
    · cases h
      exact List.take_sublist _ _
  · cases h
    exact List.Sublist.refl _

theorem filterItems_length (recommendations : List RecommendationItem) :
    (filterItems recommendations).length = recommendations.length := by
  simp [filterItems]

/-- C11. With a configured `topK ≥ 0`, `SearchKnowledgeBaseByProfile` returns, and
returns at most `topK` items, however the keyword loop ended;
`ForceGenerateRecommendationsForUserWithProfile` then returns at most `topK`
items, every list it hands to `SaveRecommendations` has at most `topK` items, and
the table is unchanged or holds a new snapshot of at most `topK` items for the
user. -/
theorem C11_at_most_topK (dec : Decoders) (search : Search) (topK : Int)
    (keywords : List String) (saveErr : Option String) (store : GoMap Snapshot) (cid : String)
    (profile : Option UserProfile) (h : 0 ≤ topK) :
    (∃ result, SearchKnowledgeBaseByProfile search topK keywords = some result ∧
      (result.length : Int) ≤ topK) ∧
    (∃ r, ForceGenerateRecommendationsForUserWithProfile dec search topK saveErr store cid
        profile = some r ∧
      (r.items.length : Int) ≤ topK ∧
      (∀ c ∈ r.saveCalls, (c.2.length : Int) ≤ topK) ∧
      (r.store = store ∨
        ∃ snap, r.store = store.set cid snap ∧ (snap.items.length : Int) ≤ topK)) := by
  have hsearch : ∀ kws, ∃ result, SearchKnowledgeBaseByProfile search topK kws = some result ∧
      (result.length : Int) ≤ topK := by
    intro kws
    obtain ⟨result, h1, h2, _⟩ :=
      truncateTopK_of_nonneg topK (searchRun search topK kws).allRecommendations h
    exact ⟨result, h1, h2⟩
  refine ⟨hsearch keywords, ?_⟩
  have hfound : ∃ recs, searchByProfile dec search topK profile = some recs ∧
      (recs.length : Int) ≤ topK := by
    cases profile with
    | none => exact ⟨[], rfl, by simpa using h⟩
    | some p =>
      by_cases hk : p.Keywords = ""
      · exact ⟨[], by simp [searchByProfile, hk], by simpa using h⟩
      · by_cases hl : (extractKeywords dec (some p)).length > 0
        · obtain ⟨result, h1, h2⟩ := hsearch (extractKeywords dec (some p))
          exact ⟨result, by simp [searchByProfile, hk, hl, h1], h2⟩
        · exact ⟨[], by simp [searchByProfile, hk, hl], by simpa using h⟩
  obtain ⟨recs, hrecs, hle⟩ := hfound
  refine ⟨saveFound saveErr store cid profile recs, ?_, ?_⟩
  · simp [ForceGenerateRecommendationsForUserWithProfile, hrecs]
  · by_cases hz : recs.length = 0
    · have hr : saveFound saveErr store cid profile recs =
          { items := [], err := none, saveCalls := [], store := store } := by
        simp [saveFound, hz]
      rw [hr]
      exact ⟨by simpa using h, by simp, Or.inl rfl⟩
    · have hfl : ((filterItems recs).length : Int) ≤ topK := by
        rw [filterItems_length]
        exact hle
      cases saveErr with
      | some e =>
        have hr : saveFound (some e) store cid profile recs =
            { items := [], err := some e, saveCalls := [(cid, filterItems recs)],
              store := store } := by
          simp [saveFound, hz]
        rw [hr]
        refine ⟨by simpa using h, ?_, Or.inl rfl⟩
        intro c hc
        rw [List.mem_singleton.1 hc]
        exact hfl
      | none =>
        have hr : saveFound none store cid profile recs =
            { items := filterItems recs, err := none, saveCalls := [(cid, filterItems recs)],
              store := store.set cid { items := filterItems recs, profile := profile } } := by
          simp [saveFound, hz]
        rw [hr]
        refine ⟨hfl, ?_, Or.inr ⟨_, rfl, hfl⟩⟩
        intro c hc
        rw [List.mem_singleton.1 hc]
        exact hfl

/-! ## C12: when the search is invoked -/

/-- C12, as stated, fails: with `topK = 0` and the keywords `a`, `b`, whose
searches both fail, the search is invoked for `a` and for `b`, each time with 0
items accumulated, which is not smaller than `topK`. -/
theorem C12_counterexample :
    (searchRun failingSearch 0 ["a", "b"]).calls = [("a", 0), ("b", 0)] ∧
    ¬ ∀ c ∈ (searchRun failingSearch 0 ["a", "b"]).calls, ((c.2 : Nat) : Int) < 0 := by
  decide

/-- C12, amended. For every keyword list, every behaviour of the external search
and every `topK ≥ 1`, each invocation of the search happens with fewer than
`topK` items accumulated: once the accumulated count has reached `topK` no
further search is issued. -/
theorem C12_search_only_below_topK (search : Search) (topK : Int) (keywords : List String)
    (h : 0 < topK) :
    ∀ c ∈ (searchRun search topK keywords).calls, ((c.2 : Nat) : Int) < topK := by
  apply searchLoop_count
  · simpa using h
  · simp

/-- Witness of C12: `topK = 2`, keywords `a`, `b`, `c` and the sample search; the
search for `a` fills the result, so only `a` is searched. -/
theorem C12_search_only_below_topK_witness :
    (0 : Int) < 2 ∧ (searchRun sampleSearch 2 ["a", "b", "c"]).calls = [("a", 0)] ∧
    ∀ c ∈ (searchRun sampleSearch 2 ["a", "b", "c"]).calls, ((c.2 : Nat) : Int) < 2 :=
  ⟨by decide, by decide, C12_search_only_below_topK sampleSearch 2 ["a", "b", "c"] (by decide)⟩

/-! ## C13: a failed keyword is skipped -/

theorem AgreeExcept.mark_agree {k : String} {st st₂ : SearchState} (h : AgreeExcept k st st₂)
    (k₂ : String) : AgreeExcept k (st.mark k₂) (st₂.mark k₂) := by
  refine ⟨h.all_eq, h.seen_eq, ?_⟩
  intro k₃ hk₃
  by_cases hkk : k₂ = k₃
  · subst hkk
    simp [SearchState.mark, GoMap.get?_set_self]
  · have e1 : (st.mark k₂).processedKeywords.get? k₃ = st.processedKeywords.get? k₃ :=
      GoMap.get?_set_ne _ _ _ _ hkk
    have e2 : (st₂.mark k₂).processedKeywords.get? k₃ = st₂.processedKeywords.get? k₃ :=
      GoMap.get?_set_ne _ _ _ _ hkk
    rw [e1, e2]
    exact h.processed_eq k₃ hk₃

theorem AgreeExcept.add_agree {k : String} {st st₂ : SearchState} (h : AgreeExcept k st st₂)
    (k₂ : String) (items : List RecommendationItem) :
    AgreeExcept k (st.add k₂ items) (st₂.add k₂ items) := by
  refine ⟨?_, ?_, h.processed_eq⟩
  · simp [SearchState.add, h.all_eq, h.seen_eq]
  · simp [SearchState.add, h.all_eq, h.seen_eq]

theorem AgreeExcept.step_other {k : String} {st st₂ : SearchState} (h : AgreeExcept k st st₂)
    (search : Search) (topK : Int) (k₂ : String) (hne : k₂ ≠ k) :
    AgreeExcept k (searchStep search topK k₂ st).1 (searchStep search topK k₂ st₂).1 ∧
    (searchStep search topK k₂ st).2 = (searchStep search topK k₂ st₂).2 := by
  have hcond : (k₂ = "" ∨ (st.processedKeywords.get? k₂).getD false = true) ↔
      (k₂ = "" ∨ (st₂.processedKeywords.get? k₂).getD false = true) := by
    rw [h.processed_eq k₂ hne]
  rcases searchStep_cases search topK k₂ st with ⟨hskip, heq⟩ | ⟨hskip, hnone, heq⟩ |
    ⟨hskip, items, hs, hne₂, heq⟩
  · rw [heq, searchStep_skip search topK k₂ st₂ (hcond.1 hskip)]
    exact ⟨h, rfl⟩
  · have hskip₂ := fun hc => hskip (hcond.2 hc)
    rcases searchStep_cases search topK k₂ st₂ with ⟨hc, _⟩ | ⟨_, _, heq₂⟩ |
      ⟨_, items, hs, hne₂, _⟩
    · exact absurd hc hskip₂
    · rw [heq, heq₂]
      exact ⟨h.mark_agree k₂, rfl⟩
    · exact absurd (hnone items hs) hne₂
  · have hskip₂ := fun hc => hskip (hcond.2 hc)
    rcases searchStep_cases search topK k₂ st₂ with ⟨hc, _⟩ | ⟨_, hnone, _⟩ |
      ⟨_, items₂, hs₂, _, heq₂⟩
    · exact absurd hc hskip₂
    · exact absurd (hnone items hs) hne₂
    · rw [hs] at hs₂
      cases hs₂
      rw [heq, heq₂]
      have hagree := (h.mark_agree k₂).add_agree k₂ items
      refine ⟨hagree, ?_⟩
      simp only [hagree.all_eq]

theorem AgreeExcept.step_failed {k : String} {st st₂ : SearchState} (h : AgreeExcept k st st₂)
    (search : Search) (topK : Int) (e : String) (hk : search k = Except.error e) :
    AgreeExcept k (searchStep search topK k st).1 st₂ ∧ (searchStep search topK k st).2 = false := by
  rcases searchStep_cases search topK k st with ⟨_, heq⟩ | ⟨_, _, heq⟩ | ⟨_, items, hs, _, _⟩
  · rw [heq]
    exact ⟨h, rfl⟩
  · rw [heq]
    refine ⟨⟨h.all_eq, h.seen_eq, ?_⟩, rfl⟩
    intro k₃ hk₃
    have e1 : (st.mark k).processedKeywords.get? k₃ = st.processedKeywords.get? k₃ :=
      GoMap.get?_set_ne _ _ _ _ (Ne.symm hk₃)
    rw [e1]
    exact h.processed_eq k₃ hk₃
  · rw [hk] at hs
    cases hs

theorem AgreeExcept.loop_agree {k : String} (search : Search) (topK : Int) (e : String)
    (hk : search k = Except.error e) (keywords : List String) {st st₂ : SearchState}
    (h : AgreeExcept k st st₂) :
    AgreeExcept k (SearchKnowledgeBaseByProfile.loop search topK keywords st)
      (SearchKnowledgeBaseByProfile.loop search topK (keywords.filter fun k₂ => k₂ ≠ k) st₂) := by
  induction keywords generalizing st st₂ with
  | nil => simpa [searchLoop_nil] using h
  | cons k₂ rest ih =>
    by_cases hkk : k₂ = k
    · subst hkk
      obtain ⟨h1, h2⟩ := h.step_failed search topK e hk
      have hf : (List.filter (fun k₃ => decide (k₃ ≠ k₂)) (k₂ :: rest)) =
          List.filter (fun k₃ => decide (k₃ ≠ k₂)) rest := by
        simp
      rw [hf, searchLoop_cons, h2]
      simp only [Bool.false_eq_true, if_false]
      exact ih h1
    · obtain ⟨h1, h2⟩ := h.step_other search topK k₂ hkk
      have hf : (List.filter (fun k₃ => decide (k₃ ≠ k)) (k₂ :: rest)) =
          k₂ :: List.filter (fun k₃ => decide (k₃ ≠ k)) rest := by
        simp [hkk]
      rw [hf, searchLoop_cons, searchLoop_cons, h2]
      split
      · exact h1
      · exact ih h1

/-- C13. If the search returns an error for keyword `k`, the outcome of
`SearchKnowledgeBaseByProfile` equals the outcome of the same call with every
occurrence of `k` removed from the keyword list; with a configured `topK ≥ 0`
the call returns (its error result is always nil). -/
theorem C13_failed_keyword_skipped (search : Search) (topK : Int) (keywords : List String)
    (k e : String) (hk : search k = Except.error e) :
    SearchKnowledgeBaseByProfile search topK keywords =
      SearchKnowledgeBaseByProfile search topK (keywords.filter fun k₂ => k₂ ≠ k) ∧
    (0 ≤ topK → ∃ result, SearchKnowledgeBaseByProfile search topK keywords = some result) := by
  constructor
  · unfold SearchKnowledgeBaseByProfile searchRun
    have h0 : AgreeExcept k
        ({ allRecommendations := [], seen := [], processedKeywords := [], calls := [] } :
          SearchState)
        { allRecommendations := [], seen := [], processedKeywords := [], calls := [] } :=
      ⟨rfl, rfl, fun _ _ => rfl⟩
    rw [(AgreeExcept.loop_agree search topK e hk keywords h0).all_eq]
  · intro h
    obtain ⟨result, h1, _⟩ :=
      truncateTopK_of_nonneg topK (searchRun search topK keywords).allRecommendations h
    exact ⟨result, h1⟩

/-- Witness of C13: the sample search fails for `b`; keywords `c`, `b`, `a`, `b`
and `topK = 5`. -/
theorem C13_failed_keyword_skipped_witness :
    sampleSearch "b" = Except.error "RAG服务连接失败" ∧
    SearchKnowledgeBaseByProfile sampleSearch 5 ["c", "b", "a", "b"] =
      SearchKnowledgeBaseByProfile sampleSearch 5 (["c", "b", "a", "b"].filter fun k₂ => k₂ ≠ "b") ∧
    ((0 : Int) ≤ 5 →
      ∃ result, SearchKnowledgeBaseByProfile sampleSearch 5 ["c", "b", "a", "b"] = some result) :=
  ⟨rfl, C13_failed_keyword_skipped sampleSearch 5 ["c", "b", "a", "b"] "b" "RAG服务连接失败" rfl⟩

/-! ## C14: deduplication and tagging -/

/-- C14. `SearchKnowledgeBaseByProfile` searches no keyword twice, never the
empty keyword, and in the order of the keyword list; whenever it returns, no two
returned items share (referenceId, title), and every returned item has source
`knowledge_base` and a `SearchKeyword` that was searched, whose search returned
an item with that (referenceId, title), while no keyword searched before it
returned one. With `topK ≥ 0` it returns. -/
theorem C14_search_dedup_and_tags (search : Search) (topK : Int) (keywords : List String) :
    (searchedKeywords search topK keywords).Nodup ∧
    "" ∉ searchedKeywords search topK keywords ∧
    (searchedKeywords search topK keywords).Sublist keywords ∧
    (0 ≤ topK → ∃ result, SearchKnowledgeBaseByProfile search topK keywords = some result) ∧
    ∀ result, SearchKnowledgeBaseByProfile search topK keywords = some result →
      (result.map fun x => (x.RefID, x.Title)).Nodup ∧
      ∀ x ∈ result, x.Source = "knowledge_base" ∧
        ∃ pre post items y,
          searchedKeywords search topK keywords = pre ++ x.SearchKeyword :: post ∧
          search x.SearchKeyword = Except.ok items ∧ y ∈ items ∧
          y.RefID = x.RefID ∧ y.Title = x.Title ∧
          ∀ k ∈ pre, ∀ items₂, search k = Except.ok items₂ →
            ∀ z ∈ items₂, ¬ (z.RefID = x.RefID ∧ z.Title = x.Title) := by
  have inv := searchInv_run search topK keywords
  refine ⟨inv.calls_nodup, inv.calls_nonempty, ?_, ?_, ?_⟩
  · obtain ⟨l, h1, h2⟩ := searchLoop_calls search topK keywords
      { allRecommendations := [], seen := [], processedKeywords := [], calls := [] }
    have : searchedKeywords search topK keywords = l := by
      simpa [searchedKeywords, searchRun] using h1
    rw [this]
    exact h2
  · intro h
    obtain ⟨result, h1, _⟩ :=
      truncateTopK_of_nonneg topK (searchRun search topK keywords).allRecommendations h
    exact ⟨result, h1⟩
  · intro result hres
    have hsub := truncateTopK_sublist topK _ result hres
    constructor
    · have hkeys : (result.map kbKey).Nodup := inv.seenInv.nodup.sublist (hsub.map kbKey)
      have hcomp : result.map kbKey =
          (result.map fun x => (x.RefID, x.Title)).map (fun p => p.1 ++ "|" ++ p.2) := by
        rw [List.map_map]
        rfl
      rw [hcomp] at hkeys
      exact List.Nodup.of_map _ hkeys
    · intro x hx
      obtain ⟨hsrc, pre, post, items, y, hc, hs, hy, h1, h2, h3⟩ := inv.tagged x (hsub.subset hx)
      refine ⟨hsrc, pre, post, items, y, hc, hs, hy, h1, h2, ?_⟩
      intro k hk items₂ hs₂ z hz hz2
      apply h3 k hk items₂ hs₂ z hz
      simp [kbKey, hz2.1, hz2.2]

/-! ## C15: nothing is saved when nothing is found -/

/-- C15. When the profile is absent, or has an empty keyword field, or yields no
keywords, or the knowledge-base search over its keywords returns zero items,
`ForceGenerateRecommendationsForUserWithProfile` returns an empty list and a nil
error, makes no call of `SaveRecommendations` and leaves the recommendation
table as it was, so a cached snapshot of the user is unchanged. -/
theorem C15_nothing_saved_when_empty (dec : Decoders) (search : Search) (topK : Int)
    (saveErr : Option String) (store : GoMap Snapshot) (cid : String)
    (profile : Option UserProfile)
    (h : profile = none ∨ (∃ p, profile = some p ∧ p.Keywords = "") ∨
      extractKeywords dec profile = [] ∨
      SearchKnowledgeBaseByProfile search topK (extractKeywords dec profile) = some []) :
    ∃ r, ForceGenerateRecommendationsForUserWithProfile dec search topK saveErr store cid
        profile = some r ∧
      r.items = [] ∧ r.err = none ∧ r.saveCalls = [] ∧ r.store = store ∧
      r.store.get? cid = store.get? cid := by
  have hfound : searchByProfile dec search topK profile = some [] := by
    cases profile with
    | none => rfl
    | some p =>
      by_cases hk : p.Keywords = ""
      · simp [searchByProfile, hk]
      · by_cases hl : (extractKeywords dec (some p)).length > 0
        · rcases h with h | ⟨p₂, hp, hp₂⟩ | h | h
          · cases h
          · cases hp
            exact absurd hp₂ hk
          · rw [h] at hl
            simp at hl
          · simp [searchByProfile, hk, hl, h]
        · simp [searchByProfile, hk, hl]
  refine ⟨{ items := [], err := none, saveCalls := [], store := store }, ?_, rfl, rfl, rfl, rfl,
    rfl⟩
  simp [ForceGenerateRecommendationsForUserWithProfile, hfound, saveFound]

/-- Witness of C15: no profile, and a table that holds a snapshot of the user. -/
theorem C15_nothing_saved_when_empty_witness :
    ∃ r, ForceGenerateRecommendationsForUserWithProfile
        ⟨fun _ => ([], true), fun _ => none⟩ sampleSearch 5 none
        [("u1", { items := [kbItem "9" "old"], profile := none })] "u1" none = some r ∧
      r.items = [] ∧ r.err = none ∧ r.saveCalls = [] ∧
      r.store = [("u1", { items := [kbItem "9" "old"], profile := none })] ∧
      r.store.get? "u1" =
        GoMap.get? [("u1", ({ items := [kbItem "9" "old"], profile := none } : Snapshot))] "u1" :=
  C15_nothing_saved_when_empty ⟨fun _ => ([], true), fun _ => none⟩ sampleSearch 5 none
    [("u1", { items := [kbItem "9" "old"], profile := none })] "u1" none (Or.inl rfl)

/-- Witness of C11: `topK = 1`, keywords `a`, `c` and the sample search. -/
theorem C11_at_most_topK_witness :
    (0 : Int) ≤ 1 ∧
    (∃ result, SearchKnowledgeBaseByProfile sampleSearch 1 ["a", "c"] = some result ∧
      (result.length : Int) ≤ 1) ∧
    (∃ r, ForceGenerateRecommendationsForUserWithProfile
        ⟨fun _ => (["a", "c"], true), fun _ => none⟩ sampleSearch 1 none [] "u1"
        (some { CID := "u1", ProfileRaw := "", Keywords := "[a,c]", UpdatedAt := 0 }) =
          some r ∧
      (r.items.length : Int) ≤ 1 ∧
      (∀ c ∈ r.saveCalls, (c.2.length : Int) ≤ 1) ∧
      (r.store = [] ∨ ∃ snap, r.store = GoMap.set [] "u1" snap ∧ (snap.items.length : Int) ≤ 1)) :=
  ⟨by decide, C11_at_most_topK ⟨fun _ => (["a", "c"], true), fun _ => none⟩ sampleSearch 1
    ["a", "c"] none [] "u1"
    (some { CID := "u1", ProfileRaw := "", Keywords := "[a,c]", UpdatedAt := 0 })
    (by decide)⟩

/-! ## C16, C17: getNextTimePoint -/

/-- C17, evaluated at the failing input: daily mode with the run at 09:00, and a
run dispatched by the tick at exactly 09:00:00.000000000 of day 100. The
`nextRun` computed from that tick time is the tick time itself, so after the run
`nextRun` equals `lastRun`, and `checkTasks` at the dispatch instant starts the
task again. -/
theorem C17_next_run_not_after_now :
    getNextTimePoint (utc 100 9 0) 9 0 = utc 100 9 0 ∧
    ∃ s stages,
      runTask
        (schedulerWith dailyConfig
          { LastRun := utc 99 9 0, NextRun := utc 100 9 0, IsRunning := true,
            Description := "完整推荐流程 (09:00)" })
        TaskType.TaskProfileGeneration (utc 100 9 0) WorkflowOutcome.succeeded = some (s, stages) ∧
      s.tasks TaskType.TaskProfileGeneration =
        some { LastRun := utc 100 9 0, NextRun := utc 100 9 0, IsRunning := false,
               Description := "完整推荐流程 (09:00)" } ∧
      (checkTasks s (utc 100 9 0)).2 = [(TaskType.TaskProfileGeneration, utc 100 9 0)] :=
  ⟨by decide, _, _, rfl, by decide, by decide⟩

/-! ## C18: checkTasks -/

/-- The dispatch condition of `checkTasks`. -/
theorem checkTask_eq (now : Time) (status : TaskStatus) :
    checkTask now status =
      if status.IsRunning = false ∧ ¬ status.NextRun.IsZero ∧ status.NextRun.nanos ≤ now.nanos
      then ({ status with IsRunning := true }, true) else (status, false) := by
  unfold checkTask
  by_cases hr : status.IsRunning = true
  · simp [hr]
  · by_cases hz : status.NextRun.IsZero
    · simp [hr, hz]
    · have hcond : (now.After status.NextRun ∨ now.Equal status.NextRun) ↔
          status.NextRun.nanos ≤ now.nanos := by
        simp only [Time.After, Time.Equal]
        omega
      by_cases hd : status.NextRun.nanos ≤ now.nanos
      · simp [hr, hz, hd, hcond]
      · simp [hr, hz, hd, hcond]

theorem mem_checkTasks_started (s : Scheduler) (now : Time) (t : TaskType) (u : Time) :
    (t, u) ∈ (checkTasks s now).2 ↔
      u = now ∧ ∃ status, s.tasks t = some status ∧ (checkTask now status).2 = true := by
  have ht : t ∈ taskTypes := by cases t <;> simp [taskTypes]
  simp only [checkTasks, List.mem_map, List.mem_filter, Prod.mk.injEq]
  constructor
  · rintro ⟨t₂, ⟨_, h2⟩, rfl, rfl⟩
    refine ⟨rfl, ?_⟩
    cases hs : s.tasks t₂ with
    | none => simp [hs] at h2
    | some status => exact ⟨status, rfl, by simpa [hs] using h2⟩
  · rintro ⟨rfl, status, hs, hc⟩
    exact ⟨t, ⟨ht, by simp [hs, hc]⟩, rfl, rfl⟩

/-- C18. `checkTasks` sets a task's running flag and starts its workflow exactly
when the task is not running, its `nextRun` is not the zero time and
`now ≥ nextRun`; it changes no other field of the descriptor and nothing else
in the scheduler, and leaves every other task, in particular a running one,
untouched. It starts each task at most once, and a second tick while the
started run is still running starts no further execution of that task and
leaves its descriptor as it is. -/
theorem C18_check_tasks_dispatch (s : Scheduler) (now : Time) :
    (∀ t status, s.tasks t = some status →
      ((t, now) ∈ (checkTasks s now).2 ↔
        (status.IsRunning = false ∧ ¬ status.NextRun.IsZero ∧
          status.NextRun.nanos ≤ now.nanos)) ∧
      ((t, now) ∈ (checkTasks s now).2 →
        (checkTasks s now).1.tasks t = some { status with IsRunning := true }) ∧
      ((t, now) ∉ (checkTasks s now).2 → (checkTasks s now).1.tasks t = some status) ∧
      (status.IsRunning = true → (checkTasks s now).1.tasks t = some status)) ∧
    (∀ t, s.tasks t = none → (checkTasks s now).1.tasks t = none ∧
      ∀ u, (t, u) ∉ (checkTasks s now).2) ∧
    (checkTasks s now).1.cfg = s.cfg ∧ (checkTasks s now).1.concurrency = s.concurrency ∧
    (checkTasks s now).2.Nodup ∧ (∀ e ∈ (checkTasks s now).2, e.2 = now) ∧
    (∀ t now₂, (t, now) ∈ (checkTasks s now).2 →
      (∀ u, (t, u) ∉ (checkTasks (checkTasks s now).1 now₂).2) ∧
      (checkTasks (checkTasks s now).1 now₂).1.tasks t = (checkTasks s now).1.tasks t) := by
  have hdisp : ∀ t status, s.tasks t = some status →
      ((t, now) ∈ (checkTasks s now).2 ↔
        (status.IsRunning = false ∧ ¬ status.NextRun.IsZero ∧
          status.NextRun.nanos ≤ now.nanos)) := by
    intro t status hs
    rw [mem_checkTasks_started]
    constructor
    · rintro ⟨_, status₂, hs₂, hc⟩
      rw [hs] at hs₂
      cases hs₂
      rw [checkTask_eq] at hc
      by_contra hcon
      simp [hcon] at hc
    · intro hcond
      exact ⟨rfl, status, hs, by rw [checkTask_eq]; simp [hcond]⟩
  have hnew : ∀ t status, s.tasks t = some status →
      (checkTasks s now).1.tasks t = some (checkTask now status).1 := by
    intro t status hs
    simp [checkTasks, hs]
  refine ⟨?_, ?_, rfl, rfl, ?_, ?_, ?_⟩
  · intro t status hs
    refine ⟨hdisp t status hs, ?_, ?_, ?_⟩
    · intro hmem
      rw [hnew t status hs, checkTask_eq]
      simp [(hdisp t status hs).1 hmem]
    · intro hmem
      have hcond : ¬ (status.IsRunning = false ∧ ¬ status.NextRun.IsZero ∧
          status.NextRun.nanos ≤ now.nanos) := fun hc => hmem ((hdisp t status hs).2 hc)
      rw [hnew t status hs, checkTask_eq, if_neg hcond]
    · intro hrun
      rw [hnew t status hs, checkTask_eq]
      simp [hrun]
  · intro t hs
    refine ⟨by simp [checkTasks, hs], ?_⟩
    intro u hmem
    obtain ⟨_, status, hs₂, _⟩ := (mem_checkTasks_started s now t u).1 hmem
    rw [hs] at hs₂
    cases hs₂
  · unfold checkTasks
    apply List.Nodup.map
    · intro a b hab
      exact (Prod.mk.inj hab).1
    · exact List.Nodup.filter _ (by decide)
  · intro e he
    obtain ⟨t, u⟩ := e
    exact ((mem_checkTasks_started s now t u).1 he).1
  · intro t now₂ hmem
    obtain ⟨_, status, hs, hc⟩ := (mem_checkTasks_started s now t now).1 hmem
    have hcond := (hdisp t status hs).1 hmem
    have hafter : (checkTasks s now).1.tasks t = some { status with IsRunning := true } := by
      rw [hnew t status hs, checkTask_eq]
      simp [hcond]
    constructor
    · intro u hmem₂
      obtain ⟨_, status₂, hs₂, hc₂⟩ :=
        (mem_checkTasks_started (checkTasks s now).1 now₂ t u).1 hmem₂
      rw [hafter] at hs₂
      cases hs₂
      rw [checkTask_eq] at hc₂
      simp at hc₂
    · have h2 : (checkTasks (checkTasks s now).1 now₂).1.tasks t =
          ((checkTasks s now).1.tasks t).map fun st => (checkTask now₂ st).1 := rfl
      rw [h2, hafter]
      simp [checkTask_eq]

/-! ## C19, C20: runTask and initTasks -/

end AiPush

namespace AiPush

/-! ## The bounded fan-out -/

theorem set_decomp {α : Type} (l : List α) (i : Nat) (w : α) (h : l[i]? = some w) (w₂ : α) :
    ∃ l₁ l₂, l = l₁ ++ w :: l₂ ∧ l.set i w₂ = l₁ ++ w₂ :: l₂ := by
  induction l generalizing i with
  | nil => simp at h
  | cons x xs ih =>
    cases i with
    | zero =>
      simp only [List.getElem?_cons_zero, Option.some.injEq] at h
      subst h
      exact ⟨[], xs, rfl, rfl⟩
    | succ j =>
      simp only [List.getElem?_cons_succ] at h
      obtain ⟨l₁, l₂, h₁, h₂⟩ := ih j h
      refine ⟨x :: l₁, l₂, ?_, ?_⟩
      · rw [List.cons_append, ← h₁]
      · rw [List.set_cons_succ, h₂, List.cons_append]

theorem fanInv_start {ρ σ : Type} (count : σ → ρ → σ) (zero : σ) (items : List (String × ρ))
    (concurrency : Int) (s : FanOut ρ σ) (h : FanOut.start concurrency zero items = some s) :
    FanInv count zero items s ∧ (s.cap : Int) = concurrency ∧
      s.remaining = 7 * items.length + 1 := by
  unfold FanOut.start at h
  by_cases hc : concurrency < 0
  · simp [hc] at h
  · simp only [hc, if_false, Option.some.injEq] at h
    subst h
    refine ⟨⟨by simp, by simp, by simp, by simp, by simp, by simp, by simp, by simp⟩, ?_, ?_⟩
    · simp only
      omega
    · simp [FanOut.remaining]

theorem FanInv.stepMain_preserved {ρ σ : Type} {count : σ → ρ → σ} {zero : σ}
    {items : List (String × ρ)} {s s₂ : FanOut ρ σ} (inv : FanInv count zero items s)
    (h : FanOut.stepMain s = some s₂) : FanInv count zero items s₂ := by
  obtain ⟨cap, pending, main, tokens, wg, workers, counters, log⟩ := s
  obtain ⟨t_eq, t_le, wg_eq, items_eq, p_ne, ret, lperm, c_eq⟩ := inv
  simp only at t_eq t_le wg_eq items_eq p_ne ret lperm c_eq
  cases main with
  | loopHead =>
    cases pending with
    | nil =>
      simp only [FanOut.stepMain] at h
      by_cases hwg : wg = 0
      · subst hwg
        simp only [if_true, Option.some.injEq] at h
        subst h
        refine ⟨by simpa using t_eq, t_le, by simpa using wg_eq, items_eq, by simp, ?_, lperm, c_eq⟩
        intro _
        refine ⟨rfl, ?_⟩
        intro w hw
        simp only [reduceCtorEq, or_self, if_false, Nat.add_zero] at wg_eq
        have hnil := List.length_eq_zero.1 wg_eq.symm
        have hnot : w ∉ workers.filter fun w => w.pc.inGroup := by
          rw [hnil]
          simp
        rw [List.mem_filter] at hnot
        cases hpc : w.pc <;> simp_all [WorkerPC.inGroup]
      · simp [hwg] at h
    | cons item rest =>
      simp only [FanOut.stepMain, Option.some.injEq] at h
      subst h
      refine ⟨by simpa using t_eq, t_le, ?_, items_eq, by simp, by simp, lperm, c_eq⟩
      simp only [reduceCtorEq, or_self, if_false, Nat.add_zero] at wg_eq
      simp [wg_eq]
  | acquire =>
    simp only [FanOut.stepMain] at h
    by_cases ht : tokens < cap
    · simp only [ht, if_true, Option.some.injEq] at h
      subst h
      refine ⟨?_, ?_, by simpa using wg_eq, items_eq, ?_, by simp, lperm, c_eq⟩
      · simp only [reduceCtorEq, if_false, Nat.add_zero] at t_eq
        simp [t_eq]
      · simp only
        omega
      · intro _
        exact p_ne (Or.inl rfl)
    · simp [ht] at h
  | spawn =>
    cases pending with
    | nil => simp [FanOut.stepMain] at h
    | cons item rest =>
      simp only [FanOut.stepMain, Option.some.injEq] at h
      subst h
      refine ⟨?_, t_le, ?_, ?_, by simp, by simp, ?_, c_eq⟩
      · simp only [if_true] at t_eq
        simp [t_eq, List.filter_append, WorkerPC.holdsToken]
      · simp only [or_true, if_true] at wg_eq
        simp [wg_eq, List.filter_append, WorkerPC.inGroup]
      · simpa using items_eq
      · simpa [List.filter_append, WorkerPC.counted] using lperm
  | returned => simp [FanOut.stepMain] at h

theorem FanInv.stepWorker_preserved {ρ σ : Type} {count : σ → ρ → σ} {zero : σ}
    {items : List (String × ρ)} {s s₂ : FanOut ρ σ} (inv : FanInv count zero items s)
    (i : Nat) (w : Worker ρ) (hw : s.workers[i]? = some w)
    (h : FanOut.stepWorker count s i w = some s₂) : FanInv count zero items s₂ := by
  obtain ⟨cap, pending, main, tokens, wg, workers, counters, log⟩ := s
  obtain ⟨item, result, pc⟩ := w
  obtain ⟨t_eq, t_le, wg_eq, items_eq, p_ne, ret, lperm, c_eq⟩ := inv
  simp only at t_eq t_le wg_eq items_eq p_ne ret lperm c_eq hw
  have hmem : (⟨item, result, pc⟩ : Worker ρ) ∈ workers := List.getElem?_mem hw
  have hret : pc ≠ WorkerPC.done → main ≠ MainPC.returned := by
    intro hpc hmain
    exact hpc ((ret hmain).2 _ hmem)
  cases pc with
  | operating =>
    obtain ⟨l₁, l₂, hl, hset⟩ := set_decomp workers i _ hw ⟨item, result, WorkerPC.counting⟩
    simp only [FanOut.stepWorker, Option.some.injEq] at h
    subst h
    simp only [hset]
    subst hl
    refine ⟨?_, t_le, ?_, ?_, p_ne, ?_, ?_, c_eq⟩
    · simpa [List.filter_append, List.filter_cons, WorkerPC.holdsToken] using t_eq
    · simpa [List.filter_append, List.filter_cons, WorkerPC.inGroup] using wg_eq
    · simpa using items_eq
    · intro hmain
      exact absurd hmain (hret (by simp))
    · simpa [List.filter_append, List.filter_cons, WorkerPC.counted] using lperm
  | counting =>
    obtain ⟨l₁, l₂, hl, hset⟩ := set_decomp workers i _ hw ⟨item, result, WorkerPC.releasing⟩
    simp only [FanOut.stepWorker, Option.some.injEq] at h
    subst h
    simp only [hset]
    subst hl
    refine ⟨?_, t_le, ?_, ?_, p_ne, ?_, ?_, ?_⟩
    · simpa [List.filter_append, List.filter_cons, WorkerPC.holdsToken] using t_eq
    · simpa [List.filter_append, List.filter_cons, WorkerPC.inGroup] using wg_eq
    · simpa using items_eq
    · intro hmain
      exact absurd hmain (hret (by simp))
    · simp only [List.filter_append, List.filter_cons, WorkerPC.counted, Bool.false_eq_true,
        if_false, if_true, List.map_append, List.map_cons] at lperm ⊢
      exact ((lperm.append_right _).trans (List.perm_append_singleton _ _)).trans
        List.perm_middle.symm
    · simp [c_eq, List.foldl_append]
  | releasing =>
    obtain ⟨l₁, l₂, hl, hset⟩ := set_decomp workers i _ hw ⟨item, result, WorkerPC.finishing⟩
    simp only [FanOut.stepWorker] at h
    by_cases ht : 0 < tokens
    · simp only [ht, if_true, Option.some.injEq] at h
      subst h
      simp only [hset]
      subst hl
      refine ⟨?_, ?_, ?_, ?_, p_ne, ?_, ?_, c_eq⟩
      · simp only [List.filter_append, List.filter_cons, WorkerPC.holdsToken, if_true,
          List.length_append, List.length_cons, Bool.false_eq_true, if_false] at t_eq ⊢
        omega
      · simp only
        omega
      · simpa [List.filter_append, List.filter_cons, WorkerPC.inGroup] using wg_eq
      · simpa using items_eq
      · intro hmain
        exact absurd hmain (hret (by simp))
      · simpa [List.filter_append, List.filter_cons, WorkerPC.counted] using lperm
    · simp [ht] at h
  | finishing =>
    obtain ⟨l₁, l₂, hl, hset⟩ := set_decomp workers i _ hw ⟨item, result, WorkerPC.done⟩
    simp only [FanOut.stepWorker, Option.some.injEq] at h
    subst h
    simp only [hset]
    subst hl
    refine ⟨?_, t_le, ?_, ?_, p_ne, ?_, ?_, c_eq⟩
    · simpa [List.filter_append, List.filter_cons, WorkerPC.holdsToken] using t_eq
    · simp only [List.filter_append, List.filter_cons, WorkerPC.inGroup, if_true,
        List.length_append, List.length_cons, Bool.false_eq_true, if_false] at wg_eq ⊢
      omega
    · simpa using items_eq
    · intro hmain
      exact absurd hmain (hret (by simp))
    · simpa [List.filter_append, List.filter_cons, WorkerPC.counted] using lperm
  | done => simp [FanOut.stepWorker] at h

theorem FanInv.fanStep_preserved {ρ σ : Type} {count : σ → ρ → σ} {zero : σ}
    {items : List (String × ρ)} {s s₂ : FanOut ρ σ} (inv : FanInv count zero items s)
    (a : Actor) (h : FanOut.step count a s = some s₂) : FanInv count zero items s₂ := by
  cases a with
  | main => exact inv.stepMain_preserved h
  | worker i =>
    simp only [FanOut.step] at h
    cases hw : s.workers[i]? with
    | none => simp [hw] at h
    | some w =>
      simp only [hw] at h
      exact inv.stepWorker_preserved i w hw h

theorem FanInv.run_preserved {ρ σ : Type} {count : σ → ρ → σ} {zero : σ}
    {items : List (String × ρ)} (sched : List Actor) {s : FanOut ρ σ}
    (inv : FanInv count zero items s) : FanInv count zero items (FanOut.run count sched s) := by
  induction sched generalizing s with
  | nil => exact inv
  | cons a rest ih =>
    simp only [FanOut.run]
    cases h : FanOut.step count a s with
    | none => exact ih inv
    | some s₂ => exact ih (inv.fanStep_preserved a h)

theorem fanStep_cap {ρ σ : Type} (count : σ → ρ → σ) (a : Actor) (s s₂ : FanOut ρ σ)
    (h : FanOut.step count a s = some s₂) : s₂.cap = s.cap := by
  cases a with
  | main =>
    simp only [FanOut.step, FanOut.stepMain] at h
    split at h
    · split at h
      · split at h
        · cases h; rfl
        · cases h
      · cases h; rfl
    · split at h
      · cases h; rfl
      · cases h
    · split at h
      · cases h
      · cases h; rfl
    · cases h
  | worker i =>
    simp only [FanOut.step] at h
    split at h
    · cases h
    · simp only [FanOut.stepWorker] at h
      split at h
      · cases h; rfl
      · cases h; rfl
      · split at h
        · cases h; rfl
        · cases h
      · cases h; rfl
      · cases h

theorem fanRun_cap {ρ σ : Type} (count : σ → ρ → σ) (sched : List Actor) (s : FanOut ρ σ) :
    (FanOut.run count sched s).cap = s.cap := by
  induction sched generalizing s with
  | nil => rfl
  | cons a rest ih =>
    simp only [FanOut.run]
    cases h : FanOut.step count a s with
    | none => exact ih s
    | some s₂ => exact (ih s₂).trans (fanStep_cap count a s s₂ h)

theorem fanRun_append {ρ σ : Type} (count : σ → ρ → σ) (sched sched₂ : List Actor)
    (s : FanOut ρ σ) :
    FanOut.run count (sched ++ sched₂) s = FanOut.run count sched₂ (FanOut.run count sched s) := by
  induction sched generalizing s with
  | nil => rfl
  | cons a rest ih =>
    simp only [List.cons_append, FanOut.run]
    exact ih _

/-- While the call has not returned and the capacity is at least 1, some actor
can move. -/
theorem FanInv.enabled {ρ σ : Type} {count : σ → ρ → σ} {zero : σ}
    {items : List (String × ρ)} {s : FanOut ρ σ} (inv : FanInv count zero items s)
    (hcap : 1 ≤ s.cap) (hmain : s.main ≠ MainPC.returned) :
    ∃ a s₂, FanOut.step count a s = some s₂ := by
  by_cases hall : ∀ w ∈ s.workers, w.pc = WorkerPC.done
  · have hT : (s.workers.filter fun w => w.pc.holdsToken) = [] := by
      rw [List.filter_eq_nil_iff]
      intro w hw
      simp [hall w hw, WorkerPC.holdsToken]
    have hG : (s.workers.filter fun w => w.pc.inGroup) = [] := by
      rw [List.filter_eq_nil_iff]
      intro w hw
      simp [hall w hw, WorkerPC.inGroup]
    have t_eq := inv.tokens_eq
    have wg_eq := inv.wg_eq
    have p_ne := inv.pending_ne
    rw [hT] at t_eq
    rw [hG] at wg_eq
    refine ⟨Actor.main, ?_⟩
    simp only [FanOut.step, FanOut.stepMain]
    cases hm : s.main with
    | loopHead =>
      simp only [hm, reduceCtorEq, or_self, if_false, List.length_nil, Nat.add_zero] at wg_eq
      cases hp : s.pending with
      | nil => simp [wg_eq]
      | cons item rest => simp
    | acquire =>
      simp only [hm, reduceCtorEq, if_false, List.length_nil, Nat.add_zero] at t_eq
      have : s.tokens < s.cap := by omega
      simp [this]
    | spawn =>
      cases hp : s.pending with
      | nil => exact absurd hp (p_ne (Or.inr hm))
      | cons item rest => simp
    | returned => exact absurd hm hmain
  · push_neg at hall
    obtain ⟨w, hw, hpc⟩ := hall
    obtain ⟨i, hi⟩ := List.getElem?_of_mem hw
    refine ⟨Actor.worker i, ?_⟩
    simp only [FanOut.step, hi, FanOut.stepWorker]
    cases hp : w.pc with
    | operating => simp
    | counting => simp
    | releasing =>
      have hmemT : w ∈ s.workers.filter fun w => w.pc.holdsToken := by
        rw [List.mem_filter]
        exact ⟨hw, by simp [hp, WorkerPC.holdsToken]⟩
      have hpos := List.length_pos_of_mem hmemT
      have t_eq := inv.tokens_eq
      have : 0 < s.tokens := by omega
      simp [this]
    | finishing => simp
    | done => exact absurd hp hpc

theorem fanStep_remaining {ρ σ : Type} (count : σ → ρ → σ) (a : Actor) (s s₂ : FanOut ρ σ)
    (hp : s.main = MainPC.acquire → s.pending ≠ [])
    (h : FanOut.step count a s = some s₂) : s₂.remaining + 1 = s.remaining := by
  obtain ⟨cap, pending, main, tokens, wg, workers, counters, log⟩ := s
  simp only at hp
  cases a with
  | main =>
    simp only [FanOut.step, FanOut.stepMain] at h
    cases main with
    | loopHead =>
      cases pending with
      | nil =>
        by_cases hwg : wg = 0
        · simp only [hwg, if_true, Option.some.injEq] at h
          subst h
          simp only [FanOut.remaining, List.length_nil]
          omega
        · simp [hwg] at h
      | cons item rest =>
        simp only [Option.some.injEq] at h
        subst h
        simp only [FanOut.remaining, List.length_cons]
        omega
    | acquire =>
      by_cases ht : tokens < cap
      · simp only [ht, if_true, Option.some.injEq] at h
        subst h
        cases pending with
        | nil => exact absurd rfl (hp rfl)
        | cons item rest =>
          simp only [FanOut.remaining, List.length_cons]
          omega
      · simp [ht] at h
    | spawn =>
      cases pending with
      | nil => simp at h
      | cons item rest =>
        simp only [Option.some.injEq] at h
        subst h
        simp only [FanOut.remaining, List.length_cons, List.map_append, List.sum_append,
          List.map_cons, List.map_nil, List.sum_cons, List.sum_nil, WorkerPC.remaining]
        omega
    | returned => simp at h
  | worker i =>
    simp only [FanOut.step] at h
    cases hw : workers[i]? with
    | none => simp [hw] at h
    | some w =>
      obtain ⟨item, result, pc⟩ := w
      simp only [hw, FanOut.stepWorker] at h
      cases pc with
      | operating =>
        obtain ⟨l₁, l₂, hl, hset⟩ := set_decomp workers i _ hw ⟨item, result, WorkerPC.counting⟩
        simp only [Option.some.injEq] at h
        subst h
        simp only [hset]
        subst hl
        simp only [FanOut.remaining, List.map_append, List.sum_append, List.map_cons,
          List.sum_cons, WorkerPC.remaining]
        omega
      | counting =>
        obtain ⟨l₁, l₂, hl, hset⟩ := set_decomp workers i _ hw ⟨item, result, WorkerPC.releasing⟩
        simp only [Option.some.injEq] at h
        subst h
        simp only [hset]
        subst hl
        simp only [FanOut.remaining, List.map_append, List.sum_append, List.map_cons,
          List.sum_cons, WorkerPC.remaining]
        omega
      | releasing =>
        obtain ⟨l₁, l₂, hl, hset⟩ := set_decomp workers i _ hw ⟨item, result, WorkerPC.finishing⟩
        by_cases ht : 0 < tokens
        · simp only [ht, if_true, Option.some.injEq] at h
          subst h
          simp only [hset]
          subst hl
          simp only [FanOut.remaining, List.map_append, List.sum_append, List.map_cons,
            List.sum_cons, WorkerPC.remaining]
          omega
        · simp [ht] at h
      | finishing =>
        obtain ⟨l₁, l₂, hl, hset⟩ := set_decomp workers i _ hw ⟨item, result, WorkerPC.done⟩
        simp only [Option.some.injEq] at h
        subst h
        simp only [hset]
        subst hl
        simp only [FanOut.remaining, List.map_append, List.sum_append, List.map_cons,
          List.sum_cons, WorkerPC.remaining]
        omega
      | done => simp at h

/-- From every state of a fan-out with capacity at least 1 some schedule leads
to the return of the call. -/
theorem FanInv.exists_returning {ρ σ : Type} {count : σ → ρ → σ} {zero : σ}
    {items : List (String × ρ)} (n : Nat) :
    ∀ s : FanOut ρ σ, FanInv count zero items s → 1 ≤ s.cap → s.remaining ≤ n →
      ∃ sched, (FanOut.run count sched s).main = MainPC.returned := by
  induction n with
  | zero =>
    intro s inv hcap hrem
    refine ⟨[], ?_⟩
    by_contra hmain
    obtain ⟨a, s₂, hstep⟩ := inv.enabled hcap hmain
    have := fanStep_remaining count a s s₂ (fun h => inv.pending_ne (Or.inl h)) hstep
    omega
  | succ n ih =>
    intro s inv hcap hrem
    by_cases hmain : s.main = MainPC.returned
    · exact ⟨[], hmain⟩
    · obtain ⟨a, s₂, hstep⟩ := inv.enabled hcap hmain
      have hr := fanStep_remaining count a s s₂ (fun h => inv.pending_ne (Or.inl h)) hstep
      have hc := fanStep_cap count a s s₂ hstep
      obtain ⟨sched, hsched⟩ := ih s₂ (inv.fanStep_preserved a hstep) (by omega) (by omega)
      refine ⟨a :: sched, ?_⟩
      simp only [FanOut.run, hstep, Option.getD_some]
      exact hsched

theorem FanInv.executing_le {ρ σ : Type} {count : σ → ρ → σ} {zero : σ}
    {items : List (String × ρ)} {s : FanOut ρ σ} (inv : FanInv count zero items s) :
    s.executing ≤ s.cap := by
  have h₁ : s.executing ≤ (s.workers.filter fun w => w.pc.holdsToken).length := by
    unfold FanOut.executing
    rw [← List.countP_eq_length_filter, ← List.countP_eq_length_filter]
    apply List.countP_mono_left
    intro w _ hw
    have : w.pc = WorkerPC.operating := by simpa using hw
    simp [this, WorkerPC.holdsToken]
  have h₂ := inv.tokens_eq
  have h₃ := inv.tokens_le
  omega

theorem FanInv.final {ρ σ : Type} {count : σ → ρ → σ} {zero : σ}
    {items : List (String × ρ)} {s : FanOut ρ σ} (inv : FanInv count zero items s)
    (h : s.main = MainPC.returned) :
    s.allCompleted items ∧ s.log.Perm items ∧
      s.counters = (s.log.map Prod.snd).foldl count zero := by
  obtain ⟨hp, hdone⟩ := inv.returned h
  have hitems : s.workers.map (fun w => (w.item, w.result)) = items := by
    have := inv.items_eq
    rwa [hp, List.append_nil] at this
  refine ⟨⟨hitems, hdone⟩, ?_, inv.counters_eq⟩
  have hfilter : (s.workers.filter fun w => w.pc.counted) = s.workers := by
    rw [List.filter_eq_self]
    intro w hw
    simp [hdone w hw, WorkerPC.counted]
  have := inv.log_perm
  rwa [hfilter, hitems] at this

/-- A fan-out with a non-negative capacity starts, and every schedule leads to a
state that satisfies the invariant. -/
theorem fanOut_inv {ρ σ : Type} (count : σ → ρ → σ) (zero : σ) (items : List (String × ρ))
    (concurrency : Int) (h : 0 ≤ concurrency) (sched : List Actor) :
    ∃ s, (FanOut.start concurrency zero items).map (FanOut.run count sched) = some s ∧
      FanInv count zero items s ∧ (s.cap : Int) = concurrency := by
  have hstart : ∃ s₀, FanOut.start concurrency zero items = some s₀ := by
    unfold FanOut.start
    simp [not_lt.2 h]
  obtain ⟨s₀, hs₀⟩ := hstart
  obtain ⟨inv, hcap, _⟩ := fanInv_start count zero items concurrency s₀ hs₀
  refine ⟨FanOut.run count sched s₀, by simp [hs₀], inv.run_preserved sched, ?_⟩
  rw [fanRun_cap]
  exact hcap

/-- What holds of a state reached by a fan-out under a schedule. -/
theorem fanOut_of_eq {ρ σ : Type} (count : σ → ρ → σ) (zero : σ) (items : List (String × ρ))
    (concurrency : Int) (sched : List Actor) (s : FanOut ρ σ)
    (h : (FanOut.start concurrency zero items).map (FanOut.run count sched) = some s) :
    FanInv count zero items s ∧ (s.cap : Int) = concurrency := by
  cases hs : FanOut.start concurrency zero items with
  | none => simp [hs] at h
  | some s₀ =>
    simp only [hs, Option.map_some', Option.some.injEq] at h
    subst h
    obtain ⟨inv, hcap, _⟩ := fanInv_start count zero items concurrency s₀ hs
    refine ⟨inv.run_preserved sched, ?_⟩
    rw [fanRun_cap]
    exact hcap

/-- With a capacity of at least 1 some schedule leads to the return of the call. -/
theorem fanOut_returns {ρ σ : Type} (count : σ → ρ → σ) (zero : σ) (items : List (String × ρ))
    (concurrency : Int) (h : 1 ≤ concurrency) :
    ∃ sched s, (FanOut.start concurrency zero items).map (FanOut.run count sched) = some s ∧
      s.hasReturned := by
  obtain ⟨s₀, hs₀, inv, hcap⟩ := fanOut_inv count zero items concurrency (by omega) []
  simp only [FanOut.run, Option.map_eq_some'] at hs₀
  obtain ⟨s₁, hs₁, rfl⟩ := hs₀
  obtain ⟨sched, hsched⟩ := FanInv.exists_returning (s₁.remaining) s₁ inv (by omega) (le_refl _)
  exact ⟨sched, FanOut.run count sched s₁, by simp [hs₁], hsched⟩

theorem foldl_countProfile (l : List ProfileResult) (c : ProfileCounters) :
    l.foldl countProfile c =
      ⟨c.processed + l.length, c.failed + l.countP (fun r => r.failed),
        c.regenerated + l.countP (fun r => !r.failed && r.profileRegenerated)⟩ := by
  induction l generalizing c with
  | nil => simp
  | cons r rest ih =>
    obtain ⟨regen, failed⟩ := r
    rw [List.foldl_cons, ih]
    cases failed <;> cases regen <;>
      simp [countProfile, List.countP_cons] <;> omega

theorem foldl_countRecommendation (l : List Bool) (c : RecommendationCounters) :
    l.foldl countRecommendation c =
      ⟨c.processed + l.length, c.failed + l.countP (fun r => r),
        c.completed + l.countP (fun r => !r)⟩ := by
  induction l generalizing c with
  | nil => simp
  | cons r rest ih =>
    rw [List.foldl_cons, ih]
    cases r <;> simp [countRecommendation, List.countP_cons] <;> omega

theorem foldl_countPush (l : List Bool) (c : PushCounters) :
    l.foldl countPush c =
      ⟨c.successCount + l.countP (fun r => r), c.failCount + l.countP (fun r => !r)⟩ := by
  induction l generalizing c with
  | nil => simp
  | cons r rest ih =>
    rw [List.foldl_cons, ih]
    cases r <;> simp [countPush, List.countP_cons] <;> omega

theorem countP_not_add (l : List Bool) :
    l.countP (fun r => r) + l.countP (fun r => !r) = l.length := by
  induction l with
  | nil => rfl
  | cons r rest ih => cases r <;> simp [List.countP_cons] <;> omega

theorem countP_profile_partition (l : List ProfileResult) :
    l.countP (fun r => r.failed) + l.countP (fun r => !r.failed && r.profileRegenerated) +
      l.countP (fun r => !r.failed && !r.profileRegenerated) = l.length := by
  induction l with
  | nil => rfl
  | cons r rest ih =>
    obtain ⟨regen, failed⟩ := r
    cases failed <;> cases regen <;> simp [List.countP_cons] <;> omega

theorem pushList_counts (ro : RangeOrder (List RecommendationItem))
    (pushViaHTTP : String → List RecommendationItem → Bool)
    (recommendations : GoMap (List RecommendationItem)) :
    (pushList ro pushViaHTTP recommendations).length =
        recommendations.countP (fun kv => kv.2.length > 0) ∧
      ((pushList ro pushViaHTTP recommendations).map Prod.snd).countP (fun r => r) =
        recommendations.countP (fun kv => kv.2.length > 0 && pushViaHTTP kv.1 kv.2) := by
  have hperm := ro.perm recommendations
  unfold pushList
  constructor
  · rw [List.length_map, ← List.countP_eq_length_filter]
    exact hperm.countP_eq _
  · rw [List.map_map, List.countP_map, List.countP_filter, ← hperm.countP_eq]
    apply List.countP_congr
    intro kv _
    simp [Bool.and_comm]

/-- C21. Whenever a fan-out has returned, under whatever schedule, its counters
are determined by the items and the results of their operations: in
`GenerateProfilesWithConcurrency`, `processed` is the number of ids, `failed`
the number of ids whose operation returned an error, `regenerated` the number
that succeeded with the flag set, and `skipped` is not negative and is the
number that succeeded without the flag; in
`GenerateRecommendationsWithConcurrency`, `processed` is the number of ids,
`failed` the number of errors and `completed` the number of the others; in
`PushRecommendationsWithConcurrency`, `successCount + failCount` is the number
of users with a non-empty list and `successCount` the number of those whose push
returned true. With a cap of at least 1 each fan-out returns under some
schedule. -/
theorem C21_fanout_counts (cids : List (String × ProfileResult)) (recCids : List (String × Bool))
    (concurrency pushConcurrency : Int) (ro : RangeOrder (List RecommendationItem))
    (pushViaHTTP : String → List RecommendationItem → Bool)
    (recommendations : GoMap (List RecommendationItem)) :
    (∀ sched s, GenerateProfilesWithConcurrency cids concurrency sched = some s →
      s.hasReturned →
        s.counters.processed = cids.length ∧
        s.counters.failed = cids.countP (fun c => c.2.failed) ∧
        s.counters.regenerated = cids.countP (fun c => !c.2.failed && c.2.profileRegenerated) ∧
        0 ≤ s.counters.skipped ∧
        s.counters.skipped =
          cids.countP (fun c => !c.2.failed && !c.2.profileRegenerated)) ∧
    (∀ sched s, GenerateRecommendationsWithConcurrency recCids concurrency sched = some s →
      s.hasReturned →
        s.counters.processed = recCids.length ∧
        s.counters.failed = recCids.countP (fun c => c.2) ∧
        s.counters.completed = recCids.countP (fun c => !c.2)) ∧
    (∀ sched s,
      PushRecommendationsWithConcurrency pushConcurrency ro pushViaHTTP recommendations sched =
        some s → s.hasReturned →
        s.counters.successCount + s.counters.failCount =
          recommendations.countP (fun kv => kv.2.length > 0) ∧
        s.counters.successCount =
          recommendations.countP (fun kv => kv.2.length > 0 && pushViaHTTP kv.1 kv.2)) ∧
    (1 ≤ concurrency →
      (∃ sched s, GenerateProfilesWithConcurrency cids concurrency sched = some s ∧
        s.hasReturned) ∧
      ∃ sched s, GenerateRecommendationsWithConcurrency recCids concurrency sched = some s ∧
        s.hasReturned) ∧
    (1 ≤ pushConcurrency →
      ∃ sched s,
        PushRecommendationsWithConcurrency pushConcurrency ro pushViaHTTP recommendations sched =
          some s ∧ s.hasReturned) := by
  refine ⟨?_, ?_, ?_, ?_, ?_⟩
  · intro sched s h hret
    obtain ⟨inv, _⟩ := fanOut_of_eq countProfile ⟨0, 0, 0⟩ cids concurrency sched s h
    obtain ⟨_, hperm, hc⟩ := inv.final hret
    have hp := hperm.map Prod.snd
    rw [foldl_countProfile] at hc
    have h₁ : s.counters.processed = cids.length := by
      rw [hc]
      simp [hperm.length_eq]
    have h₂ : s.counters.failed = cids.countP (fun c => c.2.failed) := by
      rw [hc]
      simp only [Nat.zero_add]
      rw [hp.countP_eq, List.countP_map]
      rfl
    have h₃ : s.counters.regenerated =
        cids.countP (fun c => !c.2.failed && c.2.profileRegenerated) := by
      rw [hc]
      simp only [Nat.zero_add]
      rw [hp.countP_eq, List.countP_map]
      rfl
    have hpart := countP_profile_partition (cids.map Prod.snd)
    rw [List.countP_map, List.countP_map, List.countP_map, List.length_map] at hpart
    have e₁ : ((fun r : ProfileResult => r.failed) ∘ Prod.snd) =
        fun c : String × ProfileResult => c.2.failed := rfl
    have e₂ : ((fun r : ProfileResult => !r.failed && r.profileRegenerated) ∘ Prod.snd) =
        fun c : String × ProfileResult => !c.2.failed && c.2.profileRegenerated := rfl
    have e₃ : ((fun r : ProfileResult => !r.failed && !r.profileRegenerated) ∘ Prod.snd) =
        fun c : String × ProfileResult => !c.2.failed && !c.2.profileRegenerated := rfl
    rw [e₁, e₂, e₃] at hpart
    refine ⟨h₁, h₂, h₃, ?_, ?_⟩
    · unfold ProfileCounters.skipped
      rw [h₁, h₂, h₃]
      omega
    · unfold ProfileCounters.skipped
      rw [h₁, h₂, h₃]
      omega
  · intro sched s h hret
    obtain ⟨inv, _⟩ := fanOut_of_eq countRecommendation ⟨0, 0, 0⟩ recCids concurrency sched s h
    obtain ⟨_, hperm, hc⟩ := inv.final hret
    have hp := hperm.map Prod.snd
    rw [foldl_countRecommendation] at hc
    refine ⟨?_, ?_, ?_⟩
    · rw [hc]
      simp [hperm.length_eq]
    · rw [hc]
      simp only [Nat.zero_add]
      rw [hp.countP_eq, List.countP_map]
      rfl
    · rw [hc]
      simp only [Nat.zero_add]
      rw [hp.countP_eq, List.countP_map]
      rfl
  · intro sched s h hret
    obtain ⟨inv, _⟩ := fanOut_of_eq countPush ⟨0, 0⟩
      (pushList ro pushViaHTTP recommendations) pushConcurrency sched s h
    obtain ⟨_, hperm, hc⟩ := inv.final hret
    have hp := hperm.map Prod.snd
    obtain ⟨hlen, hsucc⟩ := pushList_counts ro pushViaHTTP recommendations
    rw [foldl_countPush] at hc
    have hsum := countP_not_add (s.log.map Prod.snd)
    rw [List.length_map, hperm.length_eq, hlen] at hsum
    constructor
    · rw [hc]
      simp only [Nat.zero_add]
      exact hsum
    · rw [hc]
      simp only [Nat.zero_add]
      rw [hp.countP_eq]
      exact hsucc
  · intro hC
    exact ⟨fanOut_returns countProfile ⟨0, 0, 0⟩ cids concurrency hC,
      fanOut_returns countRecommendation ⟨0, 0, 0⟩ recCids concurrency hC⟩
  · intro hC
    exact fanOut_returns countPush ⟨0, 0⟩ _ pushConcurrency hC

/-- Witness of C21: three ids, of which `u1` is regenerated, `u2` is skipped and
`u3` fails, with cap 2; under the schedule below the caller is blocked at the
send for `u3` until goroutine 1 has released its slot, and the call returns with
3 processed, 1 failed and 1 regenerated. -/
theorem C21_fanout_counts_witness :
    (GenerateProfilesWithConcurrency
        [("u1", ⟨true, false⟩), ("u2", ⟨false, false⟩), ("u3", ⟨false, true⟩)] 2
        fanOutSchedule).map (fun s => (s.main, s.counters)) =
      some (MainPC.returned, ⟨3, 1, 1⟩) ∧
    ∀ sched s, GenerateProfilesWithConcurrency
        [("u1", ⟨true, false⟩), ("u2", ⟨false, false⟩), ("u3", ⟨false, true⟩)] 2 sched = some s →
      s.hasReturned →
        s.counters.processed = 3 ∧
        s.counters.failed = 1 ∧
        s.counters.regenerated = 1 ∧
        0 ≤ s.counters.skipped ∧
        s.counters.skipped = 1 :=
  ⟨by decide,
    (C21_fanout_counts [("u1", ⟨true, false⟩), ("u2", ⟨false, false⟩), ("u3", ⟨false, true⟩)] []
      2 2 (RangeOrder.inOrder _) (fun _ _ => true) []).1⟩

/-- C22. With a cap `C` of at least 1, each of the three fan-outs starts, and
under every schedule, at every point, at most `C` per-item operations are
executing; when the call has returned, every item has been handed to a goroutine
and every goroutine has ended; and under some schedule the call returns. -/
theorem C22_concurrency_cap (concurrency : Int) (hC : 1 ≤ concurrency)
    (cids : List (String × ProfileResult)) (recCids : List (String × Bool))
    (ro : RangeOrder (List RecommendationItem))
    (pushViaHTTP : String → List RecommendationItem → Bool)
    (recommendations : GoMap (List RecommendationItem)) :
    ((∀ sched, ∃ s, GenerateProfilesWithConcurrency cids concurrency sched = some s ∧
        (s.executing : Int) ≤ concurrency ∧ (s.hasReturned → s.allCompleted cids)) ∧
      ∃ sched s, GenerateProfilesWithConcurrency cids concurrency sched = some s ∧
        s.hasReturned) ∧
    ((∀ sched, ∃ s, GenerateRecommendationsWithConcurrency recCids concurrency sched = some s ∧
        (s.executing : Int) ≤ concurrency ∧ (s.hasReturned → s.allCompleted recCids)) ∧
      ∃ sched s, GenerateRecommendationsWithConcurrency recCids concurrency sched = some s ∧
        s.hasReturned) ∧
    ((∀ sched, ∃ s,
        PushRecommendationsWithConcurrency concurrency ro pushViaHTTP recommendations sched =
          some s ∧
        (s.executing : Int) ≤ concurrency ∧
        (s.hasReturned → s.allCompleted (pushList ro pushViaHTTP recommendations))) ∧
      ∃ sched s,
        PushRecommendationsWithConcurrency concurrency ro pushViaHTTP recommendations sched =
          some s ∧ s.hasReturned) := by
  have key : ∀ {ρ σ : Type} (count : σ → ρ → σ) (zero : σ) (items : List (String × ρ)),
      (∀ sched, ∃ s, (FanOut.start concurrency zero items).map (FanOut.run count sched) = some s ∧
        (s.executing : Int) ≤ concurrency ∧ (s.hasReturned → s.allCompleted items)) ∧
      ∃ sched s, (FanOut.start concurrency zero items).map (FanOut.run count sched) = some s ∧
        s.hasReturned := by
    intro ρ σ count zero items
    refine ⟨?_, fanOut_returns count zero items concurrency hC⟩
    intro sched
    obtain ⟨s, hs, inv, hcap⟩ := fanOut_inv count zero items concurrency (by omega) sched
    refine ⟨s, hs, ?_, fun hret => (inv.final hret).1⟩
    have := inv.executing_le
    omega
  exact ⟨key countProfile ⟨0, 0, 0⟩ cids, key countRecommendation ⟨0, 0, 0⟩ recCids,
    key countPush ⟨0, 0⟩ _⟩

/-- Witness of C22: cap 2 and three ids; under the schedule that lets the caller
move seven times, goroutines 0 and 1 are executing and the caller is blocked at
the send. -/
theorem C22_concurrency_cap_witness :
    (1 : Int) ≤ 2 ∧
    (GenerateProfilesWithConcurrency
        [("u1", ⟨true, false⟩), ("u2", ⟨false, false⟩), ("u3", ⟨false, true⟩)] 2
        (List.replicate 7 Actor.main)).map
      (fun s => (s.executing, s.main, s.pending.length)) = some (2, MainPC.acquire, 1) ∧
    ((∀ sched, ∃ s, GenerateProfilesWithConcurrency
          [("u1", ⟨true, false⟩), ("u2", ⟨false, false⟩), ("u3", ⟨false, true⟩)] 2 sched =
          some s ∧
        (s.executing : Int) ≤ 2 ∧
        (s.hasReturned → s.allCompleted
          [("u1", ⟨true, false⟩), ("u2", ⟨false, false⟩), ("u3", ⟨false, true⟩)])) ∧
      ∃ sched s, GenerateProfilesWithConcurrency
          [("u1", ⟨true, false⟩), ("u2", ⟨false, false⟩), ("u3", ⟨false, true⟩)] 2 sched =
          some s ∧ s.hasReturned) :=
  ⟨by decide, by decide,
    (C22_concurrency_cap 2 (by decide)
      [("u1", ⟨true, false⟩), ("u2", ⟨false, false⟩), ("u3", ⟨false, true⟩)] []
      (RangeOrder.inOrder _) (fun _ _ => true) []).1⟩

/-- With capacity 0 and an item to hand out, the caller never gets past the
send: no goroutine is created and the call does not return. -/
theorem fanRun_cap_zero {ρ σ : Type} (count : σ → ρ → σ) (sched : List Actor) (s : FanOut ρ σ)
    (hcap : s.cap = 0) (hw : s.workers = []) (hp : s.pending ≠ [])
    (hm : s.main = MainPC.loopHead ∨ s.main = MainPC.acquire) :
    (FanOut.run count sched s).workers = [] ∧
      (FanOut.run count sched s).main ≠ MainPC.returned := by
  induction sched generalizing s with
  | nil =>
    refine ⟨hw, ?_⟩
    rcases hm with h | h <;> simp [FanOut.run, h]
  | cons a rest ih =>
    simp only [FanOut.run]
    cases a with
    | main =>
      rcases hm with h | h
      · cases hpend : s.pending with
        | nil => exact absurd hpend hp
        | cons item more =>
          have hstep : FanOut.step count Actor.main s =
              some { s with wg := s.wg + 1, main := MainPC.acquire } := by
            simp [FanOut.step, FanOut.stepMain, h, hpend]
          rw [hstep]
          exact ih _ hcap hw hp (Or.inr rfl)
      · have hstep : FanOut.step count Actor.main s = none := by
          simp [FanOut.step, FanOut.stepMain, h, hcap]
        rw [hstep]
        exact ih s hcap hw hp (Or.inr h)
    | worker i =>
      have hstep : FanOut.step count (Actor.worker i) s = none := by
        simp [FanOut.step, hw]
      rw [hstep]
      exact ih s hcap hw hp hm

/-- C23 (code). The cap of the profile and recommendation fan-outs of a
scheduled run, `NewScheduler(cfg).concurrency`, is at least 1 for every
configuration. The cap of the push fan-out is `cfg.Cron.PushConcurrency` as
configured: with the value 0 the call returns under no schedule unless there is
nothing to push, and no push is ever started; with a negative value `make`
panics. One user with one item is enough for the call not to return. -/
theorem C23_push_cap_not_defaulted :
    (∀ cfg : Config, 1 ≤ (NewScheduler cfg).concurrency) ∧
    (∀ (ro : RangeOrder (List RecommendationItem))
      (pushViaHTTP : String → List RecommendationItem → Bool)
      (recommendations : GoMap (List RecommendationItem)) (sched : List Actor)
      (s : FanOut Bool PushCounters),
      PushRecommendationsWithConcurrency 0 ro pushViaHTTP recommendations sched = some s →
        (s.hasReturned → pushList ro pushViaHTTP recommendations = []) ∧ s.workers = []) ∧
    (∀ (ro : RangeOrder (List RecommendationItem))
      (pushViaHTTP : String → List RecommendationItem → Bool)
      (recommendations : GoMap (List RecommendationItem)) (sched : List Actor),
      PushRecommendationsWithConcurrency (-1) ro pushViaHTTP recommendations sched = none) ∧
    (∀ (ro : RangeOrder (List RecommendationItem)) (sched : List Actor),
      ∃ s, PushRecommendationsWithConcurrency 0 ro (fun _ _ => true) [("u1", [ragItem 1])] sched =
        some s ∧ ¬ s.hasReturned) := by
  have hzero : ∀ (items : List (String × Bool)) (sched : List Actor) (s : FanOut Bool PushCounters),
      (FanOut.start 0 ⟨0, 0⟩ items).map (FanOut.run countPush sched) = some s →
        (s.hasReturned → items = []) ∧ s.workers = [] := by
    intro items sched s h
    have hstart : FanOut.start 0 (⟨0, 0⟩ : PushCounters) items =
        some { cap := 0, pending := items, main := MainPC.loopHead, tokens := 0, wg := 0,
               workers := [], counters := ⟨0, 0⟩, log := [] } := by
      simp [FanOut.start]
    rw [hstart] at h
    simp only [Option.map_some', Option.some.injEq] at h
    subst h
    by_cases hitems : items = []
    · subst hitems
      obtain ⟨inv, _, _⟩ := fanInv_start countPush (⟨0, 0⟩ : PushCounters) [] 0 _ hstart
      have inv₂ : FanInv countPush (⟨0, 0⟩ : PushCounters) []
          (FanOut.run countPush sched
            { cap := 0, pending := [], main := MainPC.loopHead, tokens := 0, wg := 0,
              workers := [], counters := ⟨0, 0⟩, log := [] }) := inv.run_preserved sched
      have hitems₂ := inv₂.items_eq
      refine ⟨fun _ => rfl, ?_⟩
      have := congrArg List.length hitems₂
      simp only [List.length_append, List.length_map, List.length_nil] at this
      exact List.length_eq_zero.1 (by omega)
    · obtain ⟨hw, hm⟩ := fanRun_cap_zero countPush sched
        { cap := 0, pending := items, main := MainPC.loopHead, tokens := 0, wg := 0,
          workers := [], counters := ⟨0, 0⟩, log := [] } rfl rfl hitems (Or.inl rfl)
      exact ⟨fun hret => absurd hret hm, hw⟩
  refine ⟨?_, ?_, ?_, ?_⟩
  · intro cfg
    simp only [NewScheduler]
    split <;> omega
  · intro ro pushViaHTTP recommendations sched s h
    exact hzero _ sched s h
  · intro ro pushViaHTTP recommendations sched
    simp [PushRecommendationsWithConcurrency, FanOut.start]
  · intro ro sched
    have hrun : ro.run [("u1", [ragItem 1])] = [("u1", [ragItem 1])] :=
      List.perm_singleton.1 (ro.perm _)
    have hlist : pushList ro (fun _ _ => true) [("u1", [ragItem 1])] = [("u1", true)] := by
      simp [pushList, hrun]
    obtain ⟨s, hs⟩ : ∃ s, PushRecommendationsWithConcurrency 0 ro (fun _ _ => true)
        [("u1", [ragItem 1])] sched = some s := by
      simp [PushRecommendationsWithConcurrency, FanOut.start]
    refine ⟨s, hs, ?_⟩
    intro hret
    have := (hzero _ sched s hs).1 hret
    rw [hlist] at this
    cases this

/-! ## C24: the recommendation stage after the profile stage -/

theorem cachedDatabase_stage1 (dec : Decoders) (search : Search) (topK : Int) :
    GenerateProfileForUser (sampleEnv dec search topK) 200 cachedDatabase "u1" =
      { profile := some { CID := "u1", ProfileRaw := "P2", Keywords := "K2", UpdatedAt := 0 }
        regenerated := true
        err := none
        db := { cachedDatabase with
          userProfiles :=
            [("u1", { CID := "u1", ProfileRaw := "P2", Keywords := "K2", UpdatedAt := 200 })] } } := by
  rfl

theorem cachedDatabase_stage2 (dec : Decoders) (search : Search) (topK : Int) (later : Int) :
    GenerateProfileForUser (sampleEnv dec search topK) later
        { cachedDatabase with
          userProfiles :=
            [("u1", { CID := "u1", ProfileRaw := "P2", Keywords := "K2", UpdatedAt := 200 })] }
        "u1" =
      { profile := some { CID := "u1", ProfileRaw := "P2", Keywords := "K2", UpdatedAt := 200 }
        regenerated := false
        err := none
        db := { cachedDatabase with
          userProfiles :=
            [("u1", { CID := "u1", ProfileRaw := "P2", Keywords := "K2", UpdatedAt := 200 })] } } := by
  have hne : ¬ ("u1" = "") := by decide
  simp [GenerateProfileForUser, GetCombinedUserData, cachedDatabase, sampleEnv, GoMap.get?,
    newerThan, hne, removeLaterDuplicates]

/-- C24 (code). In the run at instant 200 over the candidate `u1`, who has a
profile updated at instant 100, a cached snapshot with one item and a message
sent at instant 150, stage 1 regenerates the profile; stage 2, at the instant
`later`, calls `GenerateProfileForUser` again, finds no data newer than the
profile stage 1 has just written, and returns the cached item without
generating recommendations, whatever the search capability and the instant. -/
theorem C24_regenerated_profile_served_from_cache (dec : Decoders) (search : Search)
    (topK : Int) (later : Int) :
    (GenerateProfileForUser (sampleEnv dec search topK) 200 cachedDatabase "u1").regenerated =
      true ∧
    ((GenerateProfileForUser (sampleEnv dec search topK) 200 cachedDatabase "u1").db.userProfiles.get?
      "u1").map (fun p => (p.ProfileRaw, p.UpdatedAt)) = some ("P2", 200) ∧
    ∃ out, scheduledRun (sampleEnv dec search topK) 200 later ["u1"]
        cachedDatabase = some ([("u1", true)], [("u1", out)]) ∧
      out.generated = false ∧ out.searched = [] ∧ out.err = none ∧
      out.items = [kbItem "1" "T1"] ∧
      out.db.recommendationCache = cachedDatabase.recommendationCache := by
  have h₁ := cachedDatabase_stage1 dec search topK
  have h₂ := cachedDatabase_stage2 dec search topK later
  refine ⟨by rw [h₁], by rw [h₁]; rfl, ?_⟩
  refine ⟨{ items := [kbItem "1" "T1"], err := none, generated := false, searched := [],
            db := { cachedDatabase with
              userProfiles :=
                [("u1", { CID := "u1", ProfileRaw := "P2", Keywords := "K2",
                          UpdatedAt := 200 })] } }, ?_, rfl, rfl, rfl, rfl, rfl⟩
  simp only [scheduledRun, profileStage, recommendationStage, h₁, GenerateRecommendationsForUser, h₂]
  simp [GetRecommendations, cachedDatabase, GoMap.get?]

/-! ## C25: the persisted keyword list -/

theorem mergeDecoded_snd (fused : Bool) (ro : RangeOrder ℚ) (now : String)
    (oldProfile newProfile : GoMap JSON) (oldKeywords newKeywords : List String) :
    (mergeDecoded fused ro now oldProfile newProfile oldKeywords newKeywords).2 =
      if baseInterests oldProfile newProfile ≠ [] ∧
          sortedKeywords ro (collectKeywords oldProfile newProfile) = [] then
        DeduplicateSlice (oldKeywords ++ newKeywords) ++ baseInterests oldProfile newProfile
      else DeduplicateSlice (oldKeywords ++ newKeywords) := by
  have hb : DeduplicateSlice (appendInterests (appendInterests [] oldProfile) newProfile) =
      baseInterests oldProfile newProfile := rfl
  simp only [mergeDecoded, hb]
  generalize baseInterests oldProfile newProfile = base
  generalize sortedKeywords ro (collectKeywords oldProfile newProfile) = sorted
  cases base with
  | nil => simp
  | cons b bs =>
    cases sorted with
    | nil => simp
    | cons w ws => simp

theorem perm_pair {α : Type} {x y : α} {l : List α} (h : l.Perm [x, y]) :
    l = [x, y] ∨ l = [y, x] := by
  have hlen := h.length_eq
  match l, hlen with
  | [p, q], _ =>
    have hp : p ∈ [x, y] := h.subset (by simp)
    have hq : q ∈ [x, y] := h.subset (by simp)
    have hx : x ∈ [p, q] := h.symm.subset (by simp)
    have hy : y ∈ [p, q] := h.symm.subset (by simp)
    simp only [List.mem_cons, List.mem_singleton, List.not_mem_nil, or_false] at hp hq hx hy
    rcases hp with rfl | rfl
    · rcases hq with rfl | rfl
      · rcases hy with rfl | rfl <;> simp
      · simp
    · rcases hq with rfl | rfl
      · simp
      · rcases hx with rfl | rfl <;> simp

/-- C25 (code). Merging an old payload with keyword `a` of weight 0.2 and keyword
list `["a"]` with a new payload with keyword `b` of weight 0.9 and keyword list
`["b"]` yields the weighted keywords `b`, `a` in this order, and the keyword
list `["a", "b"]`; from the profile persisted with them, whatever its payload
text, `extractKeywords` returns `["a", "b"]`, which is not the order of the
weighted keywords. -/
theorem C25_keywords_not_in_weight_order (ro : RangeOrder ℚ) (profileRaw : String)
    (unmarshalObject : String → Option (GoMap JSON)) :
    ∃ out, mergeProfiles false ro "t" (some (keywordPayload "a" (1 / 5)))
        (some (keywordPayload "b" (9 / 10))) (some ["a"]) (some ["b"]) = Except.ok out ∧
      weightedKeywordNames out.1 = ["b", "a"] ∧
      extractKeywords ⟨unmarshalStringsOf out.2, unmarshalObject⟩
        (some (persistedProfile "u1" profileRaw out)) = ["a", "b"] ∧
      extractKeywords ⟨unmarshalStringsOf out.2, unmarshalObject⟩
        (some (persistedProfile "u1" profileRaw out)) ≠ weightedKeywordNames out.1 := by
  refine ⟨_, mergeProfiles_ok false ro "t" _ _ _ _, ?_⟩
  have hbase : baseInterests (keywordPayload "a" (1 / 5)) (keywordPayload "b" (9 / 10)) = [] := by
    decide
  have hsnd : (mergeDecoded false ro "t" (keywordPayload "a" (1 / 5))
      (keywordPayload "b" (9 / 10)) ["a"] ["b"]).2 = ["a", "b"] := by
    rw [mergeDecoded_snd, hbase]
    simp only [ne_eq, not_true_eq_false, false_and, if_false]
    decide
  have hcollect : collectKeywords (keywordPayload "a" (1 / 5)) (keywordPayload "b" (9 / 10)) =
      [("a", 1 / 5), ("b", 9 / 10)] := by
    simp [collectKeywords, keywordPayload, GoMap.get?, oldKeywordLoop, newKeywordLoop, asString,
      asFloat, GoMap.set]
  have hsorted : sortedKeywords ro [("a", (1 / 5 : ℚ)), ("b", 9 / 10)] =
      [⟨"b", 9 / 10⟩, ⟨"a", 1 / 5⟩] := by
    unfold sortedKeywords
    rcases perm_pair (ro.perm [("a", (1 / 5 : ℚ)), ("b", 9 / 10)]) with h | h
    · rw [h]
      simp only [List.map_cons, List.map_nil, List.insertionSort, List.orderedInsert, weightGE]
      norm_num
    · rw [h]
      simp only [List.map_cons, List.map_nil, List.insertionSort, List.orderedInsert, weightGE]
      norm_num
  have hnames : weightedKeywordNames (mergeDecoded false ro "t" (keywordPayload "a" (1 / 5))
      (keywordPayload "b" (9 / 10)) ["a"] ["b"]).1 = ["b", "a"] := by
    rw [weightedKeywordNames, weightedKeywordsOf_mergeDecoded, hbase, hcollect, hsorted]
    simp [finalKeywords]
  have hext : extractKeywords ⟨unmarshalStringsOf ["a", "b"], unmarshalObject⟩
      (some (persistedProfile "u1" profileRaw (mergeDecoded false ro "t"
        (keywordPayload "a" (1 / 5)) (keywordPayload "b" (9 / 10)) ["a"] ["b"]))) = ["a", "b"] := by
    have hne : marshalStrings ["a", "b"] ≠ "" := by decide
    simp only [persistedProfile, hsnd]
    simp [extractKeywords, unmarshalStringsOf, hne]
  rw [hsnd, hnames, hext]
  exact ⟨rfl, rfl, by decide⟩

/-! ## C26: the failure of the profile inference -/

theorem segmentResults_failing (segments : List String) :
    segmentResults failingLLM segments = segments.map fun _ => "" := by
  simp [segmentResults, failingLLM]

theorem foldl_mergeSegment_empty (unmarshalObject : String → Option (GoMap JSON))
    (segments : List String) (acc : SegmentAcc) :
    (segments.map fun _ => "").foldl (mergeSegment unmarshalObject) acc = acc := by
  induction segments with
  | nil => rfl
  | cons s rest ih => simpa [mergeSegment] using ih

theorem processSegments_failing (fused : Bool) (ro : RangeOrder ℚ) (now : String)
    (unmarshalObject : String → Option (GoMap JSON)) (segments : List String) :
    processSegmentsInParallel fused ro now failingLLM unmarshalObject segments =
      Except.ok (defaultProfile now, ["区块链入门", "数字货币基础", "无链生态", "DW20", "钱包使用"]) := by
  have hs : sortedKeywords ro [] = [] := (sortedKeywords_eq_nil ro []).2 rfl
  have hd : DeduplicateSlice [] = [] := by decide
  simp only [processSegmentsInParallel, segmentResults_failing, foldl_mergeSegment_empty, hs, hd]
  simp [GoMap.set, defaultProfile, defaultKeywords]

/-- C26 (code). When the LLM call fails for every segment,
`fetchUserProfileFromRAGWithData` returns, without error and whatever the user's
data, the default profile with the interests 区块链, 数字货币, 无链生态 and the
user type 新手. For the user whose one post is about bitcoin,
`fallbackProfileGeneration` yields the interest 比特币 with weight 1 and the
activity level `low`, which is not what is returned. -/
theorem C26_llm_failure_returns_default (fused : Bool) (ro : RangeOrder ℚ)
    (roFreq : RangeOrder Nat) (now : String) (unmarshalObject : String → Option (GoMap JSON))
    (buildUserAnalysisPrompt : String → CombinedUserData → String)
    (splitPrompt : String → List String) :
    (∀ cid userData,
      fetchUserProfileFromRAGWithData fused ro roFreq now failingLLM unmarshalObject
          buildUserAnalysisPrompt splitPrompt cid userData =
        Except.ok (defaultProfile now,
          ["区块链入门", "数字货币基础", "无链生态", "DW20", "钱包使用"])) ∧
    (∃ out, fallbackProfileGeneration roFreq now "u1" bitcoinUser = Except.ok out ∧
      interestsOf out.1 = ["比特币"] ∧ weightedKeywordsOf out.1 = [⟨"比特币", 1⟩] ∧
      activityLevelOf out.1 = some "low" ∧ out.2 = ["比特币"] ∧
      interestsOf out.1 ≠ interestsOf (defaultProfile now)) := by
  constructor
  · intro cid userData
    simp only [fetchUserProfileFromRAGWithData, callLLMForUserProfile, processSegments_failing]
  · have hfreq : keywordFrequencies bitcoinUser = [("比特币", 1)] := by decide
    have hrun : roFreq.run [("比特币", 1)] = [("比特币", 1)] :=
      List.perm_singleton.1 (roFreq.perm _)
    have hlevel : determineActivityLevel bitcoinUser = "low" := by decide
    have hfb : ∃ rest : Value × Value, fallbackProfileGeneration roFreq now "u1" bitcoinUser =
        Except.ok ([("user_id", Value.string "u1"), ("data_sources", rest.1),
          ("content_sources", rest.2), ("interests", Value.strings ["比特币"]),
          ("weighted_keywords", Value.keywords [⟨"比特币", 1⟩]),
          ("activity_level", Value.string "low"), ("updated_at", Value.string now)],
          ["比特币"]) := by
      refine ⟨(Value.json (JSON.obj
          [("community_posts", JSON.bool bitcoinUser.HasCommunityData),
           ("group_activity", JSON.bool bitcoinUser.HasGroupData)]),
        Value.json (JSON.obj
          [("community_posts_count", JSON.num bitcoinUser.CommunityPosts.length),
           ("group_messages_count", JSON.num bitcoinUser.GroupMessages.length),
           ("active_groups", JSON.arr (bitcoinUser.ActiveGroups.map JSON.str))])), ?_⟩
      simp only [fallbackProfileGeneration, hfreq, hrun, hlevel]
      simp [List.insertionSort]
    obtain ⟨rest, hrest⟩ := hfb
    refine ⟨_, hrest, ?_, ?_, ?_, rfl, ?_⟩
    · simp [interestsOf, GoMap.get?]
    · simp [weightedKeywordsOf, GoMap.get?]
    · simp [activityLevelOf, GoMap.get?]
    · simp [interestsOf, GoMap.get?, defaultProfile, defaultInterests]

/-! ## C27: the merged weighted keywords -/

theorem mem_keys_oldKeywordLoop (m : GoMap ℚ) (items : List JSON) (k : String) :
    k ∈ (oldKeywordLoop m items).keys ↔
      k ∈ m.keys ∨ (k ≠ "" ∧ k ∈ (keywordPairs items).map Prod.fst) := by
  induction items generalizing m with
  | nil => simp [oldKeywordLoop, keywordPairs]
  | cons item rest ih =>
    cases item with
    | obj kwObj =>
      have hpairs : keywordPairs (JSON.obj kwObj :: rest) =
          (asString (GoMap.get? kwObj "keyword"), asFloat (GoMap.get? kwObj "weight")) ::
            keywordPairs rest := by
        simp [keywordPairs]
      rw [hpairs]
      by_cases hkw : asString (GoMap.get? kwObj "keyword") = ""
      · simp only [oldKeywordLoop, hkw, ne_eq, not_true_eq_false, if_false, List.map_cons,
          List.mem_cons]
        rw [ih]
        constructor
        · rintro (h | ⟨h₁, h₂⟩)
          · exact Or.inl h
          · exact Or.inr ⟨h₁, Or.inr h₂⟩
        · rintro (h | ⟨h₁, h₂ | h₂⟩)
          · exact Or.inl h
          · exact absurd h₂ h₁
          · exact Or.inr ⟨h₁, h₂⟩
      · simp only [oldKeywordLoop, ne_eq, hkw, not_false_eq_true, if_true, List.map_cons,
          List.mem_cons]
        rw [ih, GoMap.mem_keys_set]
        constructor
        · rintro ((h | h) | ⟨h₁, h₂⟩)
          · exact Or.inr ⟨by rw [h]; exact hkw, Or.inl h⟩
          · exact Or.inl h
          · exact Or.inr ⟨h₁, Or.inr h₂⟩
        · rintro (h | ⟨h₁, h₂ | h₂⟩)
          · exact Or.inl (Or.inr h)
          · exact Or.inl (Or.inl h₂)
          · exact Or.inr ⟨h₁, h₂⟩
    | null => simpa [oldKeywordLoop, keywordPairs] using ih m
    | bool b => simpa [oldKeywordLoop, keywordPairs] using ih m
    | num q => simpa [oldKeywordLoop, keywordPairs] using ih m
    | str s => simpa [oldKeywordLoop, keywordPairs] using ih m
    | arr xs => simpa [oldKeywordLoop, keywordPairs] using ih m

theorem mem_keys_newKeywordStep (m : GoMap ℚ) (p : String × ℚ) (k : String) :
    k ∈ (newKeywordStep m p).keys ↔ k ∈ m.keys ∨ (k ≠ "" ∧ k = p.1) := by
  unfold newKeywordStep
  by_cases hp : p.1 = ""
  · simp only [hp, if_true]
    constructor
    · exact fun h => Or.inl h
    · rintro (h | ⟨h₁, h₂⟩)
      · exact h
      · exact absurd h₂ h₁
  · have hset : k ∈ (m.set p.1 p.2).keys ↔ k ∈ m.keys ∨ (k ≠ "" ∧ k = p.1) := by
      rw [GoMap.mem_keys_set]
      constructor
      · rintro (h | h)
        · exact Or.inr ⟨by rw [h]; exact hp, h⟩
        · exact Or.inl h
      · rintro (h | ⟨_, h⟩)
        · exact Or.inr h
        · exact Or.inl h
    cases hg : m.get? p.1 with
    | none => simpa [hp] using hset
    | some w =>
      by_cases hw : p.2 > w
      · simpa [hp, hw] using hset
      · simp only [hp, hw, if_false]
        have hin : p.1 ∈ m.keys := by
          by_contra hnot
          rw [(GoMap.get?_eq_none_iff m p.1).2 hnot] at hg
          cases hg
        constructor
        · exact fun h => Or.inl h
        · rintro (h | ⟨_, h⟩)
          · exact h
          · rw [h]
            exact hin

theorem mem_keys_newKeywordFold (m : GoMap ℚ) (pairs : List (String × ℚ)) (k : String) :
    k ∈ (pairs.foldl newKeywordStep m).keys ↔
      k ∈ m.keys ∨ (k ≠ "" ∧ k ∈ pairs.map Prod.fst) := by
  induction pairs generalizing m with
  | nil => simp
  | cons p rest ih =>
    rw [List.foldl_cons, ih, mem_keys_newKeywordStep]
    simp only [List.map_cons, List.mem_cons]
    tauto

theorem mem_keys_collectKeywords_old (oldProfile : GoMap JSON) (k : String) :
    k ∈ (collectKeywords oldProfile []).keys ↔
      k ≠ "" ∧ k ∈ (weightedPairs oldProfile).map Prod.fst := by
  unfold collectKeywords weightedPairs
  cases ho : oldProfile.get? "weighted_keywords" with
  | none => simp [GoMap.get?, GoMap.keys]
  | some jo =>
    cases jo with
    | arr oldWk =>
      simp only [GoMap.get?]
      rw [mem_keys_oldKeywordLoop]
      simp [GoMap.keys]
    | null => simp [GoMap.get?, GoMap.keys]
    | bool b => simp [GoMap.get?, GoMap.keys]
    | num q => simp [GoMap.get?, GoMap.keys]
    | str s => simp [GoMap.get?, GoMap.keys]
    | obj kvs => simp [GoMap.get?, GoMap.keys]

/-- The keys of the keyword map are the non-empty keywords of the two payloads. -/
theorem mem_keys_collectKeywords (oldProfile newProfile : GoMap JSON) (k : String) :
    k ∈ (collectKeywords oldProfile newProfile).keys ↔
      k ≠ "" ∧ (k ∈ (weightedPairs oldProfile).map Prod.fst ∨
        k ∈ (weightedPairs newProfile).map Prod.fst) := by
  rw [collectKeywords_eq, mem_keys_newKeywordFold, mem_keys_collectKeywords_old]
  tauto

theorem sortedKeywords_names_perm (ro : RangeOrder ℚ) (m : GoMap ℚ) :
    ((sortedKeywords ro m).map fun wk => wk.Keyword).Perm m.keys := by
  unfold sortedKeywords GoMap.keys
  refine ((List.perm_insertionSort weightGE _).map _).trans ?_
  rw [List.map_map]
  exact (ro.perm m).map _

theorem decayUnits_succ_le (fused : Bool) (i : Nat) :
    decayUnits fused (i + 1) ≤ decayUnits fused i := by
  by_cases h8 : 8 ≤ i
  · rw [decayUnits_of_ge_eight fused i h8, decayUnits_of_ge_eight fused (i + 1) (by omega)]
  · by_cases h7 : i = 7
    · subst h7
      rw [decayUnits_of_ge_eight fused 8 (le_refl 8)]
      cases fused <;> decide
    · have hlt : i < 7 := by omega
      interval_cases i <;> cases fused <;> decide

theorem decayWeight_antitone (fused : Bool) : Antitone (decayWeight fused) := by
  apply antitone_nat_of_succ_le
  intro i
  unfold decayWeight F64.toRat
  apply div_le_div_of_nonneg_right _ (by positivity)
  exact_mod_cast decayUnits_succ_le fused i

theorem decayKeywords_weight_of_mem (fused : Bool) (i : Nat) (xs : List String)
    (wk : WeightedKeyword) (h : wk ∈ decayKeywords fused i xs) :
    ∃ n, i ≤ n ∧ wk.Weight = decayWeight fused n := by
  induction xs generalizing i with
  | nil => simp [decayKeywords] at h
  | cons x rest ih =>
    simp only [decayKeywords, List.mem_cons] at h
    rcases h with h | h
    · exact ⟨i, le_refl i, by rw [h]⟩
    · obtain ⟨n, hn, hw⟩ := ih (i + 1) h
      exact ⟨n, by omega, hw⟩

theorem decayKeywords_sorted (fused : Bool) (i : Nat) (xs : List String) :
    (decayKeywords fused i xs).Sorted weightGE := by
  induction xs generalizing i with
  | nil => simp [decayKeywords]
  | cons x rest ih =>
    simp only [decayKeywords, List.sorted_cons]
    refine ⟨?_, ih (i + 1)⟩
    intro b hb
    obtain ⟨n, hn, hw⟩ := decayKeywords_weight_of_mem fused (i + 1) rest b hb
    show b.Weight ≤ decayWeight fused i
    rw [hw]
    exact decayWeight_antitone fused (by omega)

/-- C27. For payloads and keyword lists that decode, `mergeProfiles` succeeds
and the `weighted_keywords` of the merged profile list no keyword twice and are
in non-increasing order of weight; when some weighted keyword of either payload
is non-empty, the keywords listed are exactly the non-empty keywords of the
weighted keywords of the two payloads. -/
theorem C27_weighted_keywords_invariants (fused : Bool) (ro : RangeOrder ℚ) (now : String)
    (oldProfile newProfile : GoMap JSON) (oldKeywords newKeywords : List String) :
    ∃ out, mergeProfiles fused ro now (some oldProfile) (some newProfile) (some oldKeywords)
        (some newKeywords) = Except.ok out ∧
      ((weightedKeywordsOf out.1).map fun wk => wk.Keyword).Nodup ∧
      (weightedKeywordsOf out.1).Sorted weightGE ∧
      ((∃ p ∈ weightedPairs oldProfile ++ weightedPairs newProfile, p.1 ≠ "") →
        ∀ k, k ∈ (weightedKeywordsOf out.1).map (fun wk => wk.Keyword) ↔
          k ≠ "" ∧ (k ∈ (weightedPairs oldProfile).map Prod.fst ∨
            k ∈ (weightedPairs newProfile).map Prod.fst)) := by
  refine ⟨_, mergeProfiles_ok fused ro now oldProfile newProfile oldKeywords newKeywords, ?_⟩
  rw [weightedKeywordsOf_mergeDecoded]
  have hperm := sortedKeywords_names_perm ro (collectKeywords oldProfile newProfile)
  by_cases hsyn : baseInterests oldProfile newProfile ≠ [] ∧
      sortedKeywords ro (collectKeywords oldProfile newProfile) = []
  · simp only [finalKeywords, hsyn, ne_eq, not_false_eq_true, and_self, if_true]
    refine ⟨?_, decayKeywords_sorted fused 0 _, ?_⟩
    · rw [decayKeywords_map_keyword, baseInterests_eq]
      exact nodup_removeLaterDuplicates _
    · rintro ⟨p, hp, hne⟩
      exfalso
      have hkey : p.1 ∈ (collectKeywords oldProfile newProfile).keys := by
        rw [mem_keys_collectKeywords]
        refine ⟨hne, ?_⟩
        rcases List.mem_append.1 hp with h | h
        · exact Or.inl (List.mem_map_of_mem Prod.fst h)
        · exact Or.inr (List.mem_map_of_mem Prod.fst h)
      have hnil := (sortedKeywords_eq_nil ro _).1 hsyn.2
      rw [hnil] at hkey
      simp [GoMap.keys] at hkey
  · have hfin : finalKeywords fused (baseInterests oldProfile newProfile)
        (sortedKeywords ro (collectKeywords oldProfile newProfile)) =
        sortedKeywords ro (collectKeywords oldProfile newProfile) := by
      simp only [finalKeywords]
      rw [if_neg hsyn]
    rw [hfin]
    refine ⟨?_, sorted_sortedKeywords ro _, ?_⟩
    · exact hperm.nodup_iff.2 (collectKeywords_nodup oldProfile newProfile)
    · intro _ k
      rw [hperm.mem_iff]
      exact mem_keys_collectKeywords oldProfile newProfile k

/-! ## C28: the merged keyword list -/

/-- C28 (code). With the old keyword list `["go"]`, the old interests `["go"]` and
no weighted keywords in either payload, the weighted keywords are synthesised
from the interests and the keyword list `mergeProfiles` returns is
`["go", "go"]`: the interest is appended to the deduplicated list without a
second deduplication. -/
theorem C28_duplicate_keyword (ro : RangeOrder ℚ) :
    ∃ out, mergeProfiles false ro "t" (some (interestPayload ["go"])) (some [])
        (some ["go"]) (some []) = Except.ok out ∧
      out.2 = ["go", "go"] ∧ ¬ out.2.Nodup := by
  refine ⟨_, mergeProfiles_ok false ro "t" _ _ _ _, ?_⟩
  have hbase : baseInterests (interestPayload ["go"]) [] = ["go"] := by decide
  have hcollect : collectKeywords (interestPayload ["go"]) [] = [] := by decide
  have hsnd : (mergeDecoded false ro "t" (interestPayload ["go"]) [] ["go"] []).2 =
      ["go", "go"] := by
    rw [mergeDecoded_snd, hbase, hcollect, (sortedKeywords_eq_nil ro []).2 rfl]
    decide
  rw [hsnd]
  exact ⟨rfl, by decide⟩

/-! ## C29: the joined keys -/

theorem aggregate_pair_of_key (ro : RangeOrder RecommendationItem) (a b : RecommendationItem)
    (hkey : itemKey a = itemKey b) (hlt : a.Score < b.Score) :
    aggregate ro [a] [b] 10 = [b] := by
  have hm : aggregate.loop [] [a, b] = [(itemKey b, b)] := by
    simp [aggregate.loop, GoMap.get?, GoMap.set, hkey, hlt]
  have hrun : ro.run [(itemKey b, b)] = [(itemKey b, b)] := List.perm_singleton.1 (ro.perm _)
  simp [aggregate, hm, hrun]

/-- C29 (code). The items `(a|b, c, T)` and `(a, b|c, T)`, given as (source,
reference id, title), differ in source and reference id, yet `aggregate` keeps
only the one with the higher score; the documents `(a|b, c)` and `(a, b|c)`,
given as (reference id, title), differ in both components, yet
`SearchKnowledgeBaseByProfile` keeps only the first. -/
theorem C29_key_collision (ro : RangeOrder RecommendationItem) :
    itemTriple (keyedItem "a|b" "c" "T" (1 / 2)) ≠ itemTriple (keyedItem "a" "b|c" "T" (9 / 10)) ∧
    aggregate ro [keyedItem "a|b" "c" "T" (1 / 2)] [keyedItem "a" "b|c" "T" (9 / 10)] 10 =
      [keyedItem "a" "b|c" "T" (9 / 10)] ∧
    ((kbItem "a|b" "c").RefID, (kbItem "a|b" "c").Title) ≠
      ((kbItem "a" "b|c").RefID, (kbItem "a" "b|c").Title) ∧
    SearchKnowledgeBaseByProfile collidingSearch 10 ["k"] =
      some [{ kbItem "a|b" "c" with Source := "knowledge_base", SearchKeyword := "k" }] := by
  refine ⟨by decide, ?_, by decide, ?_⟩
  · exact aggregate_pair_of_key ro _ _ (by decide) (by norm_num [keyedItem])
  · decide

/-! ## C30: the truncation -/

/-- C30 (code). With `RAG.TopK = -1` the slice expressions of
`SearchKnowledgeBaseByProfile` and `GetHotTopicsAsRecommendations` panic, for
every search, keyword list and list of hot topics, the empty ones included,
while `aggregate` with `topN = -1` returns its list. -/
theorem C30_negative_topK_panics (search : Search) (keywords : List String)
    (format : String → String → String × String) (hotTopics : List HotTopic)
    (ro : RangeOrder RecommendationItem) :
    SearchKnowledgeBaseByProfile search (-1) keywords = none ∧
    GetHotTopicsAsRecommendations format (-1) (Except.ok hotTopics) = none ∧
    SearchKnowledgeBaseByProfile search (-1) [] = none ∧
    aggregate ro [ragItem 1] [] (-1) = [ragItem 1] := by
  have htrunc : ∀ l : List RecommendationItem, truncateTopK (-1) l = none := by
    intro l
    have h : ((l.length : Nat) : Int) > -1 := by omega
    simp [truncateTopK, h]
  refine ⟨htrunc _, ?_, htrunc _, ?_⟩
  · simp [GetHotTopicsAsRecommendations, htrunc]
  · have hm : aggregate.loop [] [ragItem 1] = [(itemKey (ragItem 1), ragItem 1)] := by
      simp [aggregate.loop, GoMap.get?, GoMap.set]
    have hrun : ro.run [(itemKey (ragItem 1), ragItem 1)] = [(itemKey (ragItem 1), ragItem 1)] :=
      List.perm_singleton.1 (ro.perm _)
    simp [aggregate, hm, hrun]

end AiPush
